import Mathlib

/-!
bbPairing-go: tournament standings and the pairing-engine exchange.

A shallow embedding of `src/main.go` and the properties of its registry,
result recorder, ranking engine and response decoder.

Conventions of the embedding.

* A Go `map[K]V` is an association list read by `mapGet` and written by
  `mapSet`; a `*Player` stored in `Participants` is held by value under its
  key (the program never stores one player under two keys, and never stores
  a nil pointer).
* `float64` points are always whole numbers of half points in this program
  (the score table holds 1.0, 0.5, 0.0 and -1.0), and sums of such values are
  exact in `float64`; they are held as the number of half points, so that
  `one = 2` stands for 1.0 and `half = 1` for 0.5.
* A Go call that can panic returns an `Option` (or an `Outcome`, when the
  state reached at the panic matters): `none` is the panic.
* `sort.Slice` belongs to the Go library.  On slices of at most twelve
  elements it runs the insertion sort reproduced in `insertionSort` (Go 1.19
  and later; earlier releases run the same plain insertion sort up to six
  elements); what it does on longer slices is the parameter `long` of
  `sortSlice`, of which only `SortContract` is relied on.  Every concrete
  tournament evaluated below has at most six players.
* The comparison handed to `sort.Slice` reads the identifiers at the two
  indices of the slice being sorted, so it is a function of two identifiers;
  it panics when a lookup in `Participants` yields nil or a history index is
  out of range.
-/

namespace BbPairing

/-! ## Data model -/

/-- Go `type Color int`. -/
abbrev Color := Int

def Neutral : Color := 0
def Black : Color := 1
def White : Color := 2

def Draw : String := "="
def Win : String := "1"
def Loss : String := "0"
def Bye : String := "+"
def Forefeit : String := "-"

/-- A `float64` that is a whole number of half points, held as that number. -/
abbrev Float64 := Int

/-- The value 1.0. -/
def one : Float64 := 2
/-- The value 0.5. -/
def half : Float64 := 1
/-- The value 0.0. -/
def zero : Float64 := 0

/-- Go `ScoreMap[score]`; a key that is not in the table reads as 0.0. -/
def ScoreMap (score : String) : Float64 :=
  if score = Win then one
  else if score = Draw then half
  else if score = Loss then zero
  else if score = Forefeit then -one
  else if score = Bye then one
  else zero

abbrev ID := String

def BYE_DUMMY_ID : ID := "FFFFFFFFFFFF"

structure Result where
  OpponentID : ID
  Color : String
  Score : String
deriving DecidableEq, Repr

structure Player where
  ID : ID
  Rating : Int
  Points : Float64
  RatingPos : Int
  PointsPos : Int
  Results : List Result
deriving DecidableEq, Repr

structure Pair where
  White : ID
  Black : ID
deriving DecidableEq, Repr

structure RoundInfo where
  Round : Int
  Pairs : List Pair
deriving DecidableEq, Repr

structure Tournament where
  Name : String
  Participants : List (ID × Player)
  Rounds : Nat
  RatingsRank : List ID
  PointsRank : List ID
  RanktoIDs : List (Int × ID)
  Ongoing : Bool
deriving DecidableEq, Repr

/-- What a call that may panic leaves behind: the state it returned with, or
the state it had reached when it panicked. -/
inductive Outcome where
  | ok (t : Tournament)
  | panic (t : Tournament)
deriving DecidableEq, Repr

/-! ## Go maps -/

/-- Go map read `m[k]` with the comma-ok flag: the value under `k`, if any. -/
def mapGet {κ ν : Type} [DecidableEq κ] : List (κ × ν) → κ → Option ν
  | [], _ => none
  | (k', v) :: m, k => if k' = k then some v else mapGet m k

/-- Go map write `m[k] = v`. -/
def mapSet {κ ν : Type} [DecidableEq κ] : List (κ × ν) → κ → ν → List (κ × ν)
  | [], k, v => [(k, v)]
  | (k', v') :: m, k, v => if k' = k then (k, v) :: m else (k', v') :: mapSet m k v

/-! ## sort.Slice -/

/-- Inner loop of the library's `insertionSort_func`:
`for j := i; j > a && less(j, j-1); j-- { swap(j, j-1) }`.
The element `x` sits right of the slice prefix given nearest neighbour
first; it is swapped left past every neighbour it is less than and stops at
the first one it is not less than.  The result is again nearest-to-the-right
first. -/
def bubbleLeft {α : Type} (less : α → α → Option Bool) (x : α) : List α → Option (List α)
  | [] => some [x]
  | y :: ys =>
    match less x y with
    | none => none
    | some true => (bubbleLeft less x ys).map (fun r => y :: r)
    | some false => some (x :: y :: ys)

/-- Outer loop of `insertionSort_func`: `for i := a + 1; i < b; i++`.
`done` is the prefix handled so far, last element first. -/
def insertionLoop {α : Type} (less : α → α → Option Bool) : List α → List α → Option (List α)
  | done, [] => some done.reverse
  | done, x :: rest =>
    match bubbleLeft less x done with
    | none => none
    | some done' => insertionLoop less done' rest

/-- The library's `insertionSort_func` over a whole slice. -/
def insertionSort {α : Type} (less : α → α → Option Bool) (xs : List α) : Option (List α) :=
  insertionLoop less [] xs

/-- A sorting routine over identifiers driven by a comparison that may panic. -/
abbrev Sorter := (ID → ID → Option Bool) → List ID → Option (List ID)

/-- Go `sort.Slice(xs, less)`, the comparison being read on the elements at
the two indices: insertion sort up to twelve elements (`maxInsertion` in
`pdqsort_func`), the routine `long` above that. -/
def sortSlice (long : Sorter) (less : ID → ID → Option Bool) (xs : List ID) : Option (List ID) :=
  if xs.length ≤ 12 then insertionSort less xs else long less xs

/-- What is relied on about the library's routine for long slices: it only
rearranges the slice, it does not panic unless the comparison does, and the
order it leaves follows every transitive relation that the answers of the
comparison agree with (for a strict weak ordering this is sortedness). -/
def SortContract (long : Sorter) : Prop :=
  (∀ less xs ys, long less xs = some ys → ys.Perm xs) ∧
  (∀ less xs, (∀ a ∈ xs, ∀ b ∈ xs, (less a b).isSome) → (long less xs).isSome) ∧
  (∀ less xs ys (R : ID → ID → Prop), (∀ a b c, R a b → R b c → R a c) →
    (∀ a ∈ xs, ∀ b ∈ xs, (less a b = some true → R a b) ∧ (less a b = some false → R b a)) →
    long less xs = some ys → ys.Pairwise R)

/-! ## Player registry -/

def NewTournament (name : String) (rounds : Nat) : Tournament :=
  { Name := name
    Participants := [(BYE_DUMMY_ID,
      { ID := BYE_DUMMY_ID, Rating := 0, Points := zero, RatingPos := 0, PointsPos := 0,
        Results := [] })]
    Rounds := rounds
    RatingsRank := []
    PointsRank := []
    RanktoIDs := [(0, BYE_DUMMY_ID)]
    Ongoing := false }

/-- Go `AddParticpant`: the second component is the returned pointer, `none`
for nil. -/
def AddParticpant (t : Tournament) (playerId : ID) (rating : Int) : Tournament × Option Player :=
  match mapGet t.Participants playerId with
  | some _ => (t, none)
  | none =>
    let participant : Player :=
      { ID := playerId, Rating := rating, Points := zero, RatingPos := 0, PointsPos := 0,
        Results := [] }
    ({ t with
        Participants := mapSet t.Participants playerId participant
        RatingsRank := t.RatingsRank ++ [participant.ID] },
      some participant)

/-- The comparison of `Start`:
`Participants[RatingsRank[i]].Rating > Participants[RatingsRank[j]].Rating`. -/
def ratingLess (t : Tournament) (a b : ID) : Option Bool :=
  match mapGet t.Participants a, mapGet t.Participants b with
  | some pa, some pb => some (decide (pa.Rating > pb.Rating))
  | _, _ => none

/-- The loop of `Start` over `RatingsRank`, `idx` being the index reached. -/
def assignRatingPos : Tournament → List ID → Nat → Option Tournament
  | t, [], _ => some t
  | t, id :: rest, idx =>
    match mapGet t.Participants id with
    | none => none
    | some p =>
      assignRatingPos
        { t with
          Participants := mapSet t.Participants id { p with RatingPos := (idx : Int) + 1 }
          RanktoIDs := mapSet t.RanktoIDs ((idx : Int) + 1) id }
        rest (idx + 1)

def Start (long : Sorter) (t : Tournament) : Option Tournament :=
  match sortSlice long (ratingLess t) t.RatingsRank with
  | none => none
  | some sorted =>
    match assignRatingPos { t with RatingsRank := sorted } sorted 0 with
    | none => none
    | some t2 => some { t2 with PointsRank := t2.RatingsRank, Ongoing := true }

/-! ## Result recorder -/

def Player.addResult (p : Player) (color : Color) (score : String)
    (opponentID : BbPairing.ID) : Player :=
  let colorStr := if color ≠ White then "b" else "w"
  { p with
    Results := p.Results ++ [{ OpponentID := opponentID, Color := colorStr, Score := score }]
    Points := p.Points + ScoreMap score }

def AssignBye (t : Tournament) (playerId : ID) : Outcome :=
  match mapGet t.Participants playerId with
  | none => .panic t
  | some player =>
    .ok { t with
      Participants := mapSet t.Participants playerId (player.addResult White Bye BYE_DUMMY_ID) }

/-- Go `RecordGameResult`.  Both pointers are fetched first; the white player
is updated, then the black one (the same player when the two identifiers are
equal), and a nil pointer panics at its own `addResult`. -/
def RecordGameResult (t : Tournament) (whiteID blackID : ID) (winner : Color) : Outcome :=
  let scores : String × String :=
    if winner = White then (Win, Loss)
    else if winner = Black then (Loss, Win)
    else (Draw, Draw)
  match mapGet t.Participants whiteID with
  | none => .panic t
  | some playerWhite =>
    let t1 : Tournament :=
      { t with
        Participants :=
          mapSet t.Participants whiteID (playerWhite.addResult White scores.1 blackID) }
    match mapGet t1.Participants blackID with
    | none => .panic t1
    | some playerBlack =>
      .ok { t1 with
        Participants :=
          mapSet t1.Participants blackID (playerBlack.addResult Black scores.2 whiteID) }

/-! ## Ranking engine -/

/-- The loop of `havePlayedAgainstEachOther` over `playerA.Results` from
index `idx` on, `acc` being `(playerAScore, playerBScore)` so far;
`playerB.Results[idx]` out of range is the panic. -/
def headToHeadLoop (playerB : Player) : List Result → Nat → Float64 × Float64 →
    Option (Float64 × Float64)
  | [], _, acc => some acc
  | result :: rest, idx, acc =>
    if result.OpponentID = playerB.ID then
      match playerB.Results.get? idx with
      | none => none
      | some other =>
        headToHeadLoop playerB rest (idx + 1) (ScoreMap result.Score, ScoreMap other.Score)
    else headToHeadLoop playerB rest (idx + 1) acc

def havePlayedAgainstEachOther (playerA playerB : Player) : Option (Float64 × Float64) :=
  headToHeadLoop playerB playerA.Results 0 (zero, zero)

/-- The cascade of `sortPointsRanking` on two players. -/
def cascade (playerA playerB : Player) : Option Bool :=
  if playerA.Points ≠ playerB.Points then some (decide (playerA.Points > playerB.Points))
  else
    match havePlayedAgainstEachOther playerA playerB with
    | none => none
    | some (directA, directB) =>
      if directA ≠ directB then some (decide (directA > directB))
      else if playerA.Rating ≠ playerB.Rating then some (decide (playerA.Rating > playerB.Rating))
      else some true

/-- The comparison of `sortPointsRanking` on the identifiers at two indices. -/
def pointsLess (t : Tournament) (a b : ID) : Option Bool :=
  match mapGet t.Participants a, mapGet t.Participants b with
  | some playerA, some playerB => cascade playerA playerB
  | _, _ => none

/-- The loop of `sortPointsRanking` over `PointsRank`. -/
def assignPointsPos : Tournament → List ID → Nat → Option Tournament
  | t, [], _ => some t
  | t, id :: rest, position =>
    match mapGet t.Participants id with
    | none => none
    | some p =>
      assignPointsPos
        { t with
          Participants := mapSet t.Participants id { p with PointsPos := (position : Int) + 1 } }
        rest (position + 1)

def sortPointsRanking (long : Sorter) (t : Tournament) : Option Tournament :=
  match sortSlice long (pointsLess t) t.PointsRank with
  | none => none
  | some sorted => assignPointsPos { t with PointsRank := sorted } sorted 0

/-- Any sequence of `AddParticpant` calls, the returned pointers dropped. -/
def register (t : Tournament) : List (ID × Int) → Tournament
  | [] => t
  | (id, rating) :: rest => register (AddParticpant t id rating).1 rest

/-! ## Reachable states -/

/-- The states the exported operations lead to from a new tournament, in any
order; a recorder call counts when it returns (its identifiers are
registered), `Start` and the points sort when they do not panic. -/
inductive Reachable (long : Sorter) : Tournament → Prop
  | new (name : String) (rounds : Nat) : Reachable long (NewTournament name rounds)
  | add {t : Tournament} (id : ID) (rating : Int) :
      Reachable long t → Reachable long (AddParticpant t id rating).1
  | start {t t' : Tournament} :
      Reachable long t → Start long t = some t' → Reachable long t'
  | game {t t' : Tournament} (whiteID blackID : ID) (winner : Color) :
      Reachable long t → RecordGameResult t whiteID blackID winner = Outcome.ok t' →
      Reachable long t'
  | bye {t t' : Tournament} (playerId : ID) :
      Reachable long t → AssignBye t playerId = Outcome.ok t' → Reachable long t'
  | sort {t t' : Tournament} :
      Reachable long t → sortPointsRanking long t = some t' → Reachable long t'

/-- The registry is consistent: `RatingsRank` lists every registered
identifier but the sentinel exactly once, and the sentinel is registered. -/
def RegistryOk (t : Tournament) : Prop :=
  t.RatingsRank.Nodup ∧
  (∀ id, id ∈ t.RatingsRank ↔ (mapGet t.Participants id).isSome ∧ id ≠ BYE_DUMMY_ID) ∧
  (mapGet t.Participants BYE_DUMMY_ID).isSome

/-- The rating stored for an identifier (0 when it is not registered). -/
def ratingOf (t : Tournament) (id : ID) : Int :=
  match mapGet t.Participants id with
  | some p => p.Rating
  | none => 0

/-- The participants of the scenario of the specification. -/
def scenario : List (ID × Int) :=
  [("Emmanuel", 3000), ("Joy", 500), ("Peniel", 1000), ("Daniel", 4000)]

/-- One call of an exported operation. -/
inductive Op where
  | add (id : ID) (rating : Int)
  | start
  | game (whiteID blackID : ID) (winner : Color)
  | bye (playerId : ID)
  | sort
deriving DecidableEq, Repr

/-- The state a call returns with, `none` when it panics. -/
def step (long : Sorter) (t : Tournament) : Op → Option Tournament
  | Op.add id rating => some (AddParticpant t id rating).1
  | Op.start => Start long t
  | Op.game whiteID blackID winner =>
    match RecordGameResult t whiteID blackID winner with
    | Outcome.ok t' => some t'
    | Outcome.panic _ => none
  | Op.bye playerId =>
    match AssignBye t playerId with
    | Outcome.ok t' => some t'
    | Outcome.panic _ => none
  | Op.sort => sortPointsRanking long t

/-- A sequence of calls, stopped by the first panic. -/
def run (long : Sorter) (t : Tournament) : List Op → Option Tournament
  | [] => some t
  | op :: rest =>
    match step long t op with
    | none => none
    | some t' => run long t' rest

/-- The sum of the score values of a history. -/
def scoreSum (results : List Result) : Float64 :=
  (results.map (fun r => ScoreMap r.Score)).sum

/-- The scenario of the specification up to the first round: the four
participants, `Start`, Emmanuel beats Joy and Peniel beats Daniel, both as
White. -/
def roundOne : List Op :=
  [Op.add "Emmanuel" 3000, Op.add "Joy" 500, Op.add "Peniel" 1000, Op.add "Daniel" 4000,
   Op.start, Op.game "Emmanuel" "Joy" White, Op.game "Peniel" "Daniel" White]


/-- Every stored player has `Points` equal to the sum over its history. -/
def PointsOk (t : Tournament) : Prop :=
  ∀ id p, mapGet t.Participants id = some p → p.Points = scoreSum p.Results

/-- The points stored for an identifier (0.0 when it is not registered). -/
def pointsOf (t : Tournament) (id : ID) : Float64 :=
  match mapGet t.Participants id with
  | some p => p.Points
  | none => zero

/-- Both rankings are consistent with the registry: `PointsRank` lists
registered identifiers, each at most once. -/
def RanksOk (t : Tournament) : Prop :=
  RegistryOk t ∧ t.PointsRank.Nodup ∧
  (∀ id ∈ t.PointsRank, (mapGet t.Participants id).isSome)

/-- The score pair `RecordGameResult` gives White and Black. -/
def gameScores (winner : Color) : String × String :=
  if winner = White then (Win, Loss)
  else if winner = Black then (Loss, Win)
  else (Draw, Draw)

/-- The state a sequence of calls leads to from the tournament of the
demonstration, insertion sort doing every sort (the new tournament itself if
a call panics). -/
def after (ops : List Op) : Tournament :=
  (run insertionSort (NewTournament "My Tournament" 5) ops).getD
    (NewTournament "My Tournament" 5)

/-- Head-to-head decides nothing among the ranked players holding `points`:
every lookup between two of them returns two equal scores. -/
def headToHeadSilent (t : Tournament) (points : Float64) : Bool :=
  t.PointsRank.all fun x => t.PointsRank.all fun y =>
    match mapGet t.Participants x, mapGet t.Participants y with
    | some px, some py =>
      if px.Points = points ∧ py.Points = points then
        match havePlayedAgainstEachOther px py with
        | some (directX, directY) => decide (directX = directY)
        | none => false
      else true
    | _, _ => true

/-- Two rounds of six players, a points sort after each.  Round one: X beats
A, B beats Y, Z beats W.  Round two: A beats Y, Z beats B, W beats X. -/
def twoRounds : List Op :=
  [Op.add "A" 4000, Op.add "B" 3000, Op.add "X" 2000, Op.add "Z" 900, Op.add "W" 800,
   Op.add "Y" 700, Op.start,
   Op.game "X" "A" White, Op.game "B" "Y" White, Op.game "Z" "W" White, Op.sort,
   Op.game "A" "Y" White, Op.game "Z" "B" White, Op.game "W" "X" White]

/-- Two participants of equal rating, then `Start`. -/
def twoEqual : List Op :=
  [Op.add "A" 1000, Op.add "B" 1000, Op.start]

/-! ## Response decoder -/

/-- What `readPairFromFile` comes back with: the round information and a nil
error, the round information read so far and an error message, or a panic
(an index out of range). -/
inductive Decoded where
  | value (info : RoundInfo)
  | failure (info : RoundInfo) (message : String)
  | panic
deriving DecidableEq, Repr

/-- A decimal digit as `strconv.Atoi` reads it. -/
def digitValue (c : Char) : Option Nat :=
  if '0' ≤ c ∧ c ≤ '9' then some (c.toNat - '0'.toNat) else none

/-- The digits of `strconv.Atoi`, most significant first, `n` being the value
read so far; any other character is a syntax error. -/
def parseDigits : List Char → Nat → Option Nat
  | [], n => some n
  | c :: cs, n =>
    match digitValue c with
    | none => none
    | some d => parseDigits cs (n * 10 + d)

/-- The digits after the sign: at least one, and the value within the
64-bit `int`. -/
def parseMagnitude (negative : Bool) (digits : List Char) : Option Int :=
  match digits with
  | [] => none
  | _ =>
    match parseDigits digits 0 with
    | none => none
    | some n =>
      if negative then (if n ≤ 2 ^ 63 then some (-(n : Int)) else none)
      else (if n < 2 ^ 63 then some (n : Int) else none)

/-- Go `strconv.Atoi` with a 64-bit `int`: an optional sign and decimal
digits; `none` is a non-nil error. -/
def Atoi (s : String) : Option Int :=
  match s.toList with
  | '-' :: digits => parseMagnitude true digits
  | '+' :: digits => parseMagnitude false digits
  | digits => parseMagnitude false digits

/-- Go `unicode.IsSpace`. -/
def isSpace (c : Char) : Bool :=
  c = '\t' || c = '\n' || c.toNat = 0x0B || c.toNat = 0x0C || c = '\r' || c = ' ' ||
  c.toNat = 0x85 || c.toNat = 0xA0 || c.toNat = 0x1680 ||
  (0x2000 ≤ c.toNat && c.toNat ≤ 0x200A) || c.toNat = 0x2028 || c.toNat = 0x2029 ||
  c.toNat = 0x202F || c.toNat = 0x205F || c.toNat = 0x3000

/-- The scan of `strings.Fields`, `current` being the field under way, last
character first. -/
def fieldsLoop : List Char → List Char → List String
  | [], current => if current = [] then [] else [String.mk current.reverse]
  | c :: cs, current =>
    if isSpace c then
      (if current = [] then fieldsLoop cs [] else String.mk current.reverse :: fieldsLoop cs [])
    else fieldsLoop cs (c :: current)

/-- Go `strings.Fields`: the maximal runs of non-space characters. -/
def Fields (s : String) : List String :=
  fieldsLoop s.toList []

/-- Go `ranktoIDMap[pos]`: a missing key reads as the empty identifier. -/
def rankLookup (ranktoIDMap : List (Int × ID)) (pos : Int) : ID :=
  (mapGet ranktoIDMap pos).getD ""

/-- The loop of `readPairFromFile` over the lines after the first. -/
def readPairs (ranktoIDMap : List (Int × ID)) : List String → RoundInfo → Decoded
  | [], roundInfo => Decoded.value roundInfo
  | line :: rest, roundInfo =>
    match Fields line with
    | [] => Decoded.panic
    | white :: more =>
      match Atoi white with
      | none => Decoded.failure roundInfo ("invalid white ID: " ++ white)
      | some whitePos =>
        match more with
        | [] => Decoded.panic
        | black :: _ =>
          match Atoi black with
          | none => Decoded.failure roundInfo ("invalid black ID: " ++ black)
          | some blackPos =>
            readPairs ranktoIDMap rest
              { roundInfo with
                Pairs := roundInfo.Pairs ++
                  [{ White := rankLookup ranktoIDMap whitePos,
                     Black := rankLookup ranktoIDMap blackPos }] }

/-- Go `readPairFromFile`. The file is given as what opening and scanning it
yields: the error of `os.Open`, or the lines `bufio.Scanner` delivers, in
order and without their terminators. -/
def readPairFromFile (opened : Except String (List String)) (ranktoIDMap : List (Int × ID)) :
    Decoded :=
  match opened with
  | Except.error err => Decoded.failure { Round := 0, Pairs := [] } err
  | Except.ok [] => Decoded.value { Round := 0, Pairs := [] }
  | Except.ok (first :: rest) =>
    match Atoi first with
    | none => Decoded.failure { Round := 0, Pairs := [] } ("invalid round information: " ++ first)
    | some round => readPairs ranktoIDMap rest { Round := round, Pairs := [] }

/-! ## Started tournaments -/

/-- The states a started tournament passes through, `t0` being the state
right after `Start`: recorder calls that return (their identifiers are
registered) and points sorts that do not panic, in any order. -/
inductive Played (long : Sorter) (t0 : Tournament) : Tournament → Prop
  | started : Played long t0 t0
  | game {t t' : Tournament} (whiteID blackID : ID) (winner : Color) :
      Played long t0 t → RecordGameResult t whiteID blackID winner = Outcome.ok t' →
      Played long t0 t'
  | bye {t t' : Tournament} (playerId : ID) :
      Played long t0 t → AssignBye t playerId = Outcome.ok t' → Played long t0 t'
  | sort {t t' : Tournament} :
      Played long t0 t → sortPointsRanking long t = some t' → Played long t0 t'

/-- What a started tournament keeps of the state `t0` right after `Start`:
the rating ranking, the rank map and the number of stored players; of every
stored player the identifier, the rating and the rating position; every
opponent in a history is a stored player; and the sentinel has no points
position. -/
def KeepsStart (t0 t : Tournament) : Prop :=
  t.RatingsRank = t0.RatingsRank ∧ t.RanktoIDs = t0.RanktoIDs ∧
  t.Participants.length = t0.Participants.length ∧
  (∀ id, (mapGet t.Participants id = none ∧ mapGet t0.Participants id = none) ∨
    ∃ p p0, mapGet t.Participants id = some p ∧ mapGet t0.Participants id = some p0 ∧
      p.ID = p0.ID ∧ p.Rating = p0.Rating ∧ p.RatingPos = p0.RatingPos) ∧
  (∀ id p r, mapGet t.Participants id = some p → r ∈ p.Results →
    (mapGet t.Participants r.OpponentID).isSome) ∧
  (∀ p, mapGet t.Participants BYE_DUMMY_ID = some p → p.PointsPos = 0)

/-- A call made on a started tournament: a recorded game, a bye or a points
sort. -/
def Op.isPlay : Op → Bool
  | Op.game _ _ _ => true
  | Op.bye _ => true
  | Op.sort => true
  | _ => false

/-! ## Request encoder -/

/-- A started tournament recorded in lockstep: as `Played`, but every game
is recorded between two distinct players whose histories have the same
length, so that both entries of the game land at the same index. -/
inductive Lockstep (long : Sorter) (t0 : Tournament) : Tournament → Prop
  | started : Lockstep long t0 t0
  | game {t t' : Tournament} (whiteID blackID : ID) (winner : Color)
      (playerWhite playerBlack : Player) :
      Lockstep long t0 t → whiteID ≠ blackID →
      mapGet t.Participants whiteID = some playerWhite →
      mapGet t.Participants blackID = some playerBlack →
      playerWhite.Results.length = playerBlack.Results.length →
      RecordGameResult t whiteID blackID winner = Outcome.ok t' → Lockstep long t0 t'
  | bye {t t' : Tournament} (playerId : ID) :
      Lockstep long t0 t → AssignBye t playerId = Outcome.ok t' → Lockstep long t0 t'
  | sort {t t' : Tournament} :
      Lockstep long t0 t → sortPointsRanking long t = some t' → Lockstep long t0 t'

/-- The entry `other` is the other side of the game that the entry `mine`
of player `me` records: it names `me` as opponent, the colours are opposite
and the two scores are a pair `RecordGameResult` gives. -/
def Mirrored (me : ID) (mine other : Result) : Prop :=
  other.OpponentID = me ∧
  ∃ winner : Color,
    (mine.Color = "w" ∧ other.Color = "b" ∧ (mine.Score, other.Score) = gameScores winner) ∨
    (mine.Color = "b" ∧ other.Color = "w" ∧ (other.Score, mine.Score) = gameScores winner)

/-- Histories are aligned: an entry of player `a` against another player `b`
(not the sentinel) has the other side of that game at the same index of the
history of `b`. -/
def Aligned (t : Tournament) : Prop :=
  ∀ (a b : ID) (pa pb : Player), a ≠ b → b ≠ BYE_DUMMY_ID →
    mapGet t.Participants a = some pa → mapGet t.Participants b = some pb →
    ∀ (k : Nat) (r : Result), pa.Results[k]? = some r → r.OpponentID = b →
      ∃ rb, pb.Results[k]? = some rb ∧ Mirrored a r rb

/-- A call allowed in a lockstep recording of the state `t`: a bye, a points
sort, or a game between two distinct stored players whose histories have the
same length. -/
def lockstepOk (t : Tournament) : Op → Bool
  | Op.game whiteID blackID _ =>
    match mapGet t.Participants whiteID, mapGet t.Participants blackID with
    | some playerWhite, some playerBlack =>
      decide (whiteID ≠ blackID ∧ playerWhite.Results.length = playerBlack.Results.length)
    | _, _ => false
  | Op.bye _ => true
  | Op.sort => true
  | _ => false

/-- A sequence of calls recorded in lockstep, `none` when a call is not
allowed or panics. -/
def runLockstep (long : Sorter) (t : Tournament) : List Op → Option Tournament
  | [] => some t
  | op :: rest =>
    if lockstepOk t op then
      match step long t op with
      | none => none
      | some t' => runLockstep long t' rest
    else none

/-- Two participants, `Start`, a bye for B, then A beats B: the game is the
first entry of A and the second entry of B. -/
def byeThenGame : List Op :=
  [Op.add "A" 2000, Op.add "B" 1000, Op.start, Op.bye "B", Op.game "A" "B" White]

/-- `data.Less(i, j)` of `sort.Slice`: the comparison, read on the elements
at two indices of the slice. -/
def lessAt (less : ID → ID → Option Bool) (data : List ID) (i j : Nat) : Option Bool :=
  match data[i]?, data[j]? with
  | some x, some y => less x y
  | _, _ => none

/-- `data.Swap(i, j)` of `sort.Slice`. -/
def swapAt (data : List ID) (i j : Nat) : List ID :=
  match data[i]?, data[j]? with
  | some x, some y => (data.set i y).set j x
  | _, _ => data

/-- The library's `sortedHint`. -/
inductive sortedHint where
  | unknownHint
  | increasingHint
  | decreasingHint
deriving DecidableEq, Repr

/-- The library's `order2_func`: the two indices, the one of the smaller
element first, and the count of swaps. -/
def order2 (less : ID → ID → Option Bool) (data : List ID) (a b swaps : Nat) :
    Option (Nat × Nat × Nat) :=
  match lessAt less data b a with
  | none => none
  | some true => some (b, a, swaps + 1)
  | some false => some (a, b, swaps)

/-- The library's `median_func`: the index of the median of three elements,
and the count of swaps. -/
def median (less : ID → ID → Option Bool) (data : List ID) (a b c swaps : Nat) :
    Option (Nat × Nat) :=
  match order2 less data a b swaps with
  | none => none
  | some (a1, b1, s1) =>
    match order2 less data b1 c s1 with
    | none => none
    | some (b2, _, s2) =>
      match order2 less data a1 b2 s2 with
      | none => none
      | some (_, b3, s3) => some (b3, s3)

/-- The library's `choosePivot_func` on `data[a:b]` of 8 to 49 elements: the
median of the elements at the three quarter points (`maxSwaps` is 12). -/
def choosePivot (less : ID → ID → Option Bool) (data : List ID) (a b : Nat) :
    Option (Nat × sortedHint) :=
  let l := b - a
  match median less data (a + l / 4 * 1) (a + l / 4 * 2) (a + l / 4 * 3) 0 with
  | none => none
  | some (j, swaps) =>
    if swaps = 0 then some (j, sortedHint.increasingHint)
    else if swaps = 12 then some (j, sortedHint.decreasingHint)
    else some (j, sortedHint.unknownHint)

/-- The scan `for i < b && !data.Less(i, i-1) { i++ }` of
`partialInsertionSort_func`; the first argument is `b - i`. -/
def scanOrdered (less : ID → ID → Option Bool) (data : List ID) : Nat → Nat → Option Nat
  | 0, i => some i
  | n + 1, i =>
    match lessAt less data i (i - 1) with
    | none => none
    | some true => some i
    | some false => scanOrdered less data n (i + 1)

/-- The library's `partialInsertionSort_func` on `data[a:b]` of fewer than 50
elements (`shortestShifting`): it moves nothing and reports whether the slice
is in order. -/
def partialInsertionSort (less : ID → ID → Option Bool) (data : List ID) (a b : Nat) :
    Option Bool :=
  match scanOrdered less data (b - (a + 1)) (a + 1) with
  | none => none
  | some i => some (decide (i = b))

/-- The scan `for i <= j && data.Less(i, a) { i++ }` of `partition_func`;
the first argument is `j + 1 - i`. -/
def scanUp (less : ID → ID → Option Bool) (data : List ID) (a : Nat) : Nat → Nat → Option Nat
  | 0, i => some i
  | n + 1, i =>
    match lessAt less data i a with
    | none => none
    | some true => scanUp less data a n (i + 1)
    | some false => some i

/-- The scan `for i <= j && !data.Less(j, a) { j-- }` of `partition_func`;
the first argument is `j + 1 - i`. -/
def scanDown (less : ID → ID → Option Bool) (data : List ID) (a : Nat) : Nat → Nat → Option Nat
  | 0, j => some j
  | n + 1, j =>
    match lessAt less data j a with
    | none => none
    | some false => scanDown less data a n (j - 1)
    | some true => some j

/-- The `for` loop of `partition_func`; the first argument bounds the
iterations left (at 0 nothing is left between `i` and `j`, and the loop
breaks). It gives the slice and `j`. -/
def partitionLoop (less : ID → ID → Option Bool) (a : Nat) :
    Nat → List ID → Nat → Nat → Option (List ID × Nat)
  | 0, data, _, j => some (data, j)
  | fuel + 1, data, i, j =>
    match scanUp less data a (j + 1 - i) i with
    | none => none
    | some i1 =>
      match scanDown less data a (j + 1 - i1) j with
      | none => none
      | some j1 =>
        if i1 > j1 then some (data, j1)
        else partitionLoop less a fuel (swapAt data i1 j1) (i1 + 1) (j1 - 1)

/-- The library's `partition_func` on `data[a:b]`: the slice and the new
index of the pivot. -/
def partition (less : ID → ID → Option Bool) (data : List ID) (a b pivot : Nat) :
    Option (List ID × Nat) :=
  let data1 := swapAt data a pivot
  match scanUp less data1 a (b - 1 + 1 - (a + 1)) (a + 1) with
  | none => none
  | some i =>
    match scanDown less data1 a (b - 1 + 1 - i) (b - 1) with
    | none => none
    | some j =>
      if i > j then some (swapAt data1 j a, j)
      else
        match partitionLoop less a (b - a) (swapAt data1 i j) (i + 1) (j - 1) with
        | none => none
        | some (data2, j2) => some (swapAt data2 j2 a, j2)

/-- The library's `pdqsort_func(data, 0, 13, 4)`, as `sort.Slice` calls it on
a slice of thirteen elements: the pivot is chosen (twelve swaps, which would
reverse the slice, cannot be counted among three elements), a slice found in
order is left as it is, the slice is partitioned, and the two sides, of at
most twelve elements each, are finished by insertion sort, the shorter side
first. At another length this is not the library's routine. -/
def pdqsortThirteen : Sorter := fun less data =>
  let b := data.length
  match choosePivot less data 0 b with
  | none => none
  | some (pivot, hint) =>
    match (if hint = sortedHint.increasingHint then partialInsertionSort less data 0 b
        else some false) with
    | none => none
    | some true => some data
    | some false =>
      match partition less data 0 b pivot with
      | none => none
      | some (data1, mid) =>
        if mid < b - mid then
          match insertionSort less (data1.take mid) with
          | none => none
          | some left =>
            match insertionSort less (data1.drop (mid + 1)) with
            | none => none
            | some right => some (left ++ (data1.drop mid).take 1 ++ right)
        else
          match insertionSort less (data1.drop (mid + 1)) with
          | none => none
          | some right =>
            match insertionSort less (data1.take mid) with
            | none => none
            | some left => some (left ++ (data1.drop mid).take 1 ++ right)

/-- Thirteen participants: twelve of rating 1000, then one of rating 2000. -/
def thirteen : List (ID × Int) :=
  [("P01", 1000), ("P02", 1000), ("P03", 1000), ("P04", 1000), ("P05", 1000), ("P06", 1000),
   ("P07", 1000), ("P08", 1000), ("P09", 1000), ("P10", 1000), ("P11", 1000), ("P12", 1000),
   ("P13", 2000)]

/-- Three participants, the first and the last of equal rating. -/
def threeTied : List (ID × Int) :=
  [("A", 1000), ("B", 2000), ("C", 1000)]

theorem mapGet_mapSet {κ ν : Type} [DecidableEq κ] (m : List (κ × ν)) (k k' : κ) (v : ν) :
    mapGet (mapSet m k v) k' = if k = k' then some v else mapGet m k' := by
  induction m with
  | nil => simp [mapSet, mapGet]
  | cons kv m ih =>
    obtain ⟨k0, v0⟩ := kv
    by_cases h0 : k0 = k
    · subst h0
      by_cases h1 : k0 = k' <;> simp [mapSet, mapGet, h1]
    · by_cases h1 : k0 = k'
      · subst h1
        have h2 : ¬ k = k0 := fun h => h0 h.symm
        simp [mapSet, mapGet, h0, h2]
      · simp [mapSet, mapGet, h0, h1, ih]

theorem mapGet_mapSet_same {κ ν : Type} [DecidableEq κ] (m : List (κ × ν)) (k : κ) (v : ν) :
    mapGet (mapSet m k v) k = some v := by
  simp [mapGet_mapSet]

theorem mapGet_mapSet_other {κ ν : Type} [DecidableEq κ] (m : List (κ × ν)) (k k' : κ) (v : ν)
    (h : k ≠ k') : mapGet (mapSet m k v) k' = mapGet m k' := by
  simp [mapGet_mapSet, h]

/-! ## Facts about insertion sort -/

theorem bubbleLeft_perm {α : Type} (less : α → α → Option Bool) (x : α) :
    ∀ (ys r : List α), bubbleLeft less x ys = some r → r.Perm (x :: ys) := by
  intro ys
  induction ys with
  | nil =>
    intro r h
    simp [bubbleLeft] at h
    subst h
    exact List.Perm.refl _
  | cons y ys ih =>
    intro r h
    unfold bubbleLeft at h
    cases hl : less x y with
    | none => simp [hl] at h
    | some b =>
      cases b with
      | false =>
        simp [hl] at h
        subst h
        exact List.Perm.refl _
      | true =>
        simp [hl] at h
        obtain ⟨r', hr', rfl⟩ := h
        exact ((ih r' hr').cons y).trans (List.Perm.swap x y ys)

theorem bubbleLeft_isSome {α : Type} (less : α → α → Option Bool) (x : α) :
    ∀ (ys : List α), (∀ y ∈ ys, (less x y).isSome) → (bubbleLeft less x ys).isSome := by
  intro ys
  induction ys with
  | nil => intro _; simp [bubbleLeft]
  | cons y ys ih =>
    intro h
    have hy := h y (List.mem_cons_self _ _)
    have hrest := ih (fun z hz => h z (List.mem_cons_of_mem _ hz))
    unfold bubbleLeft
    cases hl : less x y with
    | none => simp [hl] at hy
    | some b =>
      cases b with
      | false => simp
      | true =>
        obtain ⟨r, hr⟩ := Option.isSome_iff_exists.mp hrest
        simp [hr]

/-- Bubbling `x` into a prefix ordered along `R` leaves it ordered along `R`. -/
theorem bubbleLeft_pairwise {α : Type} (less : α → α → Option Bool) (R : α → α → Prop)
    (htrans : ∀ a b c, R a b → R b c → R a c) (x : α) :
    ∀ (ys r : List α),
      (∀ y ∈ ys, (less x y = some true → R x y) ∧ (less x y = some false → R y x)) →
      ys.Pairwise (fun a b => R b a) → bubbleLeft less x ys = some r →
      r.Pairwise (fun a b => R b a) := by
  intro ys
  induction ys with
  | nil =>
    intro r _ _ h
    simp [bubbleLeft] at h
    subst h
    simp
  | cons y ys ih =>
    intro r hc hp h
    have hy := hc y (List.mem_cons_self _ _)
    have hp' := List.pairwise_cons.mp hp
    unfold bubbleLeft at h
    cases hl : less x y with
    | none => simp [hl] at h
    | some b =>
      cases b with
      | false =>
        simp [hl] at h
        subst h
        refine List.pairwise_cons.mpr ⟨?_, hp⟩
        intro z hz
        rcases List.mem_cons.mp hz with rfl | hz'
        · exact hy.2 hl
        · exact htrans _ _ _ (hp'.1 z hz') (hy.2 hl)
      | true =>
        simp [hl] at h
        obtain ⟨r', hr', rfl⟩ := h
        have ih' := ih r' (fun z hz => hc z (List.mem_cons_of_mem _ hz)) hp'.2 hr'
        refine List.pairwise_cons.mpr ⟨?_, ih'⟩
        intro z hz
        have hz' := (bubbleLeft_perm less x ys r' hr').mem_iff.mp hz
        rcases List.mem_cons.mp hz' with rfl | hz''
        · exact hy.1 hl
        · exact hp'.1 z hz''

theorem insertionLoop_perm {α : Type} (less : α → α → Option Bool) :
    ∀ (rest done r : List α), insertionLoop less done rest = some r →
      r.Perm (done.reverse ++ rest) := by
  intro rest
  induction rest with
  | nil =>
    intro done r h
    simp [insertionLoop] at h
    subst h
    simp
  | cons x rest ih =>
    intro done r h
    unfold insertionLoop at h
    cases hb : bubbleLeft less x done with
    | none => simp [hb] at h
    | some done' =>
      simp [hb] at h
      have h1 := ih done' r h
      have h2 := bubbleLeft_perm less x done done' hb
      refine h1.trans ?_
      have h3 : done'.reverse.Perm (done.reverse ++ [x]) := by
        refine (List.reverse_perm done').trans (h2.trans ?_)
        refine (@List.perm_append_comm _ [x] done).trans ?_
        exact (List.reverse_perm done).symm.append_right [x]
      simpa using h3.append_right rest

theorem insertionLoop_isSome {α : Type} (less : α → α → Option Bool) (s : List α)
    (htotal : ∀ a ∈ s, ∀ b ∈ s, (less a b).isSome) :
    ∀ (rest done : List α), (∀ a ∈ rest, a ∈ s) → (∀ a ∈ done, a ∈ s) →
      (insertionLoop less done rest).isSome := by
  intro rest
  induction rest with
  | nil => intro done _ _; simp [insertionLoop]
  | cons x rest ih =>
    intro done hr hd
    have hx := hr x (List.mem_cons_self _ _)
    have hb := bubbleLeft_isSome less x done (fun y hy => htotal x hx y (hd y hy))
    obtain ⟨done', hdone'⟩ := Option.isSome_iff_exists.mp hb
    unfold insertionLoop
    simp only [hdone']
    refine ih done' (fun a ha => hr a (List.mem_cons_of_mem _ ha)) ?_
    intro a ha
    have := (bubbleLeft_perm less x done done' hdone').mem_iff.mp ha
    rcases List.mem_cons.mp this with rfl | h'
    · exact hx
    · exact hd a h'

theorem insertionLoop_pairwise {α : Type} (less : α → α → Option Bool) (R : α → α → Prop)
    (htrans : ∀ a b c, R a b → R b c → R a c) (s : List α)
    (hc : ∀ a ∈ s, ∀ b ∈ s, (less a b = some true → R a b) ∧ (less a b = some false → R b a)) :
    ∀ (rest done r : List α), (∀ a ∈ rest, a ∈ s) → (∀ a ∈ done, a ∈ s) →
      done.Pairwise (fun a b => R b a) → insertionLoop less done rest = some r →
      r.Pairwise R := by
  intro rest
  induction rest with
  | nil =>
    intro done r _ _ hp h
    simp [insertionLoop] at h
    subst h
    exact List.pairwise_reverse.mpr hp
  | cons x rest ih =>
    intro done r hr hd hp h
    have hx := hr x (List.mem_cons_self _ _)
    unfold insertionLoop at h
    cases hb : bubbleLeft less x done with
    | none => simp [hb] at h
    | some done' =>
      simp [hb] at h
      have hp' := bubbleLeft_pairwise less R htrans x done done'
        (fun y hy => hc x hx y (hd y hy)) hp hb
      refine ih done' r (fun a ha => hr a (List.mem_cons_of_mem _ ha)) ?_ hp' h
      intro a ha
      have := (bubbleLeft_perm less x done done' hb).mem_iff.mp ha
      rcases List.mem_cons.mp this with rfl | h'
      · exact hx
      · exact hd a h'

theorem insertionSort_perm {α : Type} (less : α → α → Option Bool) (xs r : List α)
    (h : insertionSort less xs = some r) : r.Perm xs := by
  simpa using insertionLoop_perm less xs [] r h

theorem insertionSort_isSome {α : Type} (less : α → α → Option Bool) (xs : List α)
    (htotal : ∀ a ∈ xs, ∀ b ∈ xs, (less a b).isSome) : (insertionSort less xs).isSome :=
  insertionLoop_isSome less xs htotal xs [] (fun _ h => h) (by simp)

theorem insertionSort_pairwise {α : Type} (less : α → α → Option Bool) (R : α → α → Prop)
    (htrans : ∀ a b c, R a b → R b c → R a c) (xs r : List α)
    (hc : ∀ a ∈ xs, ∀ b ∈ xs, (less a b = some true → R a b) ∧ (less a b = some false → R b a))
    (h : insertionSort less xs = some r) : r.Pairwise R :=
  insertionLoop_pairwise less R htrans xs hc xs [] r (fun _ h => h) (by simp)
    List.Pairwise.nil h

/-- Insertion sort itself meets the contract asked of the long-slice routine. -/
theorem insertionSort_contract : SortContract (insertionSort (α := ID)) :=
  ⟨fun less xs ys h => insertionSort_perm less xs ys h,
   fun less xs h => insertionSort_isSome less xs h,
   fun less xs ys R htrans hc h => insertionSort_pairwise less R htrans xs ys hc h⟩

theorem sortSlice_perm (long : Sorter) (hlong : SortContract long)
    (less : ID → ID → Option Bool) (xs ys : List ID) (h : sortSlice long less xs = some ys) :
    ys.Perm xs := by
  unfold sortSlice at h
  split at h
  · exact insertionSort_perm less xs ys h
  · exact hlong.1 less xs ys h

theorem sortSlice_isSome (long : Sorter) (hlong : SortContract long)
    (less : ID → ID → Option Bool) (xs : List ID)
    (htotal : ∀ a ∈ xs, ∀ b ∈ xs, (less a b).isSome) : (sortSlice long less xs).isSome := by
  unfold sortSlice
  split
  · exact insertionSort_isSome less xs htotal
  · exact hlong.2.1 less xs htotal

theorem sortSlice_pairwise (long : Sorter) (hlong : SortContract long)
    (less : ID → ID → Option Bool) (R : ID → ID → Prop)
    (htrans : ∀ a b c, R a b → R b c → R a c) (xs ys : List ID)
    (hc : ∀ a ∈ xs, ∀ b ∈ xs, (less a b = some true → R a b) ∧ (less a b = some false → R b a))
    (h : sortSlice long less xs = some ys) : ys.Pairwise R := by
  unfold sortSlice at h
  split at h
  · exact insertionSort_pairwise less R htrans xs ys hc h
  · exact hlong.2.2 less xs ys R htrans hc h

/-- Up to twelve elements the long-slice routine plays no part. -/
theorem sortSlice_small (long : Sorter) (less : ID → ID → Option Bool) (xs : List ID)
    (h : xs.length ≤ 12) : sortSlice long less xs = insertionSort less xs := by
  simp [sortSlice, h]

/-! ## The loop of Start -/

theorem assignRatingPos_frame :
    ∀ (l : List ID) (t t' : Tournament) (k : Nat), assignRatingPos t l k = some t' →
      t'.Name = t.Name ∧ t'.Rounds = t.Rounds ∧ t'.RatingsRank = t.RatingsRank ∧
      t'.PointsRank = t.PointsRank ∧ t'.Ongoing = t.Ongoing := by
  intro l
  induction l with
  | nil =>
    intro t t' k h
    simp [assignRatingPos] at h
    subst h
    simp
  | cons id rest ih =>
    intro t t' k h
    unfold assignRatingPos at h
    cases hg : mapGet t.Participants id with
    | none => simp [hg] at h
    | some p =>
      simp only [hg] at h
      simpa using ih _ t' (k + 1) h

/-- The loop of `Start` changes nothing of a player but `RatingPos`. -/
theorem assignRatingPos_player :
    ∀ (l : List ID) (t t' : Tournament) (k : Nat), assignRatingPos t l k = some t' →
      ∀ id, (mapGet t.Participants id = none ∧ mapGet t'.Participants id = none) ∨
        ∃ p r, mapGet t.Participants id = some p ∧
          mapGet t'.Participants id = some { p with RatingPos := r } := by
  intro l
  induction l with
  | nil =>
    intro t t' k h id
    simp [assignRatingPos] at h
    subst h
    cases hg : mapGet t.Participants id with
    | none => exact Or.inl ⟨rfl, rfl⟩
    | some p => exact Or.inr ⟨p, p.RatingPos, rfl, rfl⟩
  | cons id0 rest ih =>
    intro t t' k h id
    unfold assignRatingPos at h
    cases hg : mapGet t.Participants id0 with
    | none => simp [hg] at h
    | some p0 =>
      simp only [hg] at h
      have := ih _ t' (k + 1) h id
      simp only [mapGet_mapSet] at this
      by_cases hid : id0 = id
      · subst hid
        simp only [if_true] at this
        rcases this with ⟨h1, _⟩ | ⟨p, r, h1, h2⟩
        · cases h1
        · right
          refine ⟨p0, r, hg, ?_⟩
          cases h1
          exact h2
      · simpa [hid] using this

theorem assignRatingPos_isSome :
    ∀ (l : List ID) (t : Tournament) (k : Nat),
      (∀ id ∈ l, (mapGet t.Participants id).isSome) → (assignRatingPos t l k).isSome := by
  intro l
  induction l with
  | nil => intro t k _; simp [assignRatingPos]
  | cons id0 rest ih =>
    intro t k h
    obtain ⟨p0, hp0⟩ := Option.isSome_iff_exists.mp (h id0 (List.mem_cons_self _ _))
    unfold assignRatingPos
    simp only [hp0]
    apply ih
    intro id hid
    simp only [mapGet_mapSet]
    split
    · rfl
    · exact h id (List.mem_cons_of_mem _ hid)

theorem assignRatingPos_notMem :
    ∀ (l : List ID) (t t' : Tournament) (k : Nat), assignRatingPos t l k = some t' →
      ∀ id, id ∉ l → mapGet t'.Participants id = mapGet t.Participants id := by
  intro l
  induction l with
  | nil =>
    intro t t' k h id _
    simp [assignRatingPos] at h
    subst h
    rfl
  | cons id0 rest ih =>
    intro t t' k h id hid
    unfold assignRatingPos at h
    cases hg : mapGet t.Participants id0 with
    | none => simp [hg] at h
    | some p0 =>
      simp only [hg] at h
      have hne : id0 ≠ id := fun e => hid (e ▸ List.mem_cons_self _ _)
      have := ih _ t' (k + 1) h id (fun hm => hid (List.mem_cons_of_mem _ hm))
      rw [this]
      exact mapGet_mapSet_other _ _ _ _ hne

theorem assignRatingPos_rank_low :
    ∀ (l : List ID) (t t' : Tournament) (k : Nat), assignRatingPos t l k = some t' →
      ∀ key : Int, key ≤ k → mapGet t'.RanktoIDs key = mapGet t.RanktoIDs key := by
  intro l
  induction l with
  | nil =>
    intro t t' k h key _
    simp [assignRatingPos] at h
    subst h
    rfl
  | cons id0 rest ih =>
    intro t t' k h key hkey
    unfold assignRatingPos at h
    cases hg : mapGet t.Participants id0 with
    | none => simp [hg] at h
    | some p0 =>
      simp only [hg] at h
      have := ih _ t' (k + 1) h key (by push_cast; omega)
      rw [this]
      exact mapGet_mapSet_other _ _ _ _ (by omega)

/-- On a duplicate-free list the loop of `Start` gives the identifier at
index `i` the position `k + i + 1` and records it under that position. -/
theorem assignRatingPos_pos :
    ∀ (l : List ID) (t t' : Tournament) (k : Nat), l.Nodup → assignRatingPos t l k = some t' →
      ∀ (i : Nat) (id : ID), l[i]? = some id →
        (∃ p, mapGet t.Participants id = some p ∧
          mapGet t'.Participants id = some { p with RatingPos := (k : Int) + i + 1 }) ∧
        mapGet t'.RanktoIDs ((k : Int) + i + 1) = some id := by
  intro l
  induction l with
  | nil => intro t t' k _ _ i id hi; simp at hi
  | cons id0 rest ih =>
    intro t t' k hnd h i id hi
    have hnd' := List.nodup_cons.mp hnd
    have h0 := h
    unfold assignRatingPos at h
    cases hg : mapGet t.Participants id0 with
    | none => simp [hg] at h
    | some p0 =>
      simp only [hg] at h
      cases i with
      | zero =>
        simp at hi
        subst hi
        have h1 := assignRatingPos_notMem rest _ t' (k + 1) h id0 hnd'.1
        have h2 := assignRatingPos_rank_low rest _ t' (k + 1) h ((k : Int) + 1) (by push_cast; omega)
        simp only [mapGet_mapSet_same] at h1 h2
        refine ⟨⟨p0, hg, ?_⟩, ?_⟩
        · simpa using h1
        · simpa using h2
      | succ j =>
        simp at hi
        have hmem : id ∈ rest := List.getElem?_mem hi
        have hne : id0 ≠ id := fun e => hnd'.1 (e ▸ hmem)
        obtain ⟨⟨p, hp1, hp2⟩, hr⟩ := ih _ t' (k + 1) hnd'.2 h j id hi
        rw [mapGet_mapSet_other _ _ _ _ hne] at hp1
        have e : ((k + 1 : Nat) : Int) + (j : Int) + 1 = (k : Int) + ((j + 1 : Nat) : Int) + 1 := by
          push_cast; omega
        rw [e] at hp2 hr
        exact ⟨⟨p, hp1, hp2⟩, hr⟩

/-! ## The registry -/

theorem registryOk_new (name : String) (rounds : Nat) : RegistryOk (NewTournament name rounds) := by
  refine ⟨by simp [NewTournament], ?_, by simp [NewTournament, mapGet]⟩
  intro id
  simp only [NewTournament, mapGet, List.not_mem_nil, false_iff, not_and, not_not]
  intro h
  split at h
  · rename_i e; exact e.symm
  · simp at h

theorem registryOk_add (t : Tournament) (id : ID) (rating : Int) (h : RegistryOk t) :
    RegistryOk (AddParticpant t id rating).1 := by
  unfold AddParticpant
  cases hg : mapGet t.Participants id with
  | some p => simpa using h
  | none =>
    obtain ⟨hnd, hmem, hbye⟩ := h
    have hne : id ≠ BYE_DUMMY_ID := by
      intro e
      subst e
      simp [hg] at hbye
    have hnot : id ∉ t.RatingsRank := by
      intro hm
      have := ((hmem id).mp hm).1
      simp [hg] at this
    refine ⟨?_, ?_, ?_⟩
    · simp only
      exact List.Nodup.append hnd (by simp) (by
        intro a ha hb
        simp at hb
        exact hnot (hb ▸ ha))
    · intro id'
      simp only [List.mem_append, List.mem_singleton, mapGet_mapSet]
      by_cases e : id = id'
      · subst e
        simp [hne]
      · have e' : ¬ id' = id := fun h => e h.symm
        simp [e, e', hmem id']
    · simp only [mapGet_mapSet]
      split
      · rfl
      · exact hbye

theorem registryOk_register :
    ∀ (regs : List (ID × Int)) (t : Tournament), RegistryOk t → RegistryOk (register t regs) := by
  intro regs
  induction regs with
  | nil => intro t h; exact h
  | cons r rest ih =>
    intro t h
    obtain ⟨id, rating⟩ := r
    exact ih _ (registryOk_add t id rating h)

theorem add_registered (t : Tournament) (id : ID) (rating : Int) (id' : ID) :
    (mapGet (AddParticpant t id rating).1.Participants id').isSome ↔
      (mapGet t.Participants id').isSome ∨ id' = id := by
  unfold AddParticpant
  cases hg : mapGet t.Participants id with
  | some p =>
    simp only
    constructor
    · intro h; exact Or.inl h
    · rintro (h | rfl)
      · exact h
      · simp [hg]
  | none =>
    simp only [mapGet_mapSet]
    by_cases e : id = id'
    · subst e; simp
    · have e' : ¬ id' = id := fun h => e h.symm
      simp [e, e']

theorem register_registered :
    ∀ (regs : List (ID × Int)) (t : Tournament) (id' : ID),
      (mapGet (register t regs).Participants id').isSome ↔
        (mapGet t.Participants id').isSome ∨ id' ∈ regs.map Prod.fst := by
  intro regs
  induction regs with
  | nil => intro t id'; simp [register]
  | cons r rest ih =>
    intro t id'
    obtain ⟨id, rating⟩ := r
    simp only [register, ih, add_registered, List.map_cons, List.mem_cons]
    tauto

theorem add_rankMap (t : Tournament) (id : ID) (rating : Int) :
    (AddParticpant t id rating).1.RanktoIDs = t.RanktoIDs := by
  unfold AddParticpant
  cases mapGet t.Participants id <;> rfl

theorem register_rankMap :
    ∀ (regs : List (ID × Int)) (t : Tournament), (register t regs).RanktoIDs = t.RanktoIDs := by
  intro regs
  induction regs with
  | nil => intro t; rfl
  | cons r rest ih =>
    intro t
    obtain ⟨id, rating⟩ := r
    simp only [register, ih, add_rankMap]

/-! ## Start -/

theorem ratingLess_isSome (t : Tournament) (a b : ID)
    (ha : (mapGet t.Participants a).isSome) (hb : (mapGet t.Participants b).isSome) :
    (ratingLess t a b).isSome := by
  obtain ⟨pa, hpa⟩ := Option.isSome_iff_exists.mp ha
  obtain ⟨pb, hpb⟩ := Option.isSome_iff_exists.mp hb
  simp [ratingLess, hpa, hpb]

theorem ratingLess_agrees (t : Tournament) (a b : ID) :
    (ratingLess t a b = some true → ratingOf t a ≥ ratingOf t b) ∧
    (ratingLess t a b = some false → ratingOf t b ≥ ratingOf t a) := by
  unfold ratingLess ratingOf
  cases mapGet t.Participants a <;> cases mapGet t.Participants b <;> (simp; try omega)

/-- What `Start` does on a consistent registry. -/
theorem start_spec (long : Sorter) (hlong : SortContract long) (t : Tournament)
    (hreg : RegistryOk t) :
    ∃ t', Start long t = some t' ∧
      t'.RatingsRank.Perm t.RatingsRank ∧
      t'.RatingsRank.Pairwise (fun a b => ratingOf t a ≥ ratingOf t b) ∧
      t'.PointsRank = t'.RatingsRank ∧ t'.Ongoing = true ∧
      t'.Name = t.Name ∧ t'.Rounds = t.Rounds ∧
      (∀ id, (mapGet t.Participants id = none ∧ mapGet t'.Participants id = none) ∨
        ∃ p r, mapGet t.Participants id = some p ∧
          mapGet t'.Participants id = some { p with RatingPos := r }) ∧
      (∀ (i : Nat) (id : ID), t'.RatingsRank[i]? = some id →
        (∃ p, mapGet t.Participants id = some p ∧
          mapGet t'.Participants id = some { p with RatingPos := (i : Int) + 1 }) ∧
        mapGet t'.RanktoIDs ((i : Int) + 1) = some id) ∧
      mapGet t'.RanktoIDs 0 = mapGet t.RanktoIDs 0 := by
  obtain ⟨hnd, hmem, hbye⟩ := hreg
  have htotal : ∀ a ∈ t.RatingsRank, ∀ b ∈ t.RatingsRank, (ratingLess t a b).isSome :=
    fun a ha b hb => ratingLess_isSome t a b ((hmem a).mp ha).1 ((hmem b).mp hb).1
  obtain ⟨sorted, hsorted⟩ :=
    Option.isSome_iff_exists.mp (sortSlice_isSome long hlong _ _ htotal)
  have hperm := sortSlice_perm long hlong _ _ _ hsorted
  have hpw := sortSlice_pairwise long hlong (ratingLess t)
    (fun a b => ratingOf t a ≥ ratingOf t b) (fun a b c h1 h2 => le_trans h2 h1)
    t.RatingsRank sorted (fun a _ b _ => ratingLess_agrees t a b) hsorted
  have hall : ∀ id ∈ sorted,
      (mapGet ({ t with RatingsRank := sorted } : Tournament).Participants id).isSome :=
    fun id hid => ((hmem id).mp (hperm.mem_iff.mp hid)).1
  obtain ⟨t2, ht2⟩ := Option.isSome_iff_exists.mp (assignRatingPos_isSome sorted _ 0 hall)
  have hframe := assignRatingPos_frame sorted _ t2 0 ht2
  have hplayer := assignRatingPos_player sorted _ t2 0 ht2
  have hpos := assignRatingPos_pos sorted _ t2 0 (hperm.nodup_iff.mpr hnd) ht2
  have hlow := assignRatingPos_rank_low sorted _ t2 0 ht2 0 (by simp)
  simp only at hframe hplayer hpos hlow
  refine ⟨{ t2 with PointsRank := t2.RatingsRank, Ongoing := true }, ?_, ?_⟩
  · simp [Start, hsorted, ht2]
  · simp only [hframe.2.2.1]
    refine ⟨hperm, hpw, trivial, trivial, hframe.1, hframe.2.1, hplayer, ?_, hlow⟩
    intro i id hi
    simpa using hpos i id hi

/-- C1. A tournament built by `NewTournament`, any sequence of `AddParticpant`
calls and then `Start`: `Start` returns, `RatingsRank` holds every registered
identifier other than the sentinel exactly once, in non-increasing order of
`Rating`; the player at index `i` has `RatingPos = i + 1` and is recorded in
`RanktoIDs` under `i + 1`; `RanktoIDs[0]` is the sentinel.  In the scenario
Emmanuel(3000), Joy(500), Peniel(1000), Daniel(4000) the ranking is
Daniel, Emmanuel, Peniel, Joy with positions 1, 2, 3, 4. -/
theorem start_ranks_by_rating (long : Sorter) (hlong : SortContract long) (name : String)
    (rounds : Nat) (regs : List (ID × Int)) :
    (∃ t', Start long (register (NewTournament name rounds) regs) = some t' ∧
      t'.RatingsRank.Nodup ∧
      (∀ id, id ∈ t'.RatingsRank ↔ id ∈ regs.map Prod.fst ∧ id ≠ BYE_DUMMY_ID) ∧
      t'.RatingsRank.Pairwise (fun a b => ∃ pa pb, mapGet t'.Participants a = some pa ∧
        mapGet t'.Participants b = some pb ∧ pa.Rating ≥ pb.Rating) ∧
      (∀ (i : Nat) (id : ID), t'.RatingsRank[i]? = some id →
        ∃ p, mapGet t'.Participants id = some p ∧ p.RatingPos = (i : Int) + 1 ∧
          mapGet t'.RanktoIDs ((i : Int) + 1) = some id) ∧
      mapGet t'.RanktoIDs 0 = some BYE_DUMMY_ID) ∧
    (∃ t', Start long (register (NewTournament name rounds) scenario) = some t' ∧
      t'.RatingsRank = ["Daniel", "Emmanuel", "Peniel", "Joy"] ∧
      (mapGet t'.Participants "Daniel").map Player.RatingPos = some 1 ∧
      (mapGet t'.Participants "Emmanuel").map Player.RatingPos = some 2 ∧
      (mapGet t'.Participants "Peniel").map Player.RatingPos = some 3 ∧
      (mapGet t'.Participants "Joy").map Player.RatingPos = some 4) := by
  constructor
  · have hreg := registryOk_register regs _ (registryOk_new name rounds)
    obtain ⟨t', hstart, hperm, hpw, _, _, _, _, hplayer, hpos, hzero⟩ :=
      start_spec long hlong _ hreg
    obtain ⟨hnd, hmem, _⟩ := hreg
    have hrating : ∀ id ∈ t'.RatingsRank, ∃ p, mapGet t'.Participants id = some p ∧
        p.Rating = ratingOf (register (NewTournament name rounds) regs) id := by
      intro id hid
      have hsome := ((hmem id).mp (hperm.mem_iff.mp hid)).1
      rcases hplayer id with ⟨h1, _⟩ | ⟨p, r, h1, h2⟩
      · simp [h1] at hsome
      · exact ⟨_, h2, by simp [ratingOf, h1]⟩
    refine ⟨t', hstart, hperm.nodup_iff.mpr hnd, ?_, ?_, ?_, ?_⟩
    · intro id
      rw [hperm.mem_iff, hmem id, register_registered]
      constructor
      · rintro ⟨h1 | h1, h2⟩
        · exfalso
          simp only [NewTournament, mapGet] at h1
          split at h1
          · rename_i e; exact h2 e.symm
          · simp at h1
        · exact ⟨h1, h2⟩
      · rintro ⟨h1, h2⟩
        exact ⟨Or.inr h1, h2⟩
    · refine List.Pairwise.imp_of_mem ?_ hpw
      intro a b ha hb hab
      obtain ⟨pa, hpa, hra⟩ := hrating a ha
      obtain ⟨pb, hpb, hrb⟩ := hrating b hb
      exact ⟨pa, pb, hpa, hpb, by rw [hra, hrb]; exact hab⟩
    · intro i id hi
      obtain ⟨⟨p, _, hp⟩, hr⟩ := hpos i id hi
      exact ⟨_, hp, rfl, hr⟩
    · rw [hzero, register_rankMap]
      rfl
  · exact ⟨_, rfl, rfl, rfl, rfl, rfl, rfl⟩

/-- C1 at the five participants of the demonstration, sorted by insertion. -/
theorem start_ranks_by_rating_witness :
    SortContract (insertionSort (α := ID)) ∧
    ∃ t', Start insertionSort (register (NewTournament "My Tournament" 5)
        (scenario ++ [("Peace", 200)])) = some t' ∧
      t'.RatingsRank.Nodup ∧
      (∀ id, id ∈ t'.RatingsRank ↔
        id ∈ (scenario ++ [("Peace", 200)]).map Prod.fst ∧ id ≠ BYE_DUMMY_ID) ∧
      mapGet t'.RanktoIDs 0 = some BYE_DUMMY_ID := by
  refine ⟨insertionSort_contract, ?_⟩
  obtain ⟨⟨t', h1, h2, h3, _, _, h6⟩, _⟩ :=
    start_ranks_by_rating insertionSort insertionSort_contract "My Tournament" 5
      (scenario ++ [("Peace", 200)])
  exact ⟨t', h1, h2, h3, h6⟩

/-! ## Reachability -/

theorem reachable_step (long : Sorter) (t t' : Tournament) (op : Op)
    (h : Reachable long t) (hs : step long t op = some t') : Reachable long t' := by
  cases op with
  | add id rating =>
    simp only [step, Option.some.injEq] at hs
    subst hs
    exact Reachable.add id rating h
  | start => exact Reachable.start h hs
  | game w b winner =>
    simp only [step] at hs
    cases hr : RecordGameResult t w b winner with
    | ok t1 =>
      simp only [hr, Option.some.injEq] at hs
      subst hs
      exact Reachable.game w b winner h hr
    | panic t1 => simp [hr] at hs
  | bye p =>
    simp only [step] at hs
    cases hr : AssignBye t p with
    | ok t1 =>
      simp only [hr, Option.some.injEq] at hs
      subst hs
      exact Reachable.bye p h hr
    | panic t1 => simp [hr] at hs
  | sort => exact Reachable.sort h hs

theorem reachable_run (long : Sorter) :
    ∀ (ops : List Op) (t t' : Tournament), Reachable long t → run long t ops = some t' →
      Reachable long t' := by
  intro ops
  induction ops with
  | nil =>
    intro t t' h hr
    simp only [run, Option.some.injEq] at hr
    subst hr
    exact h
  | cons op rest ih =>
    intro t t' h hr
    unfold run at hr
    cases hs : step long t op with
    | none => simp [hs] at hr
    | some t1 =>
      simp only [hs] at hr
      exact ih t1 t' (reachable_step long t t1 op h hs) hr

/-! ## The loop of the points sort -/

theorem assignPointsPos_frame :
    ∀ (l : List ID) (t t' : Tournament) (k : Nat), assignPointsPos t l k = some t' →
      t'.Name = t.Name ∧ t'.Rounds = t.Rounds ∧ t'.RatingsRank = t.RatingsRank ∧
      t'.PointsRank = t.PointsRank ∧ t'.RanktoIDs = t.RanktoIDs ∧ t'.Ongoing = t.Ongoing := by
  intro l
  induction l with
  | nil =>
    intro t t' k h
    simp [assignPointsPos] at h
    subst h
    simp
  | cons id rest ih =>
    intro t t' k h
    unfold assignPointsPos at h
    cases hg : mapGet t.Participants id with
    | none => simp [hg] at h
    | some p =>
      simp only [hg] at h
      simpa using ih _ t' (k + 1) h

/-- The loop of the points sort changes nothing of a player but `PointsPos`. -/
theorem assignPointsPos_player :
    ∀ (l : List ID) (t t' : Tournament) (k : Nat), assignPointsPos t l k = some t' →
      ∀ id, (mapGet t.Participants id = none ∧ mapGet t'.Participants id = none) ∨
        ∃ p r, mapGet t.Participants id = some p ∧
          mapGet t'.Participants id = some { p with PointsPos := r } := by
  intro l
  induction l with
  | nil =>
    intro t t' k h id
    simp [assignPointsPos] at h
    subst h
    cases hg : mapGet t.Participants id with
    | none => exact Or.inl ⟨rfl, rfl⟩
    | some p => exact Or.inr ⟨p, p.PointsPos, rfl, rfl⟩
  | cons id0 rest ih =>
    intro t t' k h id
    unfold assignPointsPos at h
    cases hg : mapGet t.Participants id0 with
    | none => simp [hg] at h
    | some p0 =>
      simp only [hg] at h
      have := ih _ t' (k + 1) h id
      simp only [mapGet_mapSet] at this
      by_cases hid : id0 = id
      · subst hid
        simp only [if_true] at this
        rcases this with ⟨h1, _⟩ | ⟨p, r, h1, h2⟩
        · cases h1
        · right
          refine ⟨p0, r, hg, ?_⟩
          cases h1
          exact h2
      · simpa [hid] using this

theorem assignPointsPos_isSome :
    ∀ (l : List ID) (t : Tournament) (k : Nat),
      (∀ id ∈ l, (mapGet t.Participants id).isSome) → (assignPointsPos t l k).isSome := by
  intro l
  induction l with
  | nil => intro t k _; simp [assignPointsPos]
  | cons id0 rest ih =>
    intro t k h
    obtain ⟨p0, hp0⟩ := Option.isSome_iff_exists.mp (h id0 (List.mem_cons_self _ _))
    unfold assignPointsPos
    simp only [hp0]
    apply ih
    intro id hid
    simp only [mapGet_mapSet]
    split
    · rfl
    · exact h id (List.mem_cons_of_mem _ hid)

theorem assignPointsPos_notMem :
    ∀ (l : List ID) (t t' : Tournament) (k : Nat), assignPointsPos t l k = some t' →
      ∀ id, id ∉ l → mapGet t'.Participants id = mapGet t.Participants id := by
  intro l
  induction l with
  | nil =>
    intro t t' k h id _
    simp [assignPointsPos] at h
    subst h
    rfl
  | cons id0 rest ih =>
    intro t t' k h id hid
    unfold assignPointsPos at h
    cases hg : mapGet t.Participants id0 with
    | none => simp [hg] at h
    | some p0 =>
      simp only [hg] at h
      have hne : id0 ≠ id := fun e => hid (e ▸ List.mem_cons_self _ _)
      have := ih _ t' (k + 1) h id (fun hm => hid (List.mem_cons_of_mem _ hm))
      rw [this]
      exact mapGet_mapSet_other _ _ _ _ hne

/-- On a duplicate-free list the loop of the points sort gives the identifier
at index `i` the position `k + i + 1`. -/
theorem assignPointsPos_pos :
    ∀ (l : List ID) (t t' : Tournament) (k : Nat), l.Nodup → assignPointsPos t l k = some t' →
      ∀ (i : Nat) (id : ID), l[i]? = some id →
        ∃ p, mapGet t.Participants id = some p ∧
          mapGet t'.Participants id = some { p with PointsPos := (k : Int) + i + 1 } := by
  intro l
  induction l with
  | nil => intro t t' k _ _ i id hi; simp at hi
  | cons id0 rest ih =>
    intro t t' k hnd h i id hi
    have hnd' := List.nodup_cons.mp hnd
    unfold assignPointsPos at h
    cases hg : mapGet t.Participants id0 with
    | none => simp [hg] at h
    | some p0 =>
      simp only [hg] at h
      cases i with
      | zero =>
        simp at hi
        subst hi
        have h1 := assignPointsPos_notMem rest _ t' (k + 1) h id0 hnd'.1
        simp only [mapGet_mapSet_same] at h1
        exact ⟨p0, hg, by simpa using h1⟩
      | succ j =>
        simp at hi
        have hmem : id ∈ rest := List.getElem?_mem hi
        have hne : id0 ≠ id := fun e => hnd'.1 (e ▸ hmem)
        obtain ⟨p, hp1, hp2⟩ := ih _ t' (k + 1) hnd'.2 h j id hi
        rw [mapGet_mapSet_other _ _ _ _ hne] at hp1
        have e : ((k + 1 : Nat) : Int) + (j : Int) + 1 = (k : Int) + ((j + 1 : Nat) : Int) + 1 := by
          push_cast; omega
        rw [e] at hp2
        exact ⟨p, hp1, hp2⟩

/-! ## What each operation does to a player -/

/-- The call `Start` changes nothing of a player but `RatingPos`. -/
theorem start_player (long : Sorter) (t t' : Tournament) (h : Start long t = some t') :
    ∀ id, (mapGet t.Participants id = none ∧ mapGet t'.Participants id = none) ∨
      ∃ p r, mapGet t.Participants id = some p ∧
        mapGet t'.Participants id = some { p with RatingPos := r } := by
  unfold Start at h
  cases hs : sortSlice long (ratingLess t) t.RatingsRank with
  | none => simp [hs] at h
  | some sorted =>
    simp only [hs] at h
    cases ha : assignRatingPos { t with RatingsRank := sorted } sorted 0 with
    | none => simp [ha] at h
    | some t2 =>
      simp only [ha, Option.some.injEq] at h
      subst h
      have hp := assignRatingPos_player sorted _ t2 0 ha
      exact hp

/-- The points sort changes nothing of a player but `PointsPos`. -/
theorem sort_player (long : Sorter) (t t' : Tournament) (h : sortPointsRanking long t = some t') :
    ∀ id, (mapGet t.Participants id = none ∧ mapGet t'.Participants id = none) ∨
      ∃ p r, mapGet t.Participants id = some p ∧
        mapGet t'.Participants id = some { p with PointsPos := r } := by
  unfold sortPointsRanking at h
  cases hs : sortSlice long (pointsLess t) t.PointsRank with
  | none => simp [hs] at h
  | some sorted =>
    simp only [hs] at h
    have hp := assignPointsPos_player sorted _ t' 0 h
    exact hp

theorem scoreSum_append (results : List Result) (r : Result) :
    scoreSum (results ++ [r]) = scoreSum results + ScoreMap r.Score := by
  simp [scoreSum]

theorem addResult_points (p : Player) (color : Color) (score : String) (opponentID : ID)
    (h : p.Points = scoreSum p.Results) :
    (p.addResult color score opponentID).Points =
      scoreSum (p.addResult color score opponentID).Results := by
  simp [Player.addResult, scoreSum_append, h]

/-! ## Points and history -/

theorem pointsOk_new (name : String) (rounds : Nat) : PointsOk (NewTournament name rounds) := by
  intro id p h
  simp only [NewTournament, mapGet] at h
  split at h
  · simp only [Option.some.injEq] at h
    subst h
    rfl
  · simp at h

theorem pointsOk_add (t : Tournament) (id : ID) (rating : Int) (h : PointsOk t) :
    PointsOk (AddParticpant t id rating).1 := by
  unfold AddParticpant
  cases hg : mapGet t.Participants id with
  | some p => exact h
  | none =>
    intro id' p hp
    simp only [mapGet_mapSet] at hp
    split at hp
    · simp only [Option.some.injEq] at hp
      subst hp
      rfl
    · exact h id' p hp

theorem pointsOk_start (long : Sorter) (t t' : Tournament) (hs : Start long t = some t')
    (h : PointsOk t) : PointsOk t' := by
  intro id p hp
  rcases start_player long t t' hs id with ⟨_, h2⟩ | ⟨q, r, h1, h2⟩
  · rw [h2] at hp; cases hp
  · rw [h2] at hp
    simp only [Option.some.injEq] at hp
    subst hp
    exact h id q h1

theorem pointsOk_sort (long : Sorter) (t t' : Tournament)
    (hs : sortPointsRanking long t = some t') (h : PointsOk t) : PointsOk t' := by
  intro id p hp
  rcases sort_player long t t' hs id with ⟨_, h2⟩ | ⟨q, r, h1, h2⟩
  · rw [h2] at hp; cases hp
  · rw [h2] at hp
    simp only [Option.some.injEq] at hp
    subst hp
    exact h id q h1

theorem pointsOk_set (t : Tournament) (id : ID) (p : Player) (color : Color) (score : String)
    (opponentID : ID) (hp : mapGet t.Participants id = some p) (h : PointsOk t) :
    PointsOk { t with
      Participants := mapSet t.Participants id (p.addResult color score opponentID) } := by
  intro id' q hq
  simp only [mapGet_mapSet] at hq
  split at hq
  · simp only [Option.some.injEq] at hq
    subst hq
    exact addResult_points p color score opponentID (h id p hp)
  · exact h id' q hq

theorem pointsOk_bye (t t' : Tournament) (playerId : ID)
    (hs : AssignBye t playerId = Outcome.ok t') (h : PointsOk t) : PointsOk t' := by
  unfold AssignBye at hs
  cases hg : mapGet t.Participants playerId with
  | none => simp [hg] at hs
  | some p =>
    simp only [hg, Outcome.ok.injEq] at hs
    subst hs
    exact pointsOk_set t playerId p White Bye BYE_DUMMY_ID hg h

theorem pointsOk_game (t t' : Tournament) (whiteID blackID : ID) (winner : Color)
    (hs : RecordGameResult t whiteID blackID winner = Outcome.ok t') (h : PointsOk t) :
    PointsOk t' := by
  unfold RecordGameResult at hs
  cases hw : mapGet t.Participants whiteID with
  | none => simp [hw] at hs
  | some pw =>
    simp only [hw] at hs
    have h1 := pointsOk_set t whiteID pw White
      (if winner = White then (Win, Loss)
        else if winner = Black then (Loss, Win) else (Draw, Draw)).1 blackID hw h
    split at hs
    · cases hs
    · rename_i pb hb
      simp only [Outcome.ok.injEq] at hs
      subst hs
      exact pointsOk_set _ blackID pb Black _ whiteID hb h1

/-- C2. In every state reached from `NewTournament` by `AddParticpant`,
`Start`, `RecordGameResult`, `AssignBye` and `sortPointsRanking`, whatever the
order, every stored player has `Points` equal to the sum over its `Results`
of `ScoreMap[Score]`. -/
theorem points_equal_history_sum (long : Sorter) (t : Tournament) (h : Reachable long t) :
    ∀ id p, mapGet t.Participants id = some p →
      p.Points = (p.Results.map (fun r => ScoreMap r.Score)).sum := by
  have key : PointsOk t := by
    induction h with
    | new name rounds => exact pointsOk_new name rounds
    | add id rating _ ih => exact pointsOk_add _ id rating ih
    | start _ hs ih => exact pointsOk_start long _ _ hs ih
    | game w b winner _ hs ih => exact pointsOk_game _ _ w b winner hs ih
    | bye p _ hs ih => exact pointsOk_bye _ _ p hs ih
    | sort _ hs ih => exact pointsOk_sort long _ _ hs ih
  exact key

/-- C2 after the first round of the scenario and a points sort: the state is
reached, and the winners hold 1.0, the losers 0.0. -/
theorem points_equal_history_sum_witness :
    ∃ t, run insertionSort (NewTournament "My Tournament" 5) (roundOne ++ [Op.sort]) = some t ∧
      Reachable insertionSort t ∧
      (∀ id p, mapGet t.Participants id = some p →
        p.Points = (p.Results.map (fun r => ScoreMap r.Score)).sum) ∧
      (mapGet t.Participants "Emmanuel").map Player.Points = some one ∧
      (mapGet t.Participants "Joy").map Player.Points = some zero := by
  have hr : ∃ t, run insertionSort (NewTournament "My Tournament" 5) (roundOne ++ [Op.sort])
      = some t := ⟨_, rfl⟩
  obtain ⟨t, ht⟩ := hr
  have hreach := reachable_run insertionSort _ _ t (Reachable.new "My Tournament" 5) ht
  refine ⟨t, ht, hreach, points_equal_history_sum insertionSort t hreach, ?_, ?_⟩
  · have : (run insertionSort (NewTournament "My Tournament" 5) (roundOne ++ [Op.sort])).bind
        (fun t => (mapGet t.Participants "Emmanuel").map Player.Points) = some one := by decide
    rw [ht] at this
    exact this
  · have : (run insertionSort (NewTournament "My Tournament" 5) (roundOne ++ [Op.sort])).bind
        (fun t => (mapGet t.Participants "Joy").map Player.Points) = some zero := by decide
    rw [ht] at this
    exact this

/-! ## The recorder calls, when they return -/

theorem bye_shape (t t' : Tournament) (playerId : ID)
    (h : AssignBye t playerId = Outcome.ok t') :
    ∃ p, mapGet t.Participants playerId = some p ∧
      t' = { t with
        Participants := mapSet t.Participants playerId (p.addResult White Bye BYE_DUMMY_ID) } := by
  unfold AssignBye at h
  cases hg : mapGet t.Participants playerId with
  | none => simp [hg] at h
  | some p =>
    simp only [hg, Outcome.ok.injEq] at h
    exact ⟨p, rfl, h.symm⟩

theorem game_shape (t t' : Tournament) (whiteID blackID : ID) (winner : Color)
    (h : RecordGameResult t whiteID blackID winner = Outcome.ok t') :
    ∃ pw pb, mapGet t.Participants whiteID = some pw ∧
      mapGet (mapSet t.Participants whiteID
        (pw.addResult White (gameScores winner).1 blackID)) blackID = some pb ∧
      t' = { t with
        Participants := mapSet (mapSet t.Participants whiteID
          (pw.addResult White (gameScores winner).1 blackID)) blackID
          (pb.addResult Black (gameScores winner).2 whiteID) } := by
  unfold RecordGameResult at h
  cases hw : mapGet t.Participants whiteID with
  | none => simp [hw] at h
  | some pw =>
    simp only [hw] at h
    split at h
    · cases h
    · rename_i pb hb
      simp only [Outcome.ok.injEq] at h
      exact ⟨pw, pb, rfl, hb, h.symm⟩

theorem bye_registered (t t' : Tournament) (playerId : ID)
    (h : AssignBye t playerId = Outcome.ok t') (id : ID) :
    (mapGet t'.Participants id).isSome ↔ (mapGet t.Participants id).isSome := by
  obtain ⟨p, hp, rfl⟩ := bye_shape t t' playerId h
  simp only [mapGet_mapSet]
  split
  · rename_i e; subst e; simp [hp]
  · rfl

theorem game_registered (t t' : Tournament) (whiteID blackID : ID) (winner : Color)
    (h : RecordGameResult t whiteID blackID winner = Outcome.ok t') (id : ID) :
    (mapGet t'.Participants id).isSome ↔ (mapGet t.Participants id).isSome := by
  obtain ⟨pw, pb, hw, hb, rfl⟩ := game_shape t t' whiteID blackID winner h
  simp only [mapGet_mapSet] at hb ⊢
  by_cases e1 : blackID = id
  · subst e1
    split at hb <;> simp_all
  · by_cases e2 : whiteID = id
    · subst e2; simp [e1, hw]
    · simp [e1, e2]

theorem start_registered (long : Sorter) (t t' : Tournament) (h : Start long t = some t')
    (id : ID) : (mapGet t'.Participants id).isSome ↔ (mapGet t.Participants id).isSome := by
  rcases start_player long t t' h id with ⟨h1, h2⟩ | ⟨p, r, h1, h2⟩ <;> simp [h1, h2]

theorem sort_registered (long : Sorter) (t t' : Tournament)
    (h : sortPointsRanking long t = some t') (id : ID) :
    (mapGet t'.Participants id).isSome ↔ (mapGet t.Participants id).isSome := by
  rcases sort_player long t t' h id with ⟨h1, h2⟩ | ⟨p, r, h1, h2⟩ <;> simp [h1, h2]

/-- The lists and the rank map as `Start` leaves them. -/
theorem start_lists (long : Sorter) (t t' : Tournament) (h : Start long t = some t') :
    sortSlice long (ratingLess t) t.RatingsRank = some t'.RatingsRank ∧
    t'.PointsRank = t'.RatingsRank ∧ t'.Ongoing = true ∧ t'.Name = t.Name ∧
    t'.Rounds = t.Rounds := by
  unfold Start at h
  cases hs : sortSlice long (ratingLess t) t.RatingsRank with
  | none => simp [hs] at h
  | some sorted =>
    simp only [hs] at h
    cases ha : assignRatingPos { t with RatingsRank := sorted } sorted 0 with
    | none => simp [ha] at h
    | some t2 =>
      simp only [ha, Option.some.injEq] at h
      subst h
      have hf := assignRatingPos_frame sorted _ t2 0 ha
      simp only at hf
      simp [hf]

/-- The lists and the rank map as the points sort leaves them. -/
theorem sort_lists (long : Sorter) (t t' : Tournament)
    (h : sortPointsRanking long t = some t') :
    sortSlice long (pointsLess t) t.PointsRank = some t'.PointsRank ∧
    assignPointsPos { t with PointsRank := t'.PointsRank } t'.PointsRank 0 = some t' ∧
    t'.RatingsRank = t.RatingsRank ∧ t'.RanktoIDs = t.RanktoIDs ∧ t'.Ongoing = t.Ongoing ∧
    t'.Name = t.Name ∧ t'.Rounds = t.Rounds := by
  unfold sortPointsRanking at h
  cases hs : sortSlice long (pointsLess t) t.PointsRank with
  | none => simp [hs] at h
  | some sorted =>
    simp only [hs] at h
    have hf := assignPointsPos_frame sorted _ t' 0 h
    simp only at hf
    refine ⟨by rw [hf.2.2.2.1], by rw [hf.2.2.2.1]; exact h, hf.2.2.1, hf.2.2.2.2.1,
      hf.2.2.2.2.2, hf.1, hf.2.1⟩

/-! ## Consistency of the rankings in reachable states -/

theorem registryOk_of_same (t t' : Tournament) (h : RegistryOk t)
    (hrank : t'.RatingsRank.Perm t.RatingsRank)
    (hkeys : ∀ id, (mapGet t'.Participants id).isSome ↔ (mapGet t.Participants id).isSome) :
    RegistryOk t' := by
  obtain ⟨hnd, hmem, hbye⟩ := h
  refine ⟨hrank.nodup_iff.mpr hnd, ?_, (hkeys _).mpr hbye⟩
  intro id
  rw [hrank.mem_iff, hmem id, hkeys id]

theorem ranksOk_reachable (long : Sorter) (hlong : SortContract long) (t : Tournament)
    (h : Reachable long t) : RanksOk t := by
  induction h with
  | new name rounds =>
    exact ⟨registryOk_new name rounds, by simp [NewTournament], by simp [NewTournament]⟩
  | @add t id rating _ ih =>
    obtain ⟨h1, h2, h3⟩ := ih
    refine ⟨registryOk_add t id rating h1, ?_, ?_⟩
    · have : (AddParticpant t id rating).1.PointsRank = t.PointsRank := by
        unfold AddParticpant
        cases mapGet t.Participants id <;> rfl
      rw [this]; exact h2
    · have : (AddParticpant t id rating).1.PointsRank = t.PointsRank := by
        unfold AddParticpant
        cases mapGet t.Participants id <;> rfl
      rw [this]
      intro id' hid'
      exact (add_registered t id rating id').mpr (Or.inl (h3 id' hid'))
  | @start t t' _ hs ih =>
    obtain ⟨h1, _, _⟩ := ih
    obtain ⟨hsort, hpr, _⟩ := start_lists long t t' hs
    have hperm := sortSlice_perm long hlong _ _ _ hsort
    have hreg := registryOk_of_same t t' h1 hperm (start_registered long t t' hs)
    refine ⟨hreg, by rw [hpr]; exact hreg.1, ?_⟩
    intro id hid
    rw [hpr] at hid
    exact ((hreg.2.1 id).mp hid).1
  | @game t t' w b winner _ hs ih =>
    obtain ⟨h1, h2, h3⟩ := ih
    have hk := game_registered t t' w b winner hs
    obtain ⟨pw, pb, _, _, rfl⟩ := game_shape t t' w b winner hs
    exact ⟨registryOk_of_same t _ h1 (List.Perm.refl _) hk, h2,
      fun id hid => (hk id).mpr (h3 id hid)⟩
  | @bye t t' p _ hs ih =>
    obtain ⟨h1, h2, h3⟩ := ih
    have hk := bye_registered t t' p hs
    obtain ⟨q, _, rfl⟩ := bye_shape t t' p hs
    exact ⟨registryOk_of_same t _ h1 (List.Perm.refl _) hk, h2,
      fun id hid => (hk id).mpr (h3 id hid)⟩
  | @sort t t' _ hs ih =>
    obtain ⟨h1, h2, h3⟩ := ih
    have hk := sort_registered long t t' hs
    obtain ⟨hsort, _, hrr, _⟩ := sort_lists long t t' hs
    have hperm := sortSlice_perm long hlong _ _ _ hsort
    refine ⟨registryOk_of_same t t' h1 (by rw [hrr]) hk, hperm.nodup_iff.mpr h2, ?_⟩
    intro id hid
    exact (hk id).mpr (h3 id (hperm.mem_iff.mp hid))

/-! ## The points sort -/

theorem cascade_agrees (pa pb : Player) :
    (cascade pa pb = some true → pa.Points ≥ pb.Points) ∧
    (cascade pa pb = some false → pb.Points ≥ pa.Points) := by
  unfold cascade
  by_cases h : pa.Points = pb.Points
  · simp only [h, ne_eq, not_true_eq_false, if_false]
    exact ⟨fun _ => le_refl _, fun _ => le_refl _⟩
  · simp only [ne_eq, h, not_false_eq_true, if_true, Option.some.injEq, decide_eq_true_eq,
      decide_eq_false_iff_not]
    exact ⟨fun h' => Int.le_of_lt h', fun h' => Int.not_lt.mp h'⟩

theorem pointsLess_agrees (t : Tournament) (a b : ID) :
    (pointsLess t a b = some true → pointsOf t a ≥ pointsOf t b) ∧
    (pointsLess t a b = some false → pointsOf t b ≥ pointsOf t a) := by
  unfold pointsLess pointsOf
  cases ha : mapGet t.Participants a with
  | none => simp
  | some pa =>
    cases hb : mapGet t.Participants b with
    | none => simp
    | some pb => exact cascade_agrees pa pb

/-- After the points sort the identifier at index `i` of `PointsRank` has
`PointsPos = i + 1`, nothing else of it being changed. -/
theorem sort_positions (long : Sorter) (hlong : SortContract long) (t t' : Tournament)
    (hok : RanksOk t) (hs : sortPointsRanking long t = some t') :
    t'.PointsRank.Perm t.PointsRank ∧
    ∀ (i : Nat) (id : ID), t'.PointsRank[i]? = some id →
      ∃ p, mapGet t.Participants id = some p ∧
        mapGet t'.Participants id = some { p with PointsPos := (i : Int) + 1 } := by
  obtain ⟨hsort, hassign, _⟩ := sort_lists long t t' hs
  have hperm := sortSlice_perm long hlong _ _ _ hsort
  refine ⟨hperm, ?_⟩
  intro i id hi
  have := assignPointsPos_pos t'.PointsRank _ t' 0 (hperm.nodup_iff.mpr hok.2.1) hassign i id hi
  simpa using this

/-- In a duplicate-free list ordered along `R`, an element that `R` does not
allow after another one stands at a smaller index. -/
theorem index_lt_of_pairwise (l : List ID) (R : ID → ID → Prop)
    (hpw : l.Pairwise R) (a b : ID) (ha : a ∈ l) (hb : b ∈ l) (hab : a ≠ b) (hnot : ¬ R b a) :
    ∃ i j : Nat, i < j ∧ l[i]? = some a ∧ l[j]? = some b := by
  obtain ⟨i, hi⟩ := List.mem_iff_getElem?.mp ha
  obtain ⟨j, hj⟩ := List.mem_iff_getElem?.mp hb
  obtain ⟨hil, hia⟩ := List.getElem?_eq_some.mp hi
  obtain ⟨hjl, hjb⟩ := List.getElem?_eq_some.mp hj
  rcases Nat.lt_trichotomy i j with h | h | h
  · exact ⟨i, j, h, hi, hj⟩
  · subst h
    rw [hi] at hj
    exact absurd (Option.some.inj hj) hab
  · exfalso
    have := List.pairwise_iff_getElem.mp hpw j i hjl hil h
    rw [hia, hjb] at this
    exact hnot this

/-- C3. After `sortPointsRanking` on a reachable tournament, `PointsRank` is
in non-increasing order of `Points`, and of two ranked players the one with
more `Points` has the smaller `PointsPos`.  After Emmanuel beats Joy and Peniel
beats Daniel, Emmanuel and Peniel (1.0 each) stand at positions 1 and 2,
Daniel and Joy (0.0 each) at 3 and 4. -/
theorem sort_orders_by_points (long : Sorter) (hlong : SortContract long) (t t' : Tournament)
    (hreach : Reachable long t) (hs : sortPointsRanking long t = some t') :
    t'.PointsRank.Pairwise (fun a b => ∃ pa pb, mapGet t'.Participants a = some pa ∧
      mapGet t'.Participants b = some pb ∧ pa.Points ≥ pb.Points) ∧
    (∀ a b pa pb, a ∈ t'.PointsRank → b ∈ t'.PointsRank →
      mapGet t'.Participants a = some pa → mapGet t'.Participants b = some pb →
      pa.Points > pb.Points → pa.PointsPos < pb.PointsPos) ∧
    (∃ t1, run long (NewTournament "My Tournament" 5) (roundOne ++ [Op.sort]) = some t1 ∧
      (mapGet t1.Participants "Emmanuel").map (fun p => (p.Points, p.PointsPos)) = some (one, 1) ∧
      (mapGet t1.Participants "Peniel").map (fun p => (p.Points, p.PointsPos)) = some (one, 2) ∧
      (mapGet t1.Participants "Daniel").map (fun p => (p.Points, p.PointsPos)) = some (zero, 3) ∧
      (mapGet t1.Participants "Joy").map (fun p => (p.Points, p.PointsPos)) = some (zero, 4)) := by
  have hok := ranksOk_reachable long hlong t hreach
  obtain ⟨hperm, hpos⟩ := sort_positions long hlong t t' hok hs
  obtain ⟨hsort, _⟩ := sort_lists long t t' hs
  have hpw := sortSlice_pairwise long hlong (pointsLess t)
    (fun a b => pointsOf t a ≥ pointsOf t b) (fun a b c h1 h2 => le_trans h2 h1)
    t.PointsRank t'.PointsRank (fun a _ b _ => pointsLess_agrees t a b) hsort
  have hnd : t'.PointsRank.Nodup := hperm.nodup_iff.mpr hok.2.1
  have hpts : ∀ id ∈ t'.PointsRank, ∀ p, mapGet t'.Participants id = some p →
      p.Points = pointsOf t id := by
    intro id hid p hp
    obtain ⟨i, hi⟩ := List.mem_iff_getElem?.mp hid
    obtain ⟨q, hq1, hq2⟩ := hpos i id hi
    rw [hq2] at hp
    simp only [Option.some.injEq] at hp
    subst hp
    simp [pointsOf, hq1]
  refine ⟨?_, ?_, ?_⟩
  · refine List.Pairwise.imp_of_mem ?_ hpw
    intro a b ha hb hab
    obtain ⟨i, hi⟩ := List.mem_iff_getElem?.mp ha
    obtain ⟨j, hj⟩ := List.mem_iff_getElem?.mp hb
    obtain ⟨pa, hpa1, hpa2⟩ := hpos i a hi
    obtain ⟨pb, hpb1, hpb2⟩ := hpos j b hj
    refine ⟨_, _, hpa2, hpb2, ?_⟩
    simpa [pointsOf, hpa1, hpb1] using hab
  · intro a b pa pb ha hb hpa hpb hgt
    have hab : a ≠ b := by
      intro e
      subst e
      rw [hpa] at hpb
      simp only [Option.some.injEq] at hpb
      subst hpb
      exact lt_irrefl _ hgt
    have hnot : ¬ (pointsOf t b ≥ pointsOf t a) := by
      rw [← hpts a ha pa hpa, ← hpts b hb pb hpb]
      exact Int.not_le.mpr hgt
    obtain ⟨i, j, hij, hi, hj⟩ := index_lt_of_pairwise t'.PointsRank _ hpw a b ha hb hab hnot
    obtain ⟨qa, _, hqa⟩ := hpos i a hi
    obtain ⟨qb, _, hqb⟩ := hpos j b hj
    rw [hqa] at hpa
    rw [hqb] at hpb
    simp only [Option.some.injEq] at hpa hpb
    subst hpa
    subst hpb
    exact Int.add_lt_add_right (Int.ofNat_lt.mpr hij) 1
  · exact ⟨_, rfl, rfl, rfl, rfl, rfl⟩

/-- C3 in the scenario: the state after the first round is reached, the sort
returns, and Emmanuel (1.0) is ranked above Daniel (0.0). -/
theorem sort_orders_by_points_witness :
    SortContract (insertionSort (α := ID)) ∧
    ∃ t t', run insertionSort (NewTournament "My Tournament" 5) roundOne = some t ∧
      Reachable insertionSort t ∧ sortPointsRanking insertionSort t = some t' ∧
      (∀ a b pa pb, a ∈ t'.PointsRank → b ∈ t'.PointsRank →
        mapGet t'.Participants a = some pa → mapGet t'.Participants b = some pb →
        pa.Points > pb.Points → pa.PointsPos < pb.PointsPos) := by
  refine ⟨insertionSort_contract, ?_⟩
  have hr : ∃ t, run insertionSort (NewTournament "My Tournament" 5) roundOne = some t :=
    ⟨_, rfl⟩
  obtain ⟨t, ht⟩ := hr
  have hreach := reachable_run insertionSort _ _ t (Reachable.new "My Tournament" 5) ht
  have hsome : (sortPointsRanking insertionSort t).isSome := by
    have h : ((run insertionSort (NewTournament "My Tournament" 5) roundOne).bind
        (sortPointsRanking insertionSort)).isSome = true := by decide
    rw [ht] at h
    exact h
  obtain ⟨t', ht'⟩ := Option.isSome_iff_exists.mp hsome
  exact ⟨t, t', ht, hreach, ht',
    (sort_orders_by_points insertionSort insertionSort_contract t t' hreach ht').2.1⟩

/-! ## Head-to-head and the cascade -/

theorem headToHeadLoop_congr (q q' : Player) (hid : q.ID = q'.ID)
    (hres : q.Results = q'.Results) :
    ∀ (l : List Result) (idx : Nat) (acc : Float64 × Float64),
      headToHeadLoop q l idx acc = headToHeadLoop q' l idx acc := by
  intro l
  induction l with
  | nil => intro idx acc; rfl
  | cons r rest ih =>
    intro idx acc
    simp only [headToHeadLoop, hid, hres, ih]

/-- The head-to-head lookup reads nothing of a player but `ID` and `Results`. -/
theorem headToHead_congr (p p' q q' : Player) (hp : p.Results = p'.Results)
    (hid : q.ID = q'.ID) (hres : q.Results = q'.Results) :
    havePlayedAgainstEachOther p q = havePlayedAgainstEachOther p' q' := by
  unfold havePlayedAgainstEachOther
  rw [hp]
  exact headToHeadLoop_congr q q' hid hres _ _ _

/-- With equal points and equal head-to-head scores the cascade is decided
by rating, a full tie answering true. -/
theorem cascade_silent (pa pb : Player) (d : Float64) (hpts : pa.Points = pb.Points)
    (hh : havePlayedAgainstEachOther pa pb = some (d, d)) :
    cascade pa pb = some (decide (pa.Rating ≥ pb.Rating)) := by
  unfold cascade
  simp only [hpts, ne_eq, not_true_eq_false, if_false, hh]
  by_cases hr : pa.Rating = pb.Rating
  · simp [hr]
  · have : (pa.Rating > pb.Rating) ↔ (pa.Rating ≥ pb.Rating) := by omega
    simp [hr, this]

theorem headToHeadSilent_spec (t : Tournament) (points : Float64)
    (h : headToHeadSilent t points = true) (x y : ID) (hx : x ∈ t.PointsRank)
    (hy : y ∈ t.PointsRank) (px py : Player) (hpx : mapGet t.Participants x = some px)
    (hpy : mapGet t.Participants y = some py) (h1 : px.Points = points)
    (h2 : py.Points = points) : ∃ d, havePlayedAgainstEachOther px py = some (d, d) := by
  unfold headToHeadSilent at h
  have := List.all_eq_true.mp (List.all_eq_true.mp h x hx) y hy
  simp only [hpx, hpy, h1, h2, and_self, if_true] at this
  cases hh : havePlayedAgainstEachOther px py with
  | none => simp [hh] at this
  | some d =>
    obtain ⟨d1, d2⟩ := d
    simp only [hh, decide_eq_true_eq] at this
    exact ⟨d1, by rw [this]⟩

/-- C4, as amended. After `sortPointsRanking` on a reachable tournament, take
two ranked players A and B with equal `Points` and A's `Rating` above B's.
If head-to-head decides nothing among the ranked players holding that many
points, then `A.PointsPos < B.PointsPos`.  In the scenario Emmanuel (3000)
and Peniel (1000), 1.0 point each and no mutual game, stand at positions 1
and 2. -/
theorem rating_breaks_silent_ties (long : Sorter) (hlong : SortContract long)
    (t t' : Tournament) (hreach : Reachable long t) (hs : sortPointsRanking long t = some t')
    (a b : ID) (pa pb : Player) (ha : a ∈ t'.PointsRank) (hb : b ∈ t'.PointsRank)
    (hpa : mapGet t'.Participants a = some pa) (hpb : mapGet t'.Participants b = some pb)
    (hpts : pa.Points = pb.Points) (hsilent : headToHeadSilent t' pa.Points = true)
    (hrating : pa.Rating > pb.Rating) :
    pa.PointsPos < pb.PointsPos ∧
    (∃ t1, run long (NewTournament "My Tournament" 5) (roundOne ++ [Op.sort]) = some t1 ∧
      (mapGet t1.Participants "Emmanuel").map (fun p => (p.Points, p.Rating, p.PointsPos))
        = some (one, 3000, 1) ∧
      (mapGet t1.Participants "Peniel").map (fun p => (p.Points, p.Rating, p.PointsPos))
        = some (one, 1000, 2) ∧
      headToHeadSilent t1 one = true) := by
  refine ⟨?_, ⟨_, rfl, rfl, rfl, rfl⟩⟩
  have hok := ranksOk_reachable long hlong t hreach
  obtain ⟨hperm, hpos⟩ := sort_positions long hlong t t' hok hs
  obtain ⟨hsort, _⟩ := sort_lists long t t' hs
  -- the players before the sort
  have hback : ∀ x ∈ t.PointsRank, ∃ px r, mapGet t.Participants x = some px ∧
      mapGet t'.Participants x = some { px with PointsPos := r } := by
    intro x hx
    obtain ⟨i, hi⟩ := List.mem_iff_getElem?.mp (hperm.mem_iff.mpr hx)
    obtain ⟨px, h1, h2⟩ := hpos i x hi
    exact ⟨px, _, h1, h2⟩
  let R : ID → ID → Prop := fun x y =>
    pointsOf t x > pointsOf t y ∨
      (pointsOf t x = pointsOf t y ∧ (pointsOf t x = pa.Points → ratingOf t x ≥ ratingOf t y))
  have htrans : ∀ x y z, R x y → R y z → R x z := by
    intro x y z h1 h2
    rcases h1 with h1 | ⟨e1, r1⟩
    · rcases h2 with h2 | ⟨e2, _⟩
      · exact Or.inl (lt_trans h2 h1)
      · exact Or.inl (by rw [← e2]; exact h1)
    · rcases h2 with h2 | ⟨e2, r2⟩
      · exact Or.inl (by rw [e1]; exact h2)
      · refine Or.inr ⟨e1.trans e2, fun hx => ?_⟩
        exact le_trans (r2 (by rw [← e1]; exact hx)) (r1 hx)
  have hagree : ∀ x ∈ t.PointsRank, ∀ y ∈ t.PointsRank,
      (pointsLess t x y = some true → R x y) ∧ (pointsLess t x y = some false → R y x) := by
    intro x hx y hy
    obtain ⟨px, rx, hpx, hpx'⟩ := hback x hx
    obtain ⟨py, ry, hpy, hpy'⟩ := hback y hy
    have hox : pointsOf t x = px.Points := by simp [pointsOf, hpx]
    have hoy : pointsOf t y = py.Points := by simp [pointsOf, hpy]
    have hrx : ratingOf t x = px.Rating := by simp [ratingOf, hpx]
    have hry : ratingOf t y = py.Rating := by simp [ratingOf, hpy]
    by_cases he : px.Points = py.Points
    · by_cases hg : px.Points = pa.Points
      · obtain ⟨d, hd⟩ := headToHeadSilent_spec t' pa.Points hsilent x y
          (hperm.mem_iff.mpr hx) (hperm.mem_iff.mpr hy) _ _ hpx' hpy' hg (he ▸ hg)
        have hd' : havePlayedAgainstEachOther px py = some (d, d) := by
          rw [← hd]
          exact headToHead_congr _ _ _ _ rfl rfl rfl
        have hc := cascade_silent px py d he hd'
        simp only [pointsLess, hpx, hpy, hc, Option.some.injEq, decide_eq_true_eq,
          decide_eq_false_iff_not]
        constructor
        · intro h
          exact Or.inr ⟨by rw [hox, hoy, he], fun _ => by rw [hrx, hry]; exact h⟩
        · intro h
          exact Or.inr ⟨by rw [hox, hoy, he], fun _ => by rw [hrx, hry]; omega⟩
      · constructor
        · intro _
          exact Or.inr ⟨by rw [hox, hoy, he], fun h => absurd (hox ▸ h) hg⟩
        · intro _
          exact Or.inr ⟨by rw [hox, hoy, he], fun h => absurd (he ▸ (hoy ▸ h)) hg⟩
    · have hc := cascade_agrees px py
      simp only [pointsLess, hpx, hpy]
      constructor
      · intro h
        left
        rw [hox, hoy]
        exact lt_of_le_of_ne (hc.1 h) (fun e => he e.symm)
      · intro h
        left
        rw [hox, hoy]
        exact lt_of_le_of_ne (hc.2 h) he
  have hpw := sortSlice_pairwise long hlong (pointsLess t) R htrans
    t.PointsRank t'.PointsRank hagree hsort
  -- A and B before the sort
  obtain ⟨qa, ra, hqa, hqa'⟩ := hback a (hperm.mem_iff.mp ha)
  obtain ⟨qb, rb, hqb, hqb'⟩ := hback b (hperm.mem_iff.mp hb)
  have ea : pa = { qa with PointsPos := ra } := by
    rw [hqa'] at hpa; exact (Option.some.inj hpa).symm
  have eb : pb = { qb with PointsPos := rb } := by
    rw [hqb'] at hpb; exact (Option.some.inj hpb).symm
  have hab : a ≠ b := by
    intro e
    subst e
    rw [hpa] at hpb
    simp only [Option.some.injEq] at hpb
    subst hpb
    exact lt_irrefl _ hrating
  have hnot : ¬ R b a := by
    have h1 : pointsOf t a = pa.Points := by simp [pointsOf, hqa, ea]
    have h2 : pointsOf t b = pa.Points := by simp [pointsOf, hqb, hpts, eb]
    have h3 : ratingOf t a = pa.Rating := by simp [ratingOf, hqa, ea]
    have h4 : ratingOf t b = pb.Rating := by simp [ratingOf, hqb, eb]
    rintro (h | ⟨_, h⟩)
    · rw [h1, h2] at h
      exact lt_irrefl _ h
    · have := h h2
      rw [h3, h4] at this
      omega
  obtain ⟨i, j, hij, hi, hj⟩ := index_lt_of_pairwise t'.PointsRank R hpw a b ha hb hab hnot
  obtain ⟨xa, _, hxa⟩ := hpos i a hi
  obtain ⟨xb, _, hxb⟩ := hpos j b hj
  rw [hxa] at hpa
  rw [hxb] at hpb
  simp only [Option.some.injEq] at hpa hpb
  rw [← hpa, ← hpb]
  exact Int.add_lt_add_right (Int.ofNat_lt.mpr hij) 1

theorem reachable_after (ops : List Op)
    (h : run insertionSort (NewTournament "My Tournament" 5) ops = some (after ops)) :
    Reachable insertionSort (after ops) :=
  reachable_run insertionSort ops _ _ (Reachable.new "My Tournament" 5) h

/-- C4, as amended, in the scenario: Emmanuel and Peniel after the first
round and a points sort. -/
theorem rating_breaks_silent_ties_witness :
    SortContract (insertionSort (α := ID)) ∧
    Reachable insertionSort (after roundOne) ∧
    sortPointsRanking insertionSort (after roundOne) = some (after (roundOne ++ [Op.sort])) ∧
    headToHeadSilent (after (roundOne ++ [Op.sort])) one = true ∧
    ∃ pa pb, mapGet (after (roundOne ++ [Op.sort])).Participants "Emmanuel" = some pa ∧
      mapGet (after (roundOne ++ [Op.sort])).Participants "Peniel" = some pb ∧
      pa.Points = pb.Points ∧ pa.Rating > pb.Rating ∧ pa.PointsPos < pb.PointsPos := by
  have hreach : Reachable insertionSort (after roundOne) := reachable_after roundOne (by decide)
  have hsort : sortPointsRanking insertionSort (after roundOne)
      = some (after (roundOne ++ [Op.sort])) := by decide
  have hsilent : headToHeadSilent (after (roundOne ++ [Op.sort])) one = true := by decide
  have hpa : mapGet (after (roundOne ++ [Op.sort])).Participants "Emmanuel" = some
      { ID := "Emmanuel", Rating := 3000, Points := one, RatingPos := 2, PointsPos := 1,
        Results := [{ OpponentID := "Joy", Color := "w", Score := Win }] } := by decide
  have hpb : mapGet (after (roundOne ++ [Op.sort])).Participants "Peniel" = some
      { ID := "Peniel", Rating := 1000, Points := one, RatingPos := 3, PointsPos := 2,
        Results := [{ OpponentID := "Daniel", Color := "w", Score := Win }] } := by decide
  exact ⟨insertionSort_contract, hreach, hsort, hsilent, _, _, hpa, hpb, rfl, by decide,
    (rating_breaks_silent_ties insertionSort insertionSort_contract _ _ hreach hsort
      "Emmanuel" "Peniel" _ _ (by decide) (by decide) hpa hpb rfl hsilent (by decide)).1⟩

/-- C4 as stated fails. After the two rounds of `twoRounds` and a points
sort, A (rating 4000) and B (rating 3000) hold 1.0 point each and never met,
yet B stands at position 2 and A at position 4: X, who beat A, stands between
them. -/
theorem rating_tiebreak_counterexample :
    ∃ pa pb, Reachable insertionSort (after twoRounds) ∧
      sortPointsRanking insertionSort (after twoRounds)
        = some (after (twoRounds ++ [Op.sort])) ∧
      (after (twoRounds ++ [Op.sort])).PointsRank = ["Z", "B", "X", "A", "W", "Y"] ∧
      mapGet (after (twoRounds ++ [Op.sort])).Participants "A" = some pa ∧
      mapGet (after (twoRounds ++ [Op.sort])).Participants "B" = some pb ∧
      pa.Points = pb.Points ∧
      (∀ r ∈ pa.Results, r.OpponentID ≠ "B") ∧ (∀ r ∈ pb.Results, r.OpponentID ≠ "A") ∧
      havePlayedAgainstEachOther pa pb = some (zero, zero) ∧
      pa.Rating > pb.Rating ∧ ¬ (pa.PointsPos < pb.PointsPos) := by
  have hpa : mapGet (after (twoRounds ++ [Op.sort])).Participants "A" = some
      { ID := "A", Rating := 4000, Points := one, RatingPos := 1, PointsPos := 4,
        Results := [{ OpponentID := "X", Color := "b", Score := Loss },
          { OpponentID := "Y", Color := "w", Score := Win }] } := by decide
  have hpb : mapGet (after (twoRounds ++ [Op.sort])).Participants "B" = some
      { ID := "B", Rating := 3000, Points := one, RatingPos := 2, PointsPos := 2,
        Results := [{ OpponentID := "Y", Color := "w", Score := Win },
          { OpponentID := "Z", Color := "b", Score := Loss }] } := by decide
  exact ⟨_, _, reachable_after twoRounds (by decide), by decide, by decide, hpa, hpb,
    by decide, by decide, by decide, by decide, by decide, by decide⟩

/-- C5 fails on the code. Two participants of equal rating and no result:
the cascade answers true for the full tie both ways round, so the insertion
sort swaps them at every call. One `sortPointsRanking` leaves `PointsRank`
as B, A; a second one, with nothing changed in between, leaves A, B, and
every `PointsPos` changes with it. -/
theorem sort_twice_differs :
    run insertionSort (NewTournament "My Tournament" 5) twoEqual = some (after twoEqual) ∧
    (after twoEqual).PointsRank = ["A", "B"] ∧
    pointsLess (after twoEqual) "A" "B" = some true ∧
    pointsLess (after twoEqual) "B" "A" = some true ∧
    sortPointsRanking insertionSort (after twoEqual) = some (after (twoEqual ++ [Op.sort])) ∧
    sortPointsRanking insertionSort (after (twoEqual ++ [Op.sort]))
      = some (after (twoEqual ++ [Op.sort, Op.sort])) ∧
    (after (twoEqual ++ [Op.sort])).PointsRank = ["B", "A"] ∧
    (after (twoEqual ++ [Op.sort, Op.sort])).PointsRank = ["A", "B"] ∧
    (mapGet (after (twoEqual ++ [Op.sort])).Participants "A").map Player.PointsPos = some 2 ∧
    (mapGet (after (twoEqual ++ [Op.sort, Op.sort])).Participants "A").map Player.PointsPos
      = some 1 := by
  decide

/-! ## RecordGameResult and AssignBye -/

/-- C6. `RecordGameResult(w, b, winner)` on two distinct registered
identifiers returns; it appends one `Result` to each of the two players, `w`
getting opponent `b`, colour "w" and score `sW`, `b` getting opponent `w`,
colour "b" and score `sB`, where `(sW, sB)` is (Win, Loss) for White, (Loss,
Win) for Black and (Draw, Draw) otherwise; the two `Points` grow by the score
values; every other player and every other field of the tournament is
unchanged. -/
theorem record_game_result (t : Tournament) (w b : ID) (winner : Color) (pw pb : Player)
    (hw : mapGet t.Participants w = some pw) (hb : mapGet t.Participants b = some pb)
    (hne : w ≠ b) :
    ∃ t' sW sB, RecordGameResult t w b winner = Outcome.ok t' ∧
      (sW, sB) = (if winner = White then (Win, Loss)
        else if winner = Black then (Loss, Win) else (Draw, Draw)) ∧
      mapGet t'.Participants w = some { pw with
        Results := pw.Results ++ [{ OpponentID := b, Color := "w", Score := sW }]
        Points := pw.Points + ScoreMap sW } ∧
      mapGet t'.Participants b = some { pb with
        Results := pb.Results ++ [{ OpponentID := w, Color := "b", Score := sB }]
        Points := pb.Points + ScoreMap sB } ∧
      (∀ id, id ≠ w → id ≠ b → mapGet t'.Participants id = mapGet t.Participants id) ∧
      t'.RatingsRank = t.RatingsRank ∧ t'.PointsRank = t.PointsRank ∧
      t'.RanktoIDs = t.RanktoIDs ∧ t'.Name = t.Name ∧ t'.Rounds = t.Rounds ∧
      t'.Ongoing = t.Ongoing := by
  have hb1 : mapGet (mapSet t.Participants w
      (pw.addResult White (gameScores winner).1 b)) b = some pb := by
    rw [mapGet_mapSet_other _ _ _ _ hne]; exact hb
  refine ⟨
    { t with
      Participants :=
        mapSet (mapSet t.Participants w (pw.addResult White (gameScores winner).1 b)) b
          (pb.addResult Black (gameScores winner).2 w) },
    (gameScores winner).1, (gameScores winner).2, ?_, rfl, ?_, ?_, ?_,
    rfl, rfl, rfl, rfl, rfl, rfl⟩
  · unfold RecordGameResult
    simp only [hw]
    rw [show (if winner = White then (Win, Loss)
        else if winner = Black then (Loss, Win) else (Draw, Draw)) = gameScores winner from rfl]
    simp only [hb1]
  · simp only
    rw [mapGet_mapSet_other _ _ _ _ (fun e => hne e.symm), mapGet_mapSet_same]
    simp [Player.addResult, White]
  · simp only
    rw [mapGet_mapSet_same]
    simp [Player.addResult, White, Black]
  · intro id h1 h2
    simp only
    rw [mapGet_mapSet_other _ _ _ _ (fun e => h2 e.symm),
      mapGet_mapSet_other _ _ _ _ (fun e => h1 e.symm)]

/-- C6 in the scenario: Emmanuel beats Joy as White right after `Start`. -/
theorem record_game_result_witness :
    ∃ pw pb t', mapGet (after (roundOne.take 5)).Participants "Emmanuel" = some pw ∧
      mapGet (after (roundOne.take 5)).Participants "Joy" = some pb ∧
      RecordGameResult (after (roundOne.take 5)) "Emmanuel" "Joy" White = Outcome.ok t' ∧
      (mapGet t'.Participants "Emmanuel").map (fun p => (p.Points, p.Results))
        = some (one, [{ OpponentID := "Joy", Color := "w", Score := Win }]) ∧
      (mapGet t'.Participants "Joy").map (fun p => (p.Points, p.Results))
        = some (zero, [{ OpponentID := "Emmanuel", Color := "b", Score := Loss }]) := by
  have hw : mapGet (after (roundOne.take 5)).Participants "Emmanuel" = some
      { ID := "Emmanuel", Rating := 3000, Points := zero, RatingPos := 2, PointsPos := 0,
        Results := [] } := by decide
  have hb : mapGet (after (roundOne.take 5)).Participants "Joy" = some
      { ID := "Joy", Rating := 500, Points := zero, RatingPos := 4, PointsPos := 0,
        Results := [] } := by decide
  obtain ⟨t', sW, sB, h1, h2, h3, h4, _⟩ :=
    record_game_result (after (roundOne.take 5)) "Emmanuel" "Joy" White _ _ hw hb (by decide)
  have hs : (sW, sB) = (Win, Loss) := by rw [h2]; rfl
  obtain ⟨rfl, rfl⟩ := Prod.mk.inj hs
  refine ⟨_, _, t', hw, hb, h1, ?_, ?_⟩
  · rw [h3]; rfl
  · rw [h4]; rfl

/-- C7 as stated fails. With A registered and Z not, `RecordGameResult(A, Z,
White)` panics, and the state it leaves is not the one it started from: A
already holds the result of the game and its point. -/
theorem record_game_partial_counterexample :
    mapGet (after [Op.add "A" 1000]).Participants "Z" = none ∧
    ∃ t1, RecordGameResult (after [Op.add "A" 1000]) "A" "Z" White = Outcome.panic t1 ∧
      t1 ≠ after [Op.add "A" 1000] ∧
      (mapGet (after [Op.add "A" 1000]).Participants "A").map (fun p => (p.Points, p.Results))
        = some (zero, []) ∧
      (mapGet t1.Participants "A").map (fun p => (p.Points, p.Results))
        = some (one, [{ OpponentID := "Z", Color := "w", Score := Win }]) := by
  refine ⟨by decide, _, rfl, by decide, by decide, by decide⟩

/-- C7, as amended. `RecordGameResult(w, b, winner)` with `w` or `b` not
registered fails: it panics on the nil player. When `w` is not registered
the tournament is unchanged at the panic. When `w` is registered and `b` is
not, White's `Result` has been appended and White's `Points` updated before
the panic, and nothing else is changed. -/
theorem record_game_unregistered (t : Tournament) (w b : ID) (winner : Color)
    (h : mapGet t.Participants w = none ∨ mapGet t.Participants b = none) :
    (∃ t1, RecordGameResult t w b winner = Outcome.panic t1) ∧
    (mapGet t.Participants w = none → RecordGameResult t w b winner = Outcome.panic t) ∧
    (∀ pw, mapGet t.Participants w = some pw →
      RecordGameResult t w b winner = Outcome.panic
        { t with
          Participants := mapSet t.Participants w
            { pw with
              Results := pw.Results ++
                [{ OpponentID := b, Color := "w", Score := (gameScores winner).1 }]
              Points := pw.Points + ScoreMap (gameScores winner).1 } }) := by
  have hnone : mapGet t.Participants w = none → RecordGameResult t w b winner = Outcome.panic t := by
    intro hw
    unfold RecordGameResult
    simp only [hw]
  have hsome : ∀ pw, mapGet t.Participants w = some pw →
      RecordGameResult t w b winner = Outcome.panic
        { t with
          Participants := mapSet t.Participants w
            { pw with
              Results := pw.Results ++
                [{ OpponentID := b, Color := "w", Score := (gameScores winner).1 }]
              Points := pw.Points + ScoreMap (gameScores winner).1 } } := by
    intro pw hw
    have hb : mapGet t.Participants b = none := by
      rcases h with h | h
      · rw [hw] at h; cases h
      · exact h
    have hne : w ≠ b := by
      intro e
      subst e
      rw [hw] at hb
      cases hb
    have hb1 : mapGet (mapSet t.Participants w
        (pw.addResult White (gameScores winner).1 b)) b = none := by
      rw [mapGet_mapSet_other _ _ _ _ hne]; exact hb
    unfold RecordGameResult
    simp only [hw]
    rw [show (if winner = White then (Win, Loss)
        else if winner = Black then (Loss, Win) else (Draw, Draw)) = gameScores winner from rfl]
    simp only [hb1]
    simp [Player.addResult, White]
  refine ⟨?_, hnone, hsome⟩
  cases hw : mapGet t.Participants w with
  | none => exact ⟨_, hnone hw⟩
  | some pw => exact ⟨_, hsome pw hw⟩

/-- C7, as amended, on a tournament where neither identifier is registered. -/
theorem record_game_unregistered_witness :
    (mapGet (after [Op.add "A" 1000]).Participants "Y" = none ∨
      mapGet (after [Op.add "A" 1000]).Participants "Z" = none) ∧
    RecordGameResult (after [Op.add "A" 1000]) "Y" "Z" Black
      = Outcome.panic (after [Op.add "A" 1000]) :=
  ⟨Or.inl (by decide),
    (record_game_unregistered (after [Op.add "A" 1000]) "Y" "Z" Black (Or.inl (by decide))).2.1
      (by decide)⟩

/-- C8. `AssignBye(p)` on a registered identifier returns; it appends the
one `Result` (opponent the sentinel, colour "w", score Bye) to the history of
`p`, raises its `Points` by 1.0, and leaves every other player, both rank
sequences and every other field unchanged. After `Start` in the scenario,
`AssignBye(Joy)` leaves Joy with that one result and 1.0 point. -/
theorem assign_bye (t : Tournament) (p : ID) (player : Player)
    (hp : mapGet t.Participants p = some player) :
    (∃ t', AssignBye t p = Outcome.ok t' ∧
      mapGet t'.Participants p = some { player with
        Results := player.Results ++
          [{ OpponentID := BYE_DUMMY_ID, Color := "w", Score := Bye }]
        Points := player.Points + one } ∧
      (∀ id, id ≠ p → mapGet t'.Participants id = mapGet t.Participants id) ∧
      t'.RatingsRank = t.RatingsRank ∧ t'.PointsRank = t.PointsRank ∧
      t'.RanktoIDs = t.RanktoIDs ∧ t'.Name = t.Name ∧ t'.Rounds = t.Rounds ∧
      t'.Ongoing = t.Ongoing) ∧
    (∃ t1, AssignBye (after (roundOne.take 5)) "Joy" = Outcome.ok t1 ∧
      (mapGet (after (roundOne.take 5)).Participants "Joy").map
        (fun q => (q.Points, q.Results)) = some (zero, []) ∧
      (mapGet t1.Participants "Joy").map (fun q => (q.Points, q.Results))
        = some (one, [{ OpponentID := BYE_DUMMY_ID, Color := "w", Score := Bye }])) := by
  constructor
  · refine ⟨
      { t with
        Participants := mapSet t.Participants p (player.addResult White Bye BYE_DUMMY_ID) },
      ?_, ?_, ?_, rfl, rfl, rfl, rfl, rfl, rfl⟩
    · unfold AssignBye
      simp only [hp]
    · simp only
      rw [mapGet_mapSet_same]
      simp [Player.addResult, White, ScoreMap, Bye, Win, Draw, Loss, Forefeit]
    · intro id hid
      simp only
      rw [mapGet_mapSet_other _ _ _ _ (fun e => hid e.symm)]
  · exact ⟨_, rfl, by decide, by decide⟩

/-- C8 on Joy in the scenario, right after `Start`. -/
theorem assign_bye_witness :
    ∃ player t', mapGet (after (roundOne.take 5)).Participants "Joy" = some player ∧
      AssignBye (after (roundOne.take 5)) "Joy" = Outcome.ok t' ∧
      t'.PointsRank = (after (roundOne.take 5)).PointsRank ∧
      (∀ id, id ≠ "Joy" →
        mapGet t'.Participants id = mapGet (after (roundOne.take 5)).Participants id) := by
  have hp : mapGet (after (roundOne.take 5)).Participants "Joy" = some
      { ID := "Joy", Rating := 500, Points := zero, RatingPos := 4, PointsPos := 0,
        Results := [] } := by decide
  obtain ⟨⟨t', h1, _, h3, _, h5, _⟩, _⟩ := assign_bye (after (roundOne.take 5)) "Joy" _ hp
  exact ⟨_, t', hp, h1, h5, h3⟩

/-! ## AddParticpant -/

/-- C9. `AddParticpant(id, rating)` with an identifier already present
returns nil and leaves the tournament unchanged; with a new identifier it
stores a player with that identifier and rating, no points and an empty
history, appends the identifier to `RatingsRank`, and leaves every stored
player and every other field unchanged. In every reachable state the sentinel
is present, so registering it is refused, and `RatingsRank` has no duplicate
and does not contain the sentinel. -/
theorem add_participant (long : Sorter) (hlong : SortContract long) (t : Tournament) (id : ID)
    (rating : Int) :
    ((mapGet t.Participants id).isSome → AddParticpant t id rating = (t, none)) ∧
    (mapGet t.Participants id = none →
      ∃ t', AddParticpant t id rating =
          (t', some
            { ID := id, Rating := rating, Points := zero, RatingPos := 0, PointsPos := 0,
              Results := [] }) ∧
        mapGet t'.Participants id = some
            { ID := id, Rating := rating, Points := zero, RatingPos := 0, PointsPos := 0,
              Results := [] } ∧
        t'.RatingsRank = t.RatingsRank ++ [id] ∧
        (∀ id', id' ≠ id → mapGet t'.Participants id' = mapGet t.Participants id') ∧
        t'.PointsRank = t.PointsRank ∧ t'.RanktoIDs = t.RanktoIDs ∧ t'.Name = t.Name ∧
        t'.Rounds = t.Rounds ∧ t'.Ongoing = t.Ongoing) ∧
    (Reachable long t →
      AddParticpant t BYE_DUMMY_ID rating = (t, none) ∧
      t.RatingsRank.Nodup ∧ BYE_DUMMY_ID ∉ t.RatingsRank) := by
  have hpresent : ∀ id0, (mapGet t.Participants id0).isSome →
      AddParticpant t id0 rating = (t, none) := by
    intro id0 h
    obtain ⟨p, hp⟩ := Option.isSome_iff_exists.mp h
    unfold AddParticpant
    simp only [hp]
  refine ⟨hpresent id, ?_, ?_⟩
  · intro h
    have hadd : AddParticpant t id rating =
        ({ t with
            Participants := mapSet t.Participants id
              { ID := id, Rating := rating, Points := zero, RatingPos := 0, PointsPos := 0,
                Results := [] }
            RatingsRank := t.RatingsRank ++ [id] },
          some
            { ID := id, Rating := rating, Points := zero, RatingPos := 0, PointsPos := 0,
              Results := [] }) := by
      unfold AddParticpant
      simp only [h]
    refine ⟨_, hadd, ?_, rfl, ?_, rfl, rfl, rfl, rfl, rfl⟩
    · simp only
      rw [mapGet_mapSet_same]
    · intro id' hid'
      simp only
      rw [mapGet_mapSet_other _ _ _ _ (fun e => hid' e.symm)]
  · intro hreach
    obtain ⟨⟨hnd, hmem, hbye⟩, _⟩ := ranksOk_reachable long hlong t hreach
    exact ⟨hpresent _ hbye, hnd, fun h => ((hmem _).mp h).2 rfl⟩

/-- C9 after the first round of the scenario: Joy is refused, Peace is
added last, the sentinel is refused. -/
theorem add_participant_witness :
    SortContract (insertionSort (α := ID)) ∧ Reachable insertionSort (after roundOne) ∧
    AddParticpant (after roundOne) "Joy" 100 = (after roundOne, none) ∧
    AddParticpant (after roundOne) BYE_DUMMY_ID 100 = (after roundOne, none) ∧
    (AddParticpant (after roundOne) "Peace" 200).1.RatingsRank
      = ["Daniel", "Emmanuel", "Peniel", "Joy", "Peace"] ∧
    (after roundOne).RatingsRank.Nodup ∧ BYE_DUMMY_ID ∉ (after roundOne).RatingsRank := by
  have hreach : Reachable insertionSort (after roundOne) := reachable_after roundOne (by decide)
  have h := add_participant insertionSort insertionSort_contract (after roundOne) "Joy" 100
  exact ⟨insertionSort_contract, hreach, h.1 (by decide), (h.2.2 hreach).1, by decide,
    (h.2.2 hreach).2.1, (h.2.2 hreach).2.2⟩

/-! ## The response decoder -/

/-- A line that starts with two integer tokens adds the pair they index. -/
theorem readPairs_step (ranktoIDMap : List (Int × ID)) (line : String) (rest : List String)
    (roundInfo : RoundInfo) (ta tb : String) (more : List String) (a b : Int)
    (hf : Fields line = ta :: tb :: more) (ha : Atoi ta = some a) (hb : Atoi tb = some b) :
    readPairs ranktoIDMap (line :: rest) roundInfo =
      readPairs ranktoIDMap rest
        { roundInfo with
          Pairs := roundInfo.Pairs ++
            [{ White := rankLookup ranktoIDMap a, Black := rankLookup ranktoIDMap b }] } := by
  rw [readPairs]
  simp only [hf, ha, hb]

theorem readPairs_all (ranktoIDMap : List (Int × ID)) :
    ∀ (rest : List String) (ab : List (Int × Int)) (roundInfo : RoundInfo),
      List.Forall₂ (fun line (p : Int × Int) => ∃ ta tb more,
        Fields line = ta :: tb :: more ∧ Atoi ta = some p.1 ∧ Atoi tb = some p.2) rest ab →
      readPairs ranktoIDMap rest roundInfo = Decoded.value
        { roundInfo with
          Pairs := roundInfo.Pairs ++ ab.map (fun p =>
            { White := rankLookup ranktoIDMap p.1, Black := rankLookup ranktoIDMap p.2 }) } := by
  intro rest ab roundInfo h
  induction h generalizing roundInfo with
  | nil => simp [readPairs]
  | cons hhead _ ih =>
    obtain ⟨ta, tb, more, hf, ha, hb⟩ := hhead
    rw [readPairs_step ranktoIDMap _ _ roundInfo ta tb more _ _ hf ha hb, ih]
    simp

theorem start_rank_zero (long : Sorter) (t t' : Tournament) (h : Start long t = some t') :
    mapGet t'.RanktoIDs 0 = mapGet t.RanktoIDs 0 := by
  unfold Start at h
  cases hs : sortSlice long (ratingLess t) t.RatingsRank with
  | none => simp [hs] at h
  | some sorted =>
    simp only [hs] at h
    cases ha : assignRatingPos { t with RatingsRank := sorted } sorted 0 with
    | none => simp [ha] at h
    | some t2 =>
      simp only [ha, Option.some.injEq] at h
      subst h
      have hlow := assignRatingPos_rank_low sorted _ t2 0 ha 0 (by simp)
      exact hlow

/-- In every reachable state position 0 of the rank map is the sentinel. -/
theorem rank_zero_reachable (long : Sorter) (t : Tournament) (h : Reachable long t) :
    mapGet t.RanktoIDs 0 = some BYE_DUMMY_ID := by
  induction h with
  | new name rounds => rfl
  | @add t id rating _ ih => rw [add_rankMap]; exact ih
  | @start t t' _ hs ih => rw [start_rank_zero long t t' hs]; exact ih
  | @game t t' w b winner _ hs ih =>
    obtain ⟨pw, pb, _, _, rfl⟩ := game_shape t t' w b winner hs
    exact ih
  | @bye t t' p _ hs ih =>
    obtain ⟨q, _, rfl⟩ := bye_shape t t' p hs
    exact ih
  | @sort t t' _ hs ih =>
    rw [(sort_lists long t t' hs).2.2.2.1]
    exact ih

/-- C10. A response whose first line is an integer `r` and whose following
lines each start with two integer tokens `a_k b_k`: `readPairFromFile` returns
without error the round `r` and exactly the pairs `(RanktoIDs[a_k],
RanktoIDs[b_k])`, one per line and in line order. The token 0 reads as
position 0, which in the rank map of every reachable tournament is the
sentinel. -/
theorem decode_pairs (ranktoIDMap : List (Int × ID)) (first : String) (rest : List String)
    (r : Int) (ab : List (Int × Int)) (hfirst : Atoi first = some r)
    (hrest : List.Forall₂ (fun line (p : Int × Int) => ∃ ta tb more,
      Fields line = ta :: tb :: more ∧ Atoi ta = some p.1 ∧ Atoi tb = some p.2) rest ab) :
    readPairFromFile (Except.ok (first :: rest)) ranktoIDMap = Decoded.value
      { Round := r
        Pairs := ab.map (fun p =>
          { White := rankLookup ranktoIDMap p.1, Black := rankLookup ranktoIDMap p.2 }) } ∧
    Atoi "0" = some 0 ∧
    (∀ (long : Sorter) (t : Tournament), Reachable long t →
      rankLookup t.RanktoIDs 0 = BYE_DUMMY_ID) := by
  refine ⟨?_, by decide, ?_⟩
  · rw [readPairFromFile]
    simp only [hfirst]
    rw [readPairs_all ranktoIDMap rest ab _ hrest]
    simp
  · intro long t h
    simp [rankLookup, rank_zero_reachable long t h]

/-- C10 on a response for the scenario after `Start`: round 2, Daniel against
Joy, Emmanuel against Peniel (trailing text ignored), a bye for Peniel. -/
theorem decode_pairs_witness :
    Atoi "2" = some 2 ∧
    readPairFromFile (Except.ok ["2", "1 4", "2 3 junk", " 3 0"])
        (after (roundOne.take 5)).RanktoIDs
      = Decoded.value
        { Round := 2
          Pairs := [{ White := "Daniel", Black := "Joy" },
            { White := "Emmanuel", Black := "Peniel" },
            { White := "Peniel", Black := BYE_DUMMY_ID }] } := by
  have h := (decode_pairs (after (roundOne.take 5)).RanktoIDs "2" ["1 4", "2 3 junk", " 3 0"] 2
    [(1, 4), (2, 3), (3, 0)] (by decide)
    (List.Forall₂.cons ⟨"1", "4", [], by decide, by decide, by decide⟩
      (List.Forall₂.cons ⟨"2", "3", ["junk"], by decide, by decide, by decide⟩
        (List.Forall₂.cons ⟨"3", "0", [], by decide, by decide, by decide⟩
          List.Forall₂.nil)))).1
  refine ⟨by decide, ?_⟩
  rw [h]
  decide

/-! ## The decoder on malformed responses -/

theorem readPairs_append (ranktoIDMap : List (Int × ID)) :
    ∀ (good : List String) (ab : List (Int × Int)) (tail : List String) (roundInfo : RoundInfo),
      List.Forall₂ (fun line (p : Int × Int) => ∃ ta tb more,
        Fields line = ta :: tb :: more ∧ Atoi ta = some p.1 ∧ Atoi tb = some p.2) good ab →
      readPairs ranktoIDMap (good ++ tail) roundInfo = readPairs ranktoIDMap tail
        { roundInfo with
          Pairs := roundInfo.Pairs ++ ab.map (fun p =>
            { White := rankLookup ranktoIDMap p.1, Black := rankLookup ranktoIDMap p.2 }) } := by
  intro good ab tail roundInfo h
  induction h generalizing roundInfo with
  | nil => simp
  | cons hhead _ ih =>
    obtain ⟨ta, tb, more, hf, ha, hb⟩ := hhead
    rw [List.cons_append, readPairs_step ranktoIDMap _ _ roundInfo ta tb more _ _ hf ha hb, ih]
    simp

/-- A first line that is not an integer is reported with its text. -/
theorem decode_bad_round (ranktoIDMap : List (Int × ID)) (first : String)
    (rest : List String) (h : Atoi first = none) :
    readPairFromFile (Except.ok (first :: rest)) ranktoIDMap =
      Decoded.failure { Round := 0, Pairs := [] } ("invalid round information: " ++ first) := by
  rw [readPairFromFile]
  simp only [h]

/-- When every line before it starts with two integer tokens, a line of two
or more tokens whose first or second token is not an integer is reported
with that token. -/
theorem decode_bad_token (ranktoIDMap : List (Int × ID)) (first : String) (r : Int)
    (good : List String) (ab : List (Int × Int)) (bad : String) (rest : List String)
    (ta tb : String) (more : List String) (hfirst : Atoi first = some r)
    (hgood : List.Forall₂ (fun line (p : Int × Int) => ∃ ta tb more,
      Fields line = ta :: tb :: more ∧ Atoi ta = some p.1 ∧ Atoi tb = some p.2) good ab)
    (hf : Fields bad = ta :: tb :: more) (hbad : Atoi ta = none ∨ Atoi tb = none) :
    ∃ info label token,
      readPairFromFile (Except.ok (first :: (good ++ bad :: rest))) ranktoIDMap =
        Decoded.failure info (label ++ token) ∧
      (token = ta ∨ token = tb) ∧ Atoi token = none := by
  rw [readPairFromFile]
  simp only [hfirst]
  rw [readPairs_append ranktoIDMap good ab (bad :: rest) _ hgood, readPairs]
  simp only [hf]
  cases ha : Atoi ta with
  | none => exact ⟨_, "invalid white ID: ", ta, rfl, Or.inl rfl, ha⟩
  | some a =>
    have hb : Atoi tb = none := by
      rcases hbad with h | h
      · rw [ha] at h; cases h
      · exact h
    simp only [hb]
    exact ⟨_, "invalid black ID: ", tb, rfl, Or.inr rfl, hb⟩

/-- C11 fails on the code. The body line "abc def" alone is reported
("invalid white ID: abc"), but behind a blank line it is never reached: the
blank line has no token, `parts[0]` is out of range and the call panics
instead of returning an error. The decoder is handed the rank map only and
returns nothing but its result, so the tournament is not modified. -/
theorem decode_error_lost_behind_blank_line :
    Fields "abc def" = ["abc", "def"] ∧ Atoi "abc" = none ∧ Fields "" = [] ∧
    (∀ ranktoIDMap, readPairFromFile (Except.ok ["1", "abc def"]) ranktoIDMap =
      Decoded.failure { Round := 1, Pairs := [] } "invalid white ID: abc") ∧
    (∀ ranktoIDMap, readPairFromFile (Except.ok ["1", "", "abc def"]) ranktoIDMap =
      Decoded.panic) := by
  refine ⟨by decide, by decide, by decide, ?_, ?_⟩
  · intro ranktoIDMap; rfl
  · intro ranktoIDMap; rfl

/-- C12 fails on the code. A line after the first that is blank, that holds
only spaces, or that holds a single integer token makes `readPairFromFile`
index `parts` out of range: it panics instead of returning a format error.
(A single token that is not an integer is reported as an error.) -/
theorem decode_panics_on_short_line :
    (∀ ranktoIDMap, readPairFromFile (Except.ok ["1", ""]) ranktoIDMap = Decoded.panic) ∧
    (∀ ranktoIDMap, readPairFromFile (Except.ok ["1", "   "]) ranktoIDMap = Decoded.panic) ∧
    (∀ ranktoIDMap, readPairFromFile (Except.ok ["1", "2"]) ranktoIDMap = Decoded.panic) ∧
    (∀ ranktoIDMap, readPairFromFile (Except.ok ["1", "1 2", "3"]) ranktoIDMap =
      Decoded.panic) ∧
    (∀ ranktoIDMap, readPairFromFile (Except.ok ["1", "x"]) ranktoIDMap =
      Decoded.failure { Round := 1, Pairs := [] } "invalid white ID: x") := by
  refine ⟨?_, ?_, ?_, ?_, ?_⟩ <;> intro ranktoIDMap <;> rfl

/-! ## Started tournaments -/

theorem mapSet_length_same {κ ν : Type} [DecidableEq κ] (m : List (κ × ν)) (k : κ) (v : ν)
    (h : (mapGet m k).isSome) : (mapSet m k v).length = m.length := by
  induction m with
  | nil => simp [mapGet] at h
  | cons kv m ih =>
    obtain ⟨k0, v0⟩ := kv
    by_cases h0 : k0 = k
    · simp [mapSet, h0]
    · simp only [mapGet, h0, if_false] at h
      simp [mapSet, h0, ih h]

theorem mapSet_length_new {κ ν : Type} [DecidableEq κ] (m : List (κ × ν)) (k : κ) (v : ν)
    (h : mapGet m k = none) : (mapSet m k v).length = m.length + 1 := by
  induction m with
  | nil => simp [mapSet]
  | cons kv m ih =>
    obtain ⟨k0, v0⟩ := kv
    by_cases h0 : k0 = k
    · simp [mapGet, h0] at h
    · simp only [mapGet, h0, if_false] at h
      simp [mapSet, h0, ih h]

theorem assignRatingPos_length :
    ∀ (l : List ID) (t t' : Tournament) (k : Nat), assignRatingPos t l k = some t' →
      t'.Participants.length = t.Participants.length := by
  intro l
  induction l with
  | nil =>
    intro t t' k h
    simp [assignRatingPos] at h
    subst h
    rfl
  | cons id rest ih =>
    intro t t' k h
    unfold assignRatingPos at h
    cases hg : mapGet t.Participants id with
    | none => simp [hg] at h
    | some p =>
      simp only [hg] at h
      rw [ih _ t' (k + 1) h]
      exact mapSet_length_same _ _ _ (by simp [hg])

theorem assignPointsPos_length :
    ∀ (l : List ID) (t t' : Tournament) (k : Nat), assignPointsPos t l k = some t' →
      t'.Participants.length = t.Participants.length := by
  intro l
  induction l with
  | nil =>
    intro t t' k h
    simp [assignPointsPos] at h
    subst h
    rfl
  | cons id rest ih =>
    intro t t' k h
    unfold assignPointsPos at h
    cases hg : mapGet t.Participants id with
    | none => simp [hg] at h
    | some p =>
      simp only [hg] at h
      rw [ih _ t' (k + 1) h]
      exact mapSet_length_same _ _ _ (by simp [hg])

theorem assignRatingPos_rank_high :
    ∀ (l : List ID) (t t' : Tournament) (k : Nat), assignRatingPos t l k = some t' →
      ∀ key : Int, key > (k : Int) + l.length →
        mapGet t'.RanktoIDs key = mapGet t.RanktoIDs key := by
  intro l
  induction l with
  | nil =>
    intro t t' k h key _
    simp [assignRatingPos] at h
    subst h
    rfl
  | cons id0 rest ih =>
    intro t t' k h key hkey
    unfold assignRatingPos at h
    cases hg : mapGet t.Participants id0 with
    | none => simp [hg] at h
    | some p0 =>
      simp only [hg] at h
      simp only [List.length_cons, Nat.cast_add, Nat.cast_one] at hkey
      have := ih _ t' (k + 1) h key (by push_cast; omega)
      rw [this]
      exact mapGet_mapSet_other _ _ _ _ (by omega)

/-- New players as `AddParticpant` leaves them: the identifier under its own
key, no history, no positions. -/
theorem register_fresh :
    ∀ (regs : List (ID × Int)) (t : Tournament),
      (∀ id p, mapGet t.Participants id = some p →
        p.ID = id ∧ p.Results = [] ∧ p.RatingPos = 0 ∧ p.PointsPos = 0) →
      t.Participants.length = t.RatingsRank.length + 1 →
      (∀ id p, mapGet (register t regs).Participants id = some p →
        p.ID = id ∧ p.Results = [] ∧ p.RatingPos = 0 ∧ p.PointsPos = 0) ∧
      (register t regs).Participants.length = (register t regs).RatingsRank.length + 1 ∧
      (register t regs).PointsRank = t.PointsRank := by
  intro regs
  induction regs with
  | nil => intro t h1 h2; exact ⟨h1, h2, rfl⟩
  | cons r rest ih =>
    intro t h1 h2
    obtain ⟨id, rating⟩ := r
    simp only [register]
    cases hg : mapGet t.Participants id with
    | some q =>
      have e : (AddParticpant t id rating).1 = t := by
        unfold AddParticpant
        simp only [hg]
      rw [e]
      exact ih t h1 h2
    | none =>
      have e : (AddParticpant t id rating).1 =
          { t with
            Participants := mapSet t.Participants id
              { ID := id, Rating := rating, Points := zero, RatingPos := 0, PointsPos := 0,
                Results := [] }
            RatingsRank := t.RatingsRank ++ [id] } := by
        unfold AddParticpant
        simp only [hg]
      rw [e]
      refine ih _ ?_ ?_
      · intro id' p hp
        simp only [mapGet_mapSet] at hp
        split at hp
        · rename_i e'
          simp only [Option.some.injEq] at hp
          subst hp
          exact ⟨e', rfl, rfl, rfl⟩
        · exact h1 id' p hp
      · simp only [List.length_append, List.length_singleton]
        rw [mapSet_length_new _ _ _ hg, h2]

theorem reachable_register (long : Sorter) :
    ∀ (regs : List (ID × Int)) (t : Tournament), Reachable long t →
      Reachable long (register t regs) := by
  intro regs
  induction regs with
  | nil => intro t h; exact h
  | cons r rest ih =>
    intro t h
    obtain ⟨id, rating⟩ := r
    exact ih _ (Reachable.add id rating h)

theorem reachable_played (long : Sorter) (t0 t : Tournament) (h0 : Reachable long t0)
    (h : Played long t0 t) : Reachable long t := by
  induction h with
  | started => exact h0
  | game w b winner _ hs ih => exact Reachable.game w b winner ih hs
  | bye p _ hs ih => exact Reachable.bye p ih hs
  | sort _ hs ih => exact Reachable.sort ih hs

theorem start_shape (long : Sorter) (t t' : Tournament) (h : Start long t = some t') :
    ∃ t2, sortSlice long (ratingLess t) t.RatingsRank = some t'.RatingsRank ∧
      assignRatingPos { t with RatingsRank := t'.RatingsRank } t'.RatingsRank 0 = some t2 ∧
      t' = { t2 with PointsRank := t2.RatingsRank, Ongoing := true } := by
  unfold Start at h
  cases hs : sortSlice long (ratingLess t) t.RatingsRank with
  | none => simp [hs] at h
  | some sorted =>
    simp only [hs] at h
    cases ha : assignRatingPos { t with RatingsRank := sorted } sorted 0 with
    | none => simp [ha] at h
    | some t2 =>
      simp only [ha, Option.some.injEq] at h
      have hf := assignRatingPos_frame sorted _ t2 0 ha
      simp only at hf
      subst h
      refine ⟨t2, ?_, ?_, rfl⟩
      · simp only [hf.2.2.1]
      · simp only [hf.2.2.1]
        exact ha

/-- The state right after `Start` on a registry built from a new tournament. -/
theorem start_facts (long : Sorter) (hlong : SortContract long) (name : String) (rounds : Nat)
    (regs : List (ID × Int)) (t0 : Tournament)
    (hstart : Start long (register (NewTournament name rounds) regs) = some t0) :
    Reachable long t0 ∧ t0.RatingsRank.Nodup ∧ t0.PointsRank = t0.RatingsRank ∧
    t0.Participants.length = t0.RatingsRank.length + 1 ∧
    (∀ id p, mapGet t0.Participants id = some p →
      p.ID = id ∧ p.Results = [] ∧ p.PointsPos = 0) ∧
    (∀ (i : Nat) (id : ID), t0.RatingsRank[i]? = some id →
      ∃ p, mapGet t0.Participants id = some p ∧ p.RatingPos = (i : Int) + 1 ∧
        mapGet t0.RanktoIDs ((i : Int) + 1) = some id) ∧
    (∃ p, mapGet t0.Participants BYE_DUMMY_ID = some p ∧ p.RatingPos = 0) ∧
    mapGet t0.RanktoIDs 0 = some BYE_DUMMY_ID ∧
    (∀ key : Int, key < 0 ∨ key > t0.RatingsRank.length → mapGet t0.RanktoIDs key = none) := by
  have hreg := registryOk_register regs _ (registryOk_new name rounds)
  have hfresh := register_fresh regs (NewTournament name rounds)
    (by
      intro id p hp
      simp only [NewTournament, mapGet] at hp
      split at hp
      · rename_i e
        simp only [Option.some.injEq] at hp
        subst hp
        exact ⟨e, rfl, rfl, rfl⟩
      · cases hp)
    (by simp [NewTournament])
  obtain ⟨hf1, hf2, _⟩ := hfresh
  have hreach0 : Reachable long (register (NewTournament name rounds) regs) :=
    reachable_register long regs _ (Reachable.new name rounds)
  obtain ⟨t2, hsort, hassign, ht0⟩ := start_shape long _ t0 hstart
  have hperm := sortSlice_perm long hlong _ _ _ hsort
  have hnd : t0.RatingsRank.Nodup := hperm.nodup_iff.mpr hreg.1
  have hframe := assignRatingPos_frame _ _ t2 0 hassign
  have hplayer := assignRatingPos_player _ _ t2 0 hassign
  have hpos := assignRatingPos_pos _ _ t2 0 hnd hassign
  have hnot := assignRatingPos_notMem _ _ t2 0 hassign
  have hlow := assignRatingPos_rank_low _ _ t2 0 hassign
  have hhigh := assignRatingPos_rank_high _ _ t2 0 hassign
  have hlen := assignRatingPos_length _ _ t2 0 hassign
  simp only at hframe hplayer hpos hnot hlow hhigh hlen
  have hP : t0.Participants = t2.Participants := by rw [ht0]
  have hR : t0.RanktoIDs = t2.RanktoIDs := by rw [ht0]
  have hmap : (register (NewTournament name rounds) regs).RanktoIDs = [(0, BYE_DUMMY_ID)] := by
    rw [register_rankMap]; rfl
  refine ⟨Reachable.start hreach0 hstart, hnd, by rw [ht0], ?_, ?_, ?_, ?_, ?_, ?_⟩
  · rw [hP, hlen, hf2, hperm.length_eq]
  · intro id p hp
    rw [hP] at hp
    rcases hplayer id with ⟨_, h2⟩ | ⟨q, r, h1, h2⟩
    · rw [h2] at hp; cases hp
    · rw [h2] at hp
      simp only [Option.some.injEq] at hp
      subst hp
      obtain ⟨a, b, _, d⟩ := hf1 id q h1
      exact ⟨a, b, d⟩
  · intro i id hi
    obtain ⟨⟨p, _, hp⟩, hr⟩ := hpos i id hi
    rw [hP, hR]
    refine ⟨_, hp, ?_, ?_⟩
    · simp
    · simpa using hr
  · obtain ⟨p, hp⟩ := Option.isSome_iff_exists.mp hreg.2.2
    have hbye : BYE_DUMMY_ID ∉ t0.RatingsRank := fun h =>
      (((hreg.2.1 _).mp (hperm.mem_iff.mp h)).2) rfl
    rw [hP, hnot _ hbye]
    exact ⟨p, hp, (hf1 _ p hp).2.2.1⟩
  · rw [hR, hlow 0 (by simp), hmap]
    rfl
  · intro key hkey
    rw [hR]
    rcases hkey with h | h
    · rw [hlow key (by omega), hmap]
      simp only [mapGet]
      rw [if_neg (by omega)]
    · rw [hhigh key (by simpa using h), hmap]
      simp only [mapGet]
      rw [if_neg (by omega)]

theorem keepsStart_addResult (t0 t : Tournament) (id opponentID : ID) (p : Player)
    (color : Color) (score : String) (h : KeepsStart t0 t)
    (hp : mapGet t.Participants id = some p)
    (hopp : (mapGet t.Participants opponentID).isSome) :
    KeepsStart t0
      { t with Participants := mapSet t.Participants id (p.addResult color score opponentID) } := by
  obtain ⟨h1, h2, h3, h4, h5, h6⟩ := h
  have hkeys : ∀ id', (mapGet (mapSet t.Participants id
      (p.addResult color score opponentID)) id').isSome ↔ (mapGet t.Participants id').isSome := by
    intro id'
    simp only [mapGet_mapSet]
    split
    · rename_i e; subst e; simp [hp]
    · rfl
  refine ⟨h1, h2, ?_, ?_, ?_, ?_⟩
  · simp only
    rw [mapSet_length_same _ _ _ (by simp [hp]), h3]
  · intro id'
    simp only [mapGet_mapSet]
    by_cases e : id = id'
    · subst e
      rcases h4 id with ⟨h, _⟩ | ⟨q, q0, hq, hq0, e1, e2, e3⟩
      · rw [hp] at h; cases h
      · rw [hp] at hq
        simp only [Option.some.injEq] at hq
        subst hq
        exact Or.inr ⟨p.addResult color score opponentID, q0, by simp, hq0, e1, e2, e3⟩
    · simpa [e] using h4 id'
  · intro id' q r hq hr
    simp only at hq ⊢
    rw [hkeys]
    simp only [mapGet_mapSet] at hq
    split at hq
    · simp only [Option.some.injEq] at hq
      subst hq
      simp only [Player.addResult, List.mem_append, List.mem_singleton] at hr
      rcases hr with hr | hr
      · exact h5 id p r hp hr
      · subst hr
        exact hopp
    · exact h5 id' q r hq hr
  · intro q hq
    simp only [mapGet_mapSet] at hq
    split at hq
    · rename_i e
      simp only [Option.some.injEq] at hq
      subst hq
      subst e
      exact h6 p hp
    · exact h6 q hq

/-- Every state of a started tournament keeps what `Start` fixed, and its
points ranking is a rearrangement of the rating ranking. -/
theorem keepsStart_played (long : Sorter) (hlong : SortContract long) (t0 t : Tournament)
    (h0 : Reachable long t0) (hp0 : t0.PointsRank = t0.RatingsRank)
    (hinit : ∀ id p, mapGet t0.Participants id = some p → p.Results = [] ∧ p.PointsPos = 0)
    (h : Played long t0 t) : KeepsStart t0 t ∧ t.PointsRank.Perm t.RatingsRank := by
  induction h with
  | started =>
    refine ⟨⟨rfl, rfl, rfl, ?_, ?_, ?_⟩, by rw [hp0]⟩
    · intro id
      cases hg : mapGet t0.Participants id with
      | none => exact Or.inl ⟨rfl, rfl⟩
      | some p => exact Or.inr ⟨p, p, rfl, rfl, rfl, rfl, rfl⟩
    · intro id p r hp hr
      rw [(hinit id p hp).1] at hr
      cases hr
    · intro p hp
      exact (hinit _ p hp).2
  | @game t t' w b winner hplay hs ih =>
    obtain ⟨hk, hperm⟩ := ih
    obtain ⟨pw, pb, hw, hb, rfl⟩ := game_shape t t' w b winner hs
    have hbsome : (mapGet t.Participants b).isSome := by
      simp only [mapGet_mapSet] at hb
      split at hb
      · rename_i e; subst e; simp [hw]
      · simp [hb]
    have hw1 : (mapGet (mapSet t.Participants w
        (pw.addResult White (gameScores winner).1 b)) w).isSome := by
      simp [mapGet_mapSet_same]
    have k1 := keepsStart_addResult t0 t w b pw White (gameScores winner).1 hk hw hbsome
    have k2 := keepsStart_addResult t0 _ b w pb Black (gameScores winner).2 k1 hb hw1
    exact ⟨k2, hperm⟩
  | @bye t t' p hplay hs ih =>
    obtain ⟨hk, hperm⟩ := ih
    have hreach := reachable_played long t0 t h0 hplay
    have hbye := (ranksOk_reachable long hlong t hreach).1.2.2
    obtain ⟨q, hq, rfl⟩ := bye_shape t t' p hs
    exact ⟨keepsStart_addResult t0 t p BYE_DUMMY_ID q White Bye hk hq hbye, hperm⟩
  | @sort t t' hplay hs ih =>
    obtain ⟨⟨h1, h2, h3, h4, h5, h6⟩, hperm⟩ := ih
    have hreach := reachable_played long t0 t h0 hplay
    have hreg := (ranksOk_reachable long hlong t hreach).1
    obtain ⟨hsort, hassign, hrr, hrk, _⟩ := sort_lists long t t' hs
    have hperm' := sortSlice_perm long hlong _ _ _ hsort
    have hplayer := sort_player long t t' hs
    have hkeys := sort_registered long t t' hs
    have hlen := assignPointsPos_length _ _ t' 0 hassign
    have hnot := assignPointsPos_notMem _ _ t' 0 hassign
    simp only at hlen hnot
    refine ⟨⟨by rw [hrr, h1], by rw [hrk, h2], by rw [hlen, h3], ?_, ?_, ?_⟩, ?_⟩
    · intro id
      rcases hplayer id with ⟨e1, e2⟩ | ⟨p, r, e1, e2⟩
      · rcases h4 id with ⟨_, e3⟩ | ⟨q, q0, hq, _⟩
        · exact Or.inl ⟨e2, e3⟩
        · rw [e1] at hq; cases hq
      · rcases h4 id with ⟨e3, _⟩ | ⟨q, q0, hq, hq0, a1, a2, a3⟩
        · rw [e1] at e3; cases e3
        · rw [e1] at hq
          simp only [Option.some.injEq] at hq
          subst hq
          exact Or.inr ⟨_, q0, e2, hq0, a1, a2, a3⟩
    · intro id p r hp hr
      rw [hkeys]
      rcases hplayer id with ⟨_, e2⟩ | ⟨q, s, e1, e2⟩
      · rw [e2] at hp; cases hp
      · rw [e2] at hp
        simp only [Option.some.injEq] at hp
        subst hp
        exact h5 id q r e1 hr
    · intro p hp
      have hbye : BYE_DUMMY_ID ∉ t'.PointsRank := by
        intro hm
        have := hperm.mem_iff.mp (hperm'.mem_iff.mp hm)
        exact ((hreg.2.1 _).mp this).2 rfl
      rw [hnot _ hbye] at hp
      exact h6 p hp
    · rw [hrr]
      exact hperm'.trans hperm

theorem played_run (long : Sorter) (t0 : Tournament) :
    ∀ (ops : List Op) (t t' : Tournament), (∀ op ∈ ops, op.isPlay = true) →
      Played long t0 t → run long t ops = some t' → Played long t0 t' := by
  intro ops
  induction ops with
  | nil =>
    intro t t' _ h hr
    simp only [run, Option.some.injEq] at hr
    subst hr
    exact h
  | cons op rest ih =>
    intro t t' hops h hr
    unfold run at hr
    cases hs : step long t op with
    | none => simp [hs] at hr
    | some t1 =>
      simp only [hs] at hr
      refine ih t1 t' (fun o ho => hops o (List.mem_cons_of_mem _ ho)) ?_ hr
      have hop := hops op (List.mem_cons_self _ _)
      cases op with
      | add id rating => simp [Op.isPlay] at hop
      | start => simp [Op.isPlay] at hop
      | game w b winner =>
        simp only [step] at hs
        cases hg : RecordGameResult t w b winner with
        | ok t2 =>
          simp only [hg, Option.some.injEq] at hs
          subst hs
          exact Played.game w b winner h hg
        | panic t2 => simp [hg] at hs
      | bye p =>
        simp only [step] at hs
        cases hg : AssignBye t p with
        | ok t2 =>
          simp only [hg, Option.some.injEq] at hs
          subst hs
          exact Played.bye p h hg
        | panic t2 => simp [hg] at hs
      | sort => exact Played.sort h hs

/-- C14. In every state reached from `NewTournament` by registrations, then
`Start`, then any sequence of `RecordGameResult`, `AssignBye` and
`sortPointsRanking` on registered identifiers, `PointsRank` is a permutation
of `RatingsRank` (same identifiers, same length, no duplicates), and
`RatingsRank` is what it was right after `Start`. -/
theorem points_rank_permutes_rating_rank (long : Sorter) (hlong : SortContract long)
    (name : String) (rounds : Nat) (regs : List (ID × Int)) (t0 t : Tournament)
    (hstart : Start long (register (NewTournament name rounds) regs) = some t0)
    (hplay : Played long t0 t) :
    t.PointsRank.Perm t.RatingsRank ∧ t.PointsRank.length = t.RatingsRank.length ∧
    (∀ id, id ∈ t.PointsRank ↔ id ∈ t.RatingsRank) ∧
    t.PointsRank.Nodup ∧ t.RatingsRank.Nodup ∧ t.RatingsRank = t0.RatingsRank := by
  obtain ⟨hreach, hnd, hpr, _, hinit, _⟩ := start_facts long hlong name rounds regs t0 hstart
  obtain ⟨hk, hperm⟩ := keepsStart_played long hlong t0 t hreach hpr
    (fun id p hp => ⟨(hinit id p hp).2.1, (hinit id p hp).2.2⟩) hplay
  have hnd' : t.RatingsRank.Nodup := by rw [hk.1]; exact hnd
  exact ⟨hperm, hperm.length_eq, fun id => hperm.mem_iff, hperm.nodup_iff.mpr hnd', hnd', hk.1⟩

/-- C14 in the scenario: after the first round and a points sort the points
ranking Emmanuel, Peniel, Daniel, Joy rearranges the rating ranking Daniel,
Emmanuel, Peniel, Joy. -/
theorem points_rank_permutes_rating_rank_witness :
    SortContract (insertionSort (α := ID)) ∧
    Start insertionSort (register (NewTournament "My Tournament" 5) scenario)
      = some (after (roundOne.take 5)) ∧
    Played insertionSort (after (roundOne.take 5)) (after (roundOne ++ [Op.sort])) ∧
    (after (roundOne ++ [Op.sort])).PointsRank = ["Emmanuel", "Peniel", "Daniel", "Joy"] ∧
    (after (roundOne ++ [Op.sort])).RatingsRank = ["Daniel", "Emmanuel", "Peniel", "Joy"] ∧
    (after (roundOne ++ [Op.sort])).PointsRank.Perm (after (roundOne ++ [Op.sort])).RatingsRank := by
  have hstart : Start insertionSort (register (NewTournament "My Tournament" 5) scenario)
      = some (after (roundOne.take 5)) := by decide
  have hplay : Played insertionSort (after (roundOne.take 5)) (after (roundOne ++ [Op.sort])) :=
    played_run insertionSort _ ((roundOne ++ [Op.sort]).drop 5) _ _ (by decide)
      Played.started (by decide)
  exact ⟨insertionSort_contract, hstart, hplay, by decide, by decide,
    (points_rank_permutes_rating_rank insertionSort insertionSort_contract "My Tournament" 5
      scenario _ _ hstart hplay).1⟩

theorem played_lockstep (long : Sorter) (t0 t : Tournament) (h : Lockstep long t0 t) :
    Played long t0 t := by
  induction h with
  | started => exact Played.started
  | game w b winner pw pb _ _ _ _ _ hs ih => exact Played.game w b winner ih hs
  | bye p _ hs ih => exact Played.bye p ih hs
  | sort _ hs ih => exact Played.sort ih hs

/-- An entry of an extended history is an old entry or the appended one. -/
theorem getElem?_append_one {α : Type} (l : List α) (x : α) (k : Nat) (r : α)
    (h : (l ++ [x])[k]? = some r) : l[k]? = some r ∨ (k = l.length ∧ r = x) := by
  by_cases hk : k < l.length
  · left
    rw [List.getElem?_append_left hk] at h
    exact h
  · right
    rw [List.getElem?_append_right (by omega)] at h
    have : k - l.length = 0 := by
      by_contra hne
      obtain ⟨m, hm⟩ : ∃ m, k - l.length = m + 1 := ⟨k - l.length - 1, by omega⟩
      rw [hm] at h
      simp at h
    rw [this] at h
    simp only [List.getElem?_cons_zero, Option.some.injEq] at h
    exact ⟨by omega, h.symm⟩

theorem getElem?_append_keep {α : Type} (l extra : List α) (k : Nat) (r : α)
    (h : l[k]? = some r) : (l ++ extra)[k]? = some r := by
  obtain ⟨hk, _⟩ := List.getElem?_eq_some.mp h
  rw [List.getElem?_append_left hk]
  exact h

theorem aligned_game (t t' : Tournament) (w b : ID) (winner : Color) (pw pb : Player)
    (hal : Aligned t) (hne : w ≠ b) (hw : mapGet t.Participants w = some pw)
    (hb : mapGet t.Participants b = some pb)
    (hlen : pw.Results.length = pb.Results.length)
    (hs : RecordGameResult t w b winner = Outcome.ok t') : Aligned t' := by
  obtain ⟨pw1, pb1, hw1, hb1, rfl⟩ := game_shape t t' w b winner hs
  rw [hw] at hw1
  simp only [Option.some.injEq] at hw1
  subst hw1
  rw [mapGet_mapSet_other _ _ _ _ hne, hb] at hb1
  simp only [Option.some.injEq] at hb1
  subst hb1
  -- every stored player is an old one, its history kept or extended by the game
  have hold : ∀ x px', mapGet (mapSet (mapSet t.Participants w
      (pw.addResult White (gameScores winner).1 b)) b
      (pb.addResult Black (gameScores winner).2 w)) x = some px' →
      ∃ px, mapGet t.Participants x = some px ∧
        ((px'.Results = px.Results) ∨
         (x = w ∧ px'.Results = pw.Results ++
            [{ OpponentID := b, Color := "w", Score := (gameScores winner).1 }]) ∨
         (x = b ∧ px'.Results = pb.Results ++
            [{ OpponentID := w, Color := "b", Score := (gameScores winner).2 }])) ∧
        (x = w → px = pw) ∧ (x = b → px = pb) := by
    intro x px' hx
    simp only [mapGet_mapSet] at hx
    by_cases e1 : b = x
    · subst e1
      simp only [if_true, Option.some.injEq] at hx
      subst hx
      refine ⟨pb, hb, Or.inr (Or.inr ⟨rfl, by simp [Player.addResult, White, Black]⟩),
        fun e => absurd e.symm hne, fun _ => rfl⟩
    · by_cases e2 : w = x
      · subst e2
        simp only [e1, if_false, if_true, Option.some.injEq] at hx
        subst hx
        exact ⟨pw, hw, Or.inr (Or.inl ⟨rfl, by simp [Player.addResult, White]⟩),
          fun _ => rfl, fun e => absurd e hne⟩
      · simp only [e1, e2, if_false] at hx
        exact ⟨px', hx, Or.inl rfl, fun e => absurd e.symm e2, fun e => absurd e.symm e1⟩
  have hgrow : ∀ (x : ID) (px' px : Player), mapGet t.Participants x = some px →
      ((px'.Results = px.Results) ∨
       (x = w ∧ px'.Results = pw.Results ++
          [{ OpponentID := b, Color := "w", Score := (gameScores winner).1 }]) ∨
       (x = b ∧ px'.Results = pb.Results ++
          [{ OpponentID := w, Color := "b", Score := (gameScores winner).2 }])) →
      (x = w → px = pw) → (x = b → px = pb) →
      ∀ (k : Nat) (r : Result), px.Results[k]? = some r → px'.Results[k]? = some r := by
    intro x px' px _ hcase h1 h2 k r hk
    rcases hcase with e | ⟨ex, e⟩ | ⟨ex, e⟩
    · rw [e]; exact hk
    · rw [e]
      rw [h1 ex] at hk
      exact getElem?_append_keep _ _ k r hk
    · rw [e]
      rw [h2 ex] at hk
      exact getElem?_append_keep _ _ k r hk
  intro a y pa' py' hay hy hpa' hpy' k r hk hopp
  obtain ⟨pa, hpa, hca, ha1, ha2⟩ := hold a pa' hpa'
  obtain ⟨py, hpy, hcy, hy1, hy2⟩ := hold y py' hpy'
  have hkeep := hgrow y py' py hpy hcy hy1 hy2
  have hcaseold : pa.Results[k]? = some r → ∃ rb, py'.Results[k]? = some rb ∧ Mirrored a r rb := by
    intro hkold
    obtain ⟨rb, hrb, hm⟩ := hal a y pa py hay hy hpa hpy k r hkold hopp
    exact ⟨rb, hkeep k rb hrb, hm⟩
  rcases hca with e | ⟨ea, e⟩ | ⟨ea, e⟩
  · rw [e] at hk
    exact hcaseold hk
  · rw [e] at hk
    rcases getElem?_append_one _ _ k r hk with hkold | ⟨hkn, hr⟩
    · rw [← ha1 ea] at hkold
      exact hcaseold hkold
    · subst hr
      simp only at hopp
      subst hopp
      subst ea
      rcases hcy with e' | ⟨ey, _⟩ | ⟨_, e'⟩
      · refine absurd e' ?_
        intro hcontra
        -- the black player's history was extended
        have : mapGet (mapSet (mapSet t.Participants a
            (pw.addResult White (gameScores winner).1 b)) b
            (pb.addResult Black (gameScores winner).2 a)) b = some
            (pb.addResult Black (gameScores winner).2 a) := mapGet_mapSet_same _ _ _
        rw [this] at hpy'
        simp only [Option.some.injEq] at hpy'
        subst hpy'
        rw [hy2 rfl] at hcontra
        have := congrArg List.length hcontra
        simp [Player.addResult] at this
      · exact absurd ey.symm hne
      · refine ⟨{ OpponentID := a, Color := "b", Score := (gameScores winner).2 }, ?_,
          rfl, winner, Or.inl ⟨rfl, rfl, rfl⟩⟩
        rw [e', hkn, hlen]
        simp
  · rw [e] at hk
    rcases getElem?_append_one _ _ k r hk with hkold | ⟨hkn, hr⟩
    · rw [← ha2 ea] at hkold
      exact hcaseold hkold
    · subst hr
      simp only at hopp
      subst hopp
      subst ea
      rcases hcy with e' | ⟨_, e'⟩ | ⟨ey, _⟩
      · refine absurd e' ?_
        intro hcontra
        have : mapGet (mapSet (mapSet t.Participants w
            (pw.addResult White (gameScores winner).1 a)) a
            (pb.addResult Black (gameScores winner).2 w)) w = some
            (pw.addResult White (gameScores winner).1 a) := by
          rw [mapGet_mapSet_other _ _ _ _ (fun e => hne e.symm), mapGet_mapSet_same]
        rw [this] at hpy'
        simp only [Option.some.injEq] at hpy'
        subst hpy'
        rw [hy1 rfl] at hcontra
        have := congrArg List.length hcontra
        simp [Player.addResult] at this
      · refine ⟨{ OpponentID := a, Color := "w", Score := (gameScores winner).1 }, ?_,
          rfl, winner, Or.inr ⟨rfl, rfl, rfl⟩⟩
        rw [e', hkn, ← hlen]
        simp
      · exact absurd ey hne

theorem aligned_bye (t t' : Tournament) (p : ID) (hal : Aligned t)
    (hs : AssignBye t p = Outcome.ok t') : Aligned t' := by
  obtain ⟨q, hq, rfl⟩ := bye_shape t t' p hs
  have hold : ∀ (x : ID) (px' : Player), mapGet (mapSet t.Participants p
      (q.addResult White Bye BYE_DUMMY_ID)) x = some px' →
      ∃ px, mapGet t.Participants x = some px ∧
        (px'.Results = px.Results ∨
          px'.Results = px.Results ++
            [{ OpponentID := BYE_DUMMY_ID, Color := "w", Score := Bye }]) := by
    intro x px' hx
    simp only [mapGet_mapSet] at hx
    split at hx
    · rename_i e
      subst e
      simp only [Option.some.injEq] at hx
      subst hx
      exact ⟨q, hq, Or.inr (by simp [Player.addResult, White])⟩
    · exact ⟨px', hx, Or.inl rfl⟩
  intro a y pa' py' hay hy hpa' hpy' k r hk hopp
  obtain ⟨pa, hpa, hca⟩ := hold a pa' hpa'
  obtain ⟨py, hpy, hcy⟩ := hold y py' hpy'
  have hkold : pa.Results[k]? = some r := by
    rcases hca with e | e
    · rw [e] at hk; exact hk
    · rw [e] at hk
      rcases getElem?_append_one _ _ k r hk with h | ⟨_, hr⟩
      · exact h
      · subst hr
        exact absurd hopp.symm hy
  obtain ⟨rb, hrb, hm⟩ := hal a y pa py hay hy hpa hpy k r hkold hopp
  refine ⟨rb, ?_, hm⟩
  rcases hcy with e | e
  · rw [e]; exact hrb
  · rw [e]; exact getElem?_append_keep _ _ k rb hrb

theorem aligned_sort (long : Sorter) (t t' : Tournament) (hal : Aligned t)
    (hs : sortPointsRanking long t = some t') : Aligned t' := by
  have hplayer := sort_player long t t' hs
  intro a y pa' py' hay hy hpa' hpy' k r hk hopp
  rcases hplayer a with ⟨_, h2⟩ | ⟨pa, ra, ha1, ha2⟩
  · rw [h2] at hpa'; cases hpa'
  · rcases hplayer y with ⟨_, h2⟩ | ⟨py, ry, hy1, hy2⟩
    · rw [h2] at hpy'; cases hpy'
    · rw [ha2] at hpa'
      rw [hy2] at hpy'
      simp only [Option.some.injEq] at hpa' hpy'
      subst hpa'
      subst hpy'
      exact hal a y pa py hay hy ha1 hy1 k r hk hopp

/-- In a tournament recorded in lockstep from a state without histories,
histories are aligned. -/
theorem aligned_lockstep (long : Sorter) (t0 t : Tournament)
    (hinit : ∀ id p, mapGet t0.Participants id = some p → p.Results = [])
    (h : Lockstep long t0 t) : Aligned t := by
  induction h with
  | started =>
    intro a y pa py _ _ hpa _ k r hk _
    rw [hinit a pa hpa] at hk
    simp at hk
  | game w b winner pw pb _ hne hw hb hlen hs ih => exact aligned_game _ _ w b winner pw pb ih hne hw hb hlen hs
  | bye p _ hs ih => exact aligned_bye _ _ p ih hs
  | sort _ hs ih => exact aligned_sort long _ _ ih hs

/-- When every entry of the scanned history that names `playerB` has an entry
of `playerB` at the same index, the head-to-head loop does not go out of
range. -/
theorem headToHeadLoop_isSome (playerB : Player) :
    ∀ (l : List Result) (idx : Nat) (acc : Float64 × Float64),
      (∀ (k : Nat) (r : Result), l[k]? = some r → r.OpponentID = playerB.ID →
        (playerB.Results[idx + k]?).isSome) →
      (headToHeadLoop playerB l idx acc).isSome := by
  intro l
  induction l with
  | nil => intro idx acc _; simp [headToHeadLoop]
  | cons r0 rest ih =>
    intro idx acc h
    have hrest : ∀ (k : Nat) (r : Result), rest[k]? = some r → r.OpponentID = playerB.ID →
        (playerB.Results[idx + 1 + k]?).isSome := by
      intro k r hk ho
      have := h (k + 1) r (by simpa using hk) ho
      have e : idx + (k + 1) = idx + 1 + k := by omega
      rw [e] at this
      exact this
    unfold headToHeadLoop
    by_cases hm : r0.OpponentID = playerB.ID
    · simp only [hm, if_true]
      have h0 := h 0 r0 (by simp) hm
      simp only [Nat.add_zero] at h0
      obtain ⟨rb, hrb⟩ := Option.isSome_iff_exists.mp h0
      have hrb' : playerB.Results.get? idx = some rb := by simpa using hrb
      simp only [hrb']
      exact ih (idx + 1) _ hrest
    · simp only [hm, if_false]
      exact ih (idx + 1) _ hrest

theorem cascade_isSome (pa pb : Player) (h : (havePlayedAgainstEachOther pa pb).isSome) :
    (cascade pa pb).isSome := by
  obtain ⟨d, hd⟩ := Option.isSome_iff_exists.mp h
  obtain ⟨d1, d2⟩ := d
  unfold cascade
  simp only [hd]
  split
  · rfl
  · split
    · rfl
    · split <;> rfl


theorem lockstep_run (long : Sorter) (t0 : Tournament) :
    ∀ (ops : List Op) (t t' : Tournament), Lockstep long t0 t →
      runLockstep long t ops = some t' → Lockstep long t0 t' := by
  intro ops
  induction ops with
  | nil =>
    intro t t' h hr
    simp only [runLockstep, Option.some.injEq] at hr
    subst hr
    exact h
  | cons op rest ih =>
    intro t t' h hr
    unfold runLockstep at hr
    by_cases hok : lockstepOk t op = true
    · simp only [hok, if_true] at hr
      cases hs : step long t op with
      | none => simp [hs] at hr
      | some t1 =>
        simp only [hs] at hr
        refine ih t1 t' ?_ hr
        cases op with
        | add id rating => simp [lockstepOk] at hok
        | start => simp [lockstepOk] at hok
        | game w b winner =>
          simp only [lockstepOk] at hok
          cases hw : mapGet t.Participants w with
          | none => simp [hw] at hok
          | some pw =>
            cases hb : mapGet t.Participants b with
            | none => simp [hw, hb] at hok
            | some pb =>
              simp only [hw, hb, decide_eq_true_eq] at hok
              simp only [step] at hs
              cases hg : RecordGameResult t w b winner with
              | ok t2 =>
                simp only [hg, Option.some.injEq] at hs
                subst hs
                exact Lockstep.game w b winner pw pb h hok.1 hw hb hok.2 hg
              | panic t2 => simp [hg] at hs
        | bye p =>
          simp only [step] at hs
          cases hg : AssignBye t p with
          | ok t2 =>
            simp only [hg, Option.some.injEq] at hs
            subst hs
            exact Lockstep.bye p h hg
          | panic t2 => simp [hg] at hs
        | sort => exact Lockstep.sort h hs
    · simp [hok] at hr

theorem played_key (long : Sorter) (hlong : SortContract long) (name : String) (rounds : Nat)
    (regs : List (ID × Int)) (t0 t : Tournament)
    (hstart : Start long (register (NewTournament name rounds) regs) = some t0)
    (hplay : Played long t0 t) :
    ∀ id p, mapGet t.Participants id = some p → p.ID = id := by
  obtain ⟨hreach0, _, hpr, _, hinit, _⟩ := start_facts long hlong name rounds regs t0 hstart
  obtain ⟨hk, _⟩ := keepsStart_played long hlong t0 t hreach0 hpr
    (fun id p hp => ⟨(hinit id p hp).2.1, (hinit id p hp).2.2⟩) hplay
  intro id p hp
  rcases hk.2.2.2.1 id with ⟨h, _⟩ | ⟨q, q0, hq, hq0, e, _⟩
  · rw [hp] at h; cases h
  · rw [hp] at hq
    simp only [Option.some.injEq] at hq
    subst hq
    rw [e]
    exact (hinit id q0 hq0).1

/-- In a tournament recorded in lockstep every head-to-head lookup between
two ranked players stays in range. -/
theorem headToHead_isSome_lockstep (long : Sorter) (hlong : SortContract long)
    (name : String) (rounds : Nat) (regs : List (ID × Int)) (t0 t : Tournament)
    (hstart : Start long (register (NewTournament name rounds) regs) = some t0)
    (hplay : Lockstep long t0 t) (a b : ID) (pa pb : Player)
    (hb : b ∈ t.PointsRank) (hpa : mapGet t.Participants a = some pa)
    (hpb : mapGet t.Participants b = some pb) :
    (havePlayedAgainstEachOther pa pb).isSome := by
  obtain ⟨hreach0, _, hpr, _, hinit, _⟩ := start_facts long hlong name rounds regs t0 hstart
  have hplayed := played_lockstep long t0 t hplay
  have hal := aligned_lockstep long t0 t (fun id p hp => (hinit id p hp).2.1) hplay
  have hkey := played_key long hlong name rounds regs t0 t hstart hplayed
  have hok := ranksOk_reachable long hlong t (reachable_played long t0 t hreach0 hplayed)
  obtain ⟨_, hperm⟩ := keepsStart_played long hlong t0 t hreach0 hpr
    (fun id p hp => ⟨(hinit id p hp).2.1, (hinit id p hp).2.2⟩) hplayed
  have hbne : b ≠ BYE_DUMMY_ID := ((hok.1.2.1 b).mp (hperm.mem_iff.mp hb)).2
  unfold havePlayedAgainstEachOther
  apply headToHeadLoop_isSome
  intro k r hk ho
  rw [hkey b pb hpb] at ho
  simp only [Nat.zero_add]
  by_cases hab : a = b
  · subst hab
    rw [hpa] at hpb
    simp only [Option.some.injEq] at hpb
    subst hpb
    simp [hk]
  · obtain ⟨rb, hrb, _⟩ := hal a b pa pb hab hbne hpa hpb k r hk ho
    simp [hrb]

/-- C17 as stated fails. Two participants, `Start`, a bye for B, then A
beats B: both hold 1.0 point, B's entry of the game is its second, A's its
first. Comparing B with A, the lookup finds the game at index 1 of B's
history and reads index 1 of A's history, which has one entry: the comparison
panics, and `sortPointsRanking` with it. -/
theorem sort_panics_counterexample :
    Start insertionSort (register (NewTournament "My Tournament" 5) [("A", 2000), ("B", 1000)])
      = some (after (byeThenGame.take 3)) ∧
    Played insertionSort (after (byeThenGame.take 3)) (after byeThenGame) ∧
    (after byeThenGame).PointsRank = ["A", "B"] ∧
    (mapGet (after byeThenGame).Participants "A").map (fun p => (p.Points, p.Results))
      = some (one, [{ OpponentID := "B", Color := "w", Score := Win }]) ∧
    (mapGet (after byeThenGame).Participants "B").map (fun p => (p.Points, p.Results))
      = some (one, [{ OpponentID := BYE_DUMMY_ID, Color := "w", Score := Bye },
          { OpponentID := "A", Color := "b", Score := Loss }]) ∧
    pointsLess (after byeThenGame) "B" "A" = none ∧
    sortPointsRanking insertionSort (after byeThenGame) = none := by
  refine ⟨by decide, ?_, by decide, by decide, by decide, by decide, by decide⟩
  exact played_run insertionSort _ (byeThenGame.drop 3) _ _ (by decide) Played.started
    (by decide)

/-- C17, as amended. In a tournament reached by registrations, `Start` and
any sequence of `AssignBye`, `sortPointsRanking` and of `RecordGameResult`
between two distinct players whose histories have the same length, every
head-to-head lookup the comparison makes between two ranked players stays
within the other player's `Results`, the comparison answers for every two
ranked players, and `sortPointsRanking` returns. -/
theorem sort_returns_in_lockstep (long : Sorter) (hlong : SortContract long)
    (name : String) (rounds : Nat) (regs : List (ID × Int)) (t0 t : Tournament)
    (hstart : Start long (register (NewTournament name rounds) regs) = some t0)
    (hplay : Lockstep long t0 t) :
    (∀ a b pa pb, a ∈ t.PointsRank → b ∈ t.PointsRank →
      mapGet t.Participants a = some pa → mapGet t.Participants b = some pb →
      (havePlayedAgainstEachOther pa pb).isSome) ∧
    (∀ a b, a ∈ t.PointsRank → b ∈ t.PointsRank → (pointsLess t a b).isSome) ∧
    ∃ t', sortPointsRanking long t = some t' := by
  obtain ⟨hreach0, _, _, _, _, _⟩ := start_facts long hlong name rounds regs t0 hstart
  have hplayed := played_lockstep long t0 t hplay
  have hok := ranksOk_reachable long hlong t (reachable_played long t0 t hreach0 hplayed)
  have hhead : ∀ a b pa pb, a ∈ t.PointsRank → b ∈ t.PointsRank →
      mapGet t.Participants a = some pa → mapGet t.Participants b = some pb →
      (havePlayedAgainstEachOther pa pb).isSome :=
    fun a b pa pb _ hb hpa hpb =>
      headToHead_isSome_lockstep long hlong name rounds regs t0 t hstart hplay a b pa pb hb hpa hpb
  have htotal : ∀ a ∈ t.PointsRank, ∀ b ∈ t.PointsRank, (pointsLess t a b).isSome := by
    intro a ha b hb
    obtain ⟨pa, hpa⟩ := Option.isSome_iff_exists.mp (hok.2.2 a ha)
    obtain ⟨pb, hpb⟩ := Option.isSome_iff_exists.mp (hok.2.2 b hb)
    simp only [pointsLess, hpa, hpb]
    exact cascade_isSome pa pb (hhead a b pa pb ha hb hpa hpb)
  refine ⟨hhead, fun a b ha hb => htotal a ha b hb, ?_⟩
  obtain ⟨sorted, hsorted⟩ :=
    Option.isSome_iff_exists.mp (sortSlice_isSome long hlong _ _ htotal)
  have hperm := sortSlice_perm long hlong _ _ _ hsorted
  have hall : ∀ id ∈ sorted,
      (mapGet ({ t with PointsRank := sorted } : Tournament).Participants id).isSome :=
    fun id hid => hok.2.2 id (hperm.mem_iff.mp hid)
  obtain ⟨t', ht'⟩ := Option.isSome_iff_exists.mp (assignPointsPos_isSome sorted _ 0 hall)
  exact ⟨t', by simp only [sortPointsRanking, hsorted, ht']⟩

/-- C17, as amended, in the scenario: the first round is recorded in
lockstep and the sort returns. -/
theorem sort_returns_in_lockstep_witness :
    SortContract (insertionSort (α := ID)) ∧
    Start insertionSort (register (NewTournament "My Tournament" 5) scenario)
      = some (after (roundOne.take 5)) ∧
    Lockstep insertionSort (after (roundOne.take 5)) (after roundOne) ∧
    (∃ t', sortPointsRanking insertionSort (after roundOne) = some t') ∧
    sortPointsRanking insertionSort (after roundOne) = some (after (roundOne ++ [Op.sort])) := by
  have hstart : Start insertionSort (register (NewTournament "My Tournament" 5) scenario)
      = some (after (roundOne.take 5)) := by decide
  have hplay : Lockstep insertionSort (after (roundOne.take 5)) (after roundOne) :=
    lockstep_run insertionSort _ (roundOne.drop 5) _ _ Lockstep.started (by decide)
  exact ⟨insertionSort_contract, hstart, hplay,
    (sort_returns_in_lockstep insertionSort insertionSort_contract
      "My Tournament" 5 scenario _ _ hstart hplay).2.2, by decide⟩

theorem headToHeadLoop_no_match (q : Player) :
    ∀ (l : List Result) (idx : Nat) (acc : Float64 × Float64),
      (∀ r ∈ l, r.OpponentID ≠ q.ID) → headToHeadLoop q l idx acc = some acc := by
  intro l
  induction l with
  | nil => intro idx acc _; rfl
  | cons r0 rest ih =>
    intro idx acc h
    unfold headToHeadLoop
    rw [if_neg (h r0 (List.mem_cons_self _ _))]
    exact ih (idx + 1) acc (fun r hr => h r (List.mem_cons_of_mem _ hr))

/-- The head-to-head loop returns the scores at the last index of the
scanned history that names `q`, read in both histories at that index. -/
theorem headToHeadLoop_last (q : Player) :
    ∀ (l : List Result) (idx : Nat) (acc : Float64 × Float64) (k : Nat) (r rb : Result),
      l[k]? = some r → r.OpponentID = q.ID →
      (∀ (j : Nat) (r' : Result), k < j → l[j]? = some r' → r'.OpponentID ≠ q.ID) →
      (∀ (j : Nat) (r' : Result), l[j]? = some r' → r'.OpponentID = q.ID →
        (q.Results[idx + j]?).isSome) →
      q.Results[idx + k]? = some rb →
      headToHeadLoop q l idx acc = some (ScoreMap r.Score, ScoreMap rb.Score) := by
  intro l
  induction l with
  | nil => intro idx acc k r rb hk; simp at hk
  | cons r0 rest ih =>
    intro idx acc k r rb hk ho hlast hin hrb
    have hin' : ∀ (j : Nat) (r' : Result), rest[j]? = some r' → r'.OpponentID = q.ID →
        (q.Results[idx + 1 + j]?).isSome := by
      intro j r' hj ho'
      have := hin (j + 1) r' (by simpa using hj) ho'
      have e : idx + (j + 1) = idx + 1 + j := by omega
      rw [e] at this
      exact this
    cases k with
    | zero =>
      simp only [List.getElem?_cons_zero, Option.some.injEq] at hk
      subst hk
      simp only [Nat.add_zero] at hrb
      have hrb' : q.Results.get? idx = some rb := by simpa using hrb
      unfold headToHeadLoop
      simp only [ho, if_true, hrb']
      apply headToHeadLoop_no_match
      intro r' hr'
      obtain ⟨j, hj⟩ := List.mem_iff_getElem?.mp hr'
      exact hlast (j + 1) r' (by omega) (by simpa using hj)
    | succ k' =>
      simp only [List.getElem?_cons_succ] at hk
      have hlast' : ∀ (j : Nat) (r' : Result), k' < j → rest[j]? = some r' →
          r'.OpponentID ≠ q.ID :=
        fun j r' hj hr' => hlast (j + 1) r' (by omega) (by simpa using hr')
      have hrb' : q.Results[idx + 1 + k']? = some rb := by
        have e : idx + (k' + 1) = idx + 1 + k' := by omega
        rw [← e]
        exact hrb
      unfold headToHeadLoop
      by_cases hm : r0.OpponentID = q.ID
      · have h0 := hin 0 r0 (by simp) hm
        simp only [Nat.add_zero] at h0
        obtain ⟨rb0, hrb0⟩ := Option.isSome_iff_exists.mp h0
        have hrb0' : q.Results.get? idx = some rb0 := by simpa using hrb0
        simp only [hm, if_true, hrb0']
        exact ih (idx + 1) _ k' r rb hk ho hlast' hin' hrb'
      · simp only [hm, if_false]
        exact ih (idx + 1) _ k' r rb hk ho hlast' hin' hrb'

/-- With aligned histories and every player stored under its own identifier,
the lookup for two distinct players A and B, B not the sentinel, returns
(0.0, 0.0) when A has no entry against B, and otherwise the scores of the two
sides of the last game of A against B. -/
theorem headToHead_aligned (t : Tournament) (hal : Aligned t)
    (hkey : ∀ id p, mapGet t.Participants id = some p → p.ID = id)
    (a b : ID) (pa pb : Player) (hab : a ≠ b)
    (hb : b ≠ BYE_DUMMY_ID) (hpa : mapGet t.Participants a = some pa)
    (hpb : mapGet t.Participants b = some pb) :
    ((∀ r ∈ pa.Results, r.OpponentID ≠ b) →
      havePlayedAgainstEachOther pa pb = some (zero, zero)) ∧
    (∀ (k : Nat) (r : Result), pa.Results[k]? = some r → r.OpponentID = b →
      (∀ (j : Nat) (r' : Result), k < j → pa.Results[j]? = some r' → r'.OpponentID ≠ b) →
      ∃ rb, pb.Results[k]? = some rb ∧ Mirrored a r rb ∧
        havePlayedAgainstEachOther pa pb = some (ScoreMap r.Score, ScoreMap rb.Score)) := by
  have hid : pb.ID = b := hkey b pb hpb
  constructor
  · intro hno
    unfold havePlayedAgainstEachOther
    exact headToHeadLoop_no_match pb _ 0 _ (fun r hr => by rw [hid]; exact hno r hr)
  · intro k r hk ho hlast
    obtain ⟨rb, hrb, hm⟩ := hal a b pa pb hab hb hpa hpb k r hk ho
    refine ⟨rb, hrb, hm, ?_⟩
    unfold havePlayedAgainstEachOther
    refine headToHeadLoop_last pb pa.Results 0 _ k r rb hk (by rw [hid]; exact ho) ?_ ?_
      (by simpa using hrb)
    · intro j r' hj hr'
      rw [hid]
      exact hlast j r' hj hr'
    · intro j r' hj ho'
      rw [hid] at ho'
      obtain ⟨rb', hrb', _⟩ := hal a b pa pb hab hb hpa hpb j r' hj ho'
      simp [hrb']

theorem exists_last_entry (b : ID) :
    ∀ (l : List Result), (∃ r ∈ l, r.OpponentID = b) →
      ∃ (k : Nat) (r : Result), l[k]? = some r ∧ r.OpponentID = b ∧
        ∀ (j : Nat) (r' : Result), k < j → l[j]? = some r' → r'.OpponentID ≠ b := by
  intro l
  induction l with
  | nil => rintro ⟨r, hr, _⟩; simp at hr
  | cons r0 rest ih =>
    intro h
    by_cases hrest : ∃ r ∈ rest, r.OpponentID = b
    · obtain ⟨k, r, hk, ho, hlast⟩ := ih hrest
      refine ⟨k + 1, r, by simpa using hk, ho, ?_⟩
      intro j r' hj hr'
      cases j with
      | zero => omega
      | succ j' => exact hlast j' r' (by omega) (by simpa using hr')
    · obtain ⟨r, hr, ho⟩ := h
      rcases List.mem_cons.mp hr with e | hm
      · subst e
        refine ⟨0, r, by simp, ho, ?_⟩
        intro j r' hj hr'
        cases j with
        | zero => omega
        | succ j' =>
          intro ho'
          exact hrest ⟨r', List.mem_iff_getElem?.mpr ⟨j', by simpa using hr'⟩, ho'⟩
      · exact absurd ⟨r, hm, ho⟩ hrest

/-- With aligned histories the lookup for (B, A) is the lookup for (A, B)
with its two values exchanged. -/
theorem headToHead_swap (t : Tournament) (hal : Aligned t)
    (hkey : ∀ id p, mapGet t.Participants id = some p → p.ID = id)
    (a b : ID) (pa pb : Player) (hab : a ≠ b) (ha : a ≠ BYE_DUMMY_ID)
    (hb : b ≠ BYE_DUMMY_ID) (hpa : mapGet t.Participants a = some pa)
    (hpb : mapGet t.Participants b = some pb) :
    ∃ x y, havePlayedAgainstEachOther pa pb = some (x, y) ∧
      havePlayedAgainstEachOther pb pa = some (y, x) := by
  have hab' : b ≠ a := fun e => hab e.symm
  have hfwd := headToHead_aligned t hal hkey a b pa pb hab hb hpa hpb
  have hbwd := headToHead_aligned t hal hkey b a pb pa hab' ha hpb hpa
  by_cases hex : ∃ r ∈ pa.Results, r.OpponentID = b
  · obtain ⟨k, r, hk, ho, hlast⟩ := exists_last_entry b pa.Results hex
    obtain ⟨rb, hrb, hm, hval⟩ := hfwd.2 k r hk ho hlast
    obtain ⟨ra, hra, _, hval'⟩ := hbwd.2 k rb hrb hm.1 (by
      intro j r' hj hr' ho'
      obtain ⟨ra', hra', hm'⟩ := hal b a pb pa hab' ha hpb hpa j r' hr' ho'
      exact hlast j ra' hj hra' hm'.1)
    rw [hk] at hra
    simp only [Option.some.injEq] at hra
    subst hra
    exact ⟨_, _, hval, hval'⟩
  · have h1 := hfwd.1 (fun r hr ho => hex ⟨r, hr, ho⟩)
    have h2 := hbwd.1 (by
      intro r' hr' ho'
      obtain ⟨j, hj⟩ := List.mem_iff_getElem?.mp hr'
      obtain ⟨ra', hra', hm'⟩ := hal b a pb pa hab' ha hpb hpa j r' hj ho'
      exact hex ⟨ra', List.mem_iff_getElem?.mpr ⟨j, hra'⟩, hm'.1⟩)
    exact ⟨_, _, h1, h2⟩

/-- The cascade on two players whose lookups are each other's exchange:
one of the two is placed before the other, and both are only when the two
are tied on points, head-to-head and rating. -/
theorem cascade_swap (pa pb : Player) (x y : Float64)
    (h1 : havePlayedAgainstEachOther pa pb = some (x, y))
    (h2 : havePlayedAgainstEachOther pb pa = some (y, x)) :
    (cascade pa pb = some true ∨ cascade pb pa = some true) ∧
    (cascade pa pb = some true → cascade pb pa = some true →
      pa.Points = pb.Points ∧ x = y ∧ pa.Rating = pb.Rating) := by
  have tri : ∀ u v : Int, ¬ u = v → (u > v ∨ v > u) := fun u v h => (lt_or_gt_of_ne h).symm
  have asym : ∀ u v : Int, u > v → v > u → False := fun u v h h' => lt_asymm h h'
  unfold cascade
  simp only [h1, h2]
  by_cases hp : pa.Points = pb.Points
  · by_cases hxy : x = y
    · by_cases hr : pa.Rating = pb.Rating
      · simp [hp, hxy, hr]
      · have hr' : ¬ pb.Rating = pa.Rating := fun e => hr e.symm
        simp only [hp, hxy, hr, hr', ne_eq, not_true_eq_false, not_false_eq_true, if_true,
          if_false, Option.some.injEq, decide_eq_true_eq]
        exact ⟨tri _ _ hr, fun h h' => (asym _ _ h h').elim⟩
    · have hyx : ¬ y = x := fun e => hxy e.symm
      simp only [hp, hxy, hyx, ne_eq, not_true_eq_false, not_false_eq_true, if_true,
        if_false, Option.some.injEq, decide_eq_true_eq]
      exact ⟨tri _ _ hxy, fun h h' => (asym _ _ h h').elim⟩
  · have hp' : ¬ pb.Points = pa.Points := fun e => hp e.symm
    simp only [hp, hp', ne_eq, not_false_eq_true, if_true, Option.some.injEq,
      decide_eq_true_eq]
    exact ⟨tri _ _ hp, fun h h' => (asym _ _ h h').elim⟩

/-- The cascade on players between whom the head-to-head is silent is the
order by points, then rating, larger first; it is transitive. -/
theorem cascade_silent_trans (pa pb pc : Player) (d1 d2 d3 : Float64)
    (hab : havePlayedAgainstEachOther pa pb = some (d1, d1))
    (hbc : havePlayedAgainstEachOther pb pc = some (d2, d2))
    (hac : havePlayedAgainstEachOther pa pc = some (d3, d3))
    (h1 : cascade pa pb = some true) (h2 : cascade pb pc = some true) :
    cascade pa pc = some true := by
  have key : ∀ (p q : Player) (d : Float64),
      havePlayedAgainstEachOther p q = some (d, d) →
      (cascade p q = some true ↔
        ((p.Points : Int) > q.Points ∨ (p.Points = q.Points ∧ p.Rating ≥ q.Rating))) := by
    intro p q d hh
    by_cases hp : p.Points = q.Points
    · rw [cascade_silent p q d hp hh]
      simp [hp]
    · unfold cascade
      have hx : (p.Points : Int) ≠ (q.Points : Int) := hp
      simp only [hp, ne_eq, not_false_eq_true, if_true, Option.some.injEq, decide_eq_true_eq,
        false_and, or_false]
  rw [key pa pb d1 hab] at h1
  rw [key pb pc d2 hbc] at h2
  rw [key pa pc d3 hac]
  rcases h1 with h1 | ⟨e1, r1⟩ <;> rcases h2 with h2 | ⟨e2, r2⟩
  · left; exact gt_trans h1 h2
  · left; rw [← e2]; exact h1
  · left; rw [e1]; exact h2
  · right; exact ⟨e1.trans e2, ge_trans r1 r2⟩

/-- C19 as stated fails, on each of its three parts. With two participants
of equal rating and no result the comparison places A before A, and both A
before B and B before A. After the two rounds of `twoRounds`, recorded in
lockstep, X, A and B hold 1.0 point each; X beat A, so X is before A; A and B
never met and A has the higher rating, so A is before B; X and B never met
and B has the higher rating, so X is not before B. -/
theorem cascade_not_strict_counterexample :
    Reachable insertionSort (after twoEqual) ∧
    (after twoEqual).PointsRank = ["A", "B"] ∧
    pointsLess (after twoEqual) "A" "A" = some true ∧
    pointsLess (after twoEqual) "A" "B" = some true ∧
    pointsLess (after twoEqual) "B" "A" = some true ∧
    Start insertionSort (register (NewTournament "My Tournament" 5)
      [("A", 4000), ("B", 3000), ("X", 2000), ("Z", 900), ("W", 800), ("Y", 700)])
      = some (after (twoRounds.take 7)) ∧
    Lockstep insertionSort (after (twoRounds.take 7)) (after twoRounds) ∧
    pointsLess (after twoRounds) "X" "A" = some true ∧
    pointsLess (after twoRounds) "A" "B" = some true ∧
    pointsLess (after twoRounds) "X" "B" = some false := by
  refine ⟨reachable_after twoEqual (by decide), by decide, by decide, by decide, by decide,
    by decide, ?_, by decide, by decide, by decide⟩
  exact lockstep_run insertionSort _ (twoRounds.drop 7) _ _ Lockstep.started (by decide)

/-- C19, as amended. In a tournament recorded in lockstep the comparison of
`sortPointsRanking` answers for every two ranked players; of two distinct
ranked players it places at least one before the other, and it places each
before the other only when the two are tied on points, on head-to-head and
on rating; and among three players between whom the head-to-head lookups all
return a tie (as when they have not met) it is transitive. -/
theorem cascade_order_in_lockstep (long : Sorter) (hlong : SortContract long)
    (name : String) (rounds : Nat) (regs : List (ID × Int)) (t0 t : Tournament)
    (hstart : Start long (register (NewTournament name rounds) regs) = some t0)
    (hplay : Lockstep long t0 t) :
    (∀ a b, a ∈ t.PointsRank → b ∈ t.PointsRank → a ≠ b →
      pointsLess t a b = some true ∨ pointsLess t b a = some true) ∧
    (∀ a b pa pb, a ∈ t.PointsRank → b ∈ t.PointsRank → a ≠ b →
      mapGet t.Participants a = some pa → mapGet t.Participants b = some pb →
      pointsLess t a b = some true → pointsLess t b a = some true →
      pa.Points = pb.Points ∧ pa.Rating = pb.Rating ∧
        ∃ d, havePlayedAgainstEachOther pa pb = some (d, d)) ∧
    (∀ a b c pa pb pc (d1 d2 d3 : Float64), mapGet t.Participants a = some pa →
      mapGet t.Participants b = some pb → mapGet t.Participants c = some pc →
      havePlayedAgainstEachOther pa pb = some (d1, d1) →
      havePlayedAgainstEachOther pb pc = some (d2, d2) →
      havePlayedAgainstEachOther pa pc = some (d3, d3) →
      pointsLess t a b = some true → pointsLess t b c = some true →
      pointsLess t a c = some true) := by
  obtain ⟨hreach0, _, hpr, _, hinit, _⟩ := start_facts long hlong name rounds regs t0 hstart
  have hplayed := played_lockstep long t0 t hplay
  have hal := aligned_lockstep long t0 t (fun id p hp => (hinit id p hp).2.1) hplay
  have hkey := played_key long hlong name rounds regs t0 t hstart hplayed
  have hok := ranksOk_reachable long hlong t (reachable_played long t0 t hreach0 hplayed)
  obtain ⟨_, hperm⟩ := keepsStart_played long hlong t0 t hreach0 hpr
    (fun id p hp => ⟨(hinit id p hp).2.1, (hinit id p hp).2.2⟩) hplayed
  have hranked : ∀ id, id ∈ t.PointsRank →
      (∃ p, mapGet t.Participants id = some p) ∧ id ≠ BYE_DUMMY_ID := by
    intro id hid
    have h := (hok.1.2.1 id).mp (hperm.mem_iff.mp hid)
    exact ⟨Option.isSome_iff_exists.mp h.1, h.2⟩
  refine ⟨?_, ?_, ?_⟩
  · intro a b ha hb hab
    obtain ⟨⟨pa, hpa⟩, hane⟩ := hranked a ha
    obtain ⟨⟨pb, hpb⟩, hbne⟩ := hranked b hb
    obtain ⟨x, y, h1, h2⟩ := headToHead_swap t hal hkey a b pa pb hab hane hbne hpa hpb
    have h := (cascade_swap pa pb x y h1 h2).1
    unfold pointsLess
    simp only [hpa, hpb]
    exact h
  · intro a b pa pb ha hb hab hpa hpb hlt hgt
    obtain ⟨_, hane⟩ := hranked a ha
    obtain ⟨_, hbne⟩ := hranked b hb
    obtain ⟨x, y, h1, h2⟩ := headToHead_swap t hal hkey a b pa pb hab hane hbne hpa hpb
    unfold pointsLess at hlt hgt
    simp only [hpa, hpb] at hlt hgt
    obtain ⟨e1, e2, e3⟩ := (cascade_swap pa pb x y h1 h2).2 hlt hgt
    subst e2
    exact ⟨e1, e3, x, h1⟩
  · intro a b c pa pb pc d1 d2 d3 hpa hpb hpc hab hbc hac h1 h2
    unfold pointsLess at h1 h2 ⊢
    simp only [hpa, hpb, hpc] at h1 h2 ⊢
    exact cascade_silent_trans pa pb pc d1 d2 d3 hab hbc hac h1 h2

/-- C19, as amended, in the scenario after the first round: of every two
distinct ranked players the comparison places at least one before the
other. -/
theorem cascade_order_in_lockstep_witness :
    SortContract (insertionSort (α := ID)) ∧
    Start insertionSort (register (NewTournament "My Tournament" 5) scenario)
      = some (after (roundOne.take 5)) ∧
    Lockstep insertionSort (after (roundOne.take 5)) (after roundOne) ∧
    (∀ a b, a ∈ (after roundOne).PointsRank → b ∈ (after roundOne).PointsRank → a ≠ b →
      pointsLess (after roundOne) a b = some true ∨
        pointsLess (after roundOne) b a = some true) := by
  have hstart : Start insertionSort (register (NewTournament "My Tournament" 5) scenario)
      = some (after (roundOne.take 5)) := by decide
  have hplay : Lockstep insertionSort (after (roundOne.take 5)) (after roundOne) :=
    lockstep_run insertionSort _ (roundOne.drop 5) _ _ Lockstep.started (by decide)
  exact ⟨insertionSort_contract, hstart, hplay,
    (cascade_order_in_lockstep insertionSort insertionSort_contract
      "My Tournament" 5 scenario _ _ hstart hplay).1⟩

/-! ## Stability of the insertion sort -/

theorem pair_sublist_append {α : Type} (a b : α) (l1 l2 : List α) :
    List.Sublist [a, b] (l1 ++ l2) ↔
      List.Sublist [a, b] l1 ∨ (a ∈ l1 ∧ b ∈ l2) ∨ List.Sublist [a, b] l2 := by
  constructor
  · intro h
    obtain ⟨k1, k2, e, h1, h2⟩ := List.sublist_append_iff.mp h
    match k1, e, h1 with
    | [], e, _ =>
      simp only [List.nil_append] at e
      subst e
      exact Or.inr (Or.inr h2)
    | [c], e, h1 =>
      simp only [List.singleton_append, List.cons.injEq] at e
      obtain ⟨e1, e2⟩ := e
      subst e1
      subst e2
      exact Or.inr (Or.inl ⟨List.singleton_sublist.mp h1, List.singleton_sublist.mp h2⟩)
    | c :: d :: rest, e, h1 =>
      simp only [List.cons_append, List.cons.injEq] at e
      obtain ⟨e1, e2, e3⟩ := e
      subst e1
      subst e2
      have hr : rest = [] := by
        cases rest with
        | nil => rfl
        | cons _ _ => simp at e3
      subst hr
      exact Or.inl h1
  · rintro (h | ⟨ha, hb⟩ | h)
    · exact h.trans (List.sublist_append_left l1 l2)
    · exact (List.singleton_sublist.mpr ha).append (List.singleton_sublist.mpr hb)
    · exact h.trans (List.sublist_append_right l1 l2)

theorem pair_sublist_snoc {α : Type} (a b x : α) (l : List α) :
    List.Sublist [a, b] (l ++ [x]) ↔ List.Sublist [a, b] l ∨ (a ∈ l ∧ b = x) := by
  rw [pair_sublist_append]
  constructor
  · rintro (h | ⟨ha, hb⟩ | h)
    · exact Or.inl h
    · exact Or.inr ⟨ha, by simpa using hb⟩
    · have := h.length_le
      simp at this
  · rintro (h | ⟨ha, hb⟩)
    · exact Or.inl h
    · exact Or.inr (Or.inl ⟨ha, by simp [hb]⟩)

theorem pair_sublist_of_index {α : Type} (l : List α) (a b : α) (i j : Nat) (hij : i < j)
    (hi : l[i]? = some a) (hj : l[j]? = some b) : List.Sublist [a, b] l := by
  have hp : l.Pairwise (fun u v => List.Sublist [u, v] l) :=
    List.pairwise_iff_forall_sublist.mpr (fun h => h)
  obtain ⟨hil, hia⟩ := List.getElem?_eq_some.mp hi
  obtain ⟨hjl, hjb⟩ := List.getElem?_eq_some.mp hj
  have := List.pairwise_iff_getElem.mp hp i j hil hjl hij
  rw [hia, hjb] at this
  exact this

theorem index_of_pair_sublist {α : Type} (l : List α) (a b : α) (h : List.Sublist [a, b] l) :
    ∃ i j : Nat, i < j ∧ l[i]? = some a ∧ l[j]? = some b := by
  have hp : l.Pairwise (fun u v => ∃ i j : Nat, i < j ∧ l[i]? = some u ∧ l[j]? = some v) :=
    List.pairwise_iff_getElem.mpr (fun i j hi hj hij =>
      ⟨i, j, hij, List.getElem?_eq_getElem hi, List.getElem?_eq_getElem hj⟩)
  exact List.pairwise_iff_forall_sublist.mp hp h

/-- An element moved left by `bubbleLeft` passes only elements it is less
than: two elements keep their order unless the later is less than the
earlier. -/
theorem bubbleLeft_stable {α : Type} (less : α → α → Option Bool) (x : α) :
    ∀ (ys r : List α), bubbleLeft less x ys = some r →
      ∀ a b, less b a = some false → List.Sublist [a, b] (ys.reverse ++ [x]) →
        List.Sublist [a, b] r.reverse := by
  intro ys
  induction ys with
  | nil =>
    intro r h a b _ hs
    simp [bubbleLeft] at h
    subst h
    simp at hs
  | cons y ys ih =>
    intro r h a b hba hs
    unfold bubbleLeft at h
    cases hl : less x y with
    | none => simp [hl] at h
    | some c =>
      cases c with
      | false =>
        simp only [hl, Option.some.injEq] at h
        subst h
        simpa using hs
      | true =>
        simp only [hl] at h
        cases h0 : bubbleLeft less x ys with
        | none => simp [h0] at h
        | some r0 =>
          simp only [h0, Option.map_some', Option.some.injEq] at h
          subst h
          have hperm := bubbleLeft_perm less x ys r0 h0
          rw [List.reverse_cons, pair_sublist_snoc]
          rw [List.reverse_cons, pair_sublist_snoc, pair_sublist_snoc] at hs
          rcases hs with (hs | ⟨ha, hb⟩) | ⟨ha, hb⟩
          · exact Or.inl (ih r0 h0 a b hba ((pair_sublist_snoc a b x _).mpr (Or.inl hs)))
          · refine Or.inr ⟨?_, hb⟩
            rw [List.mem_reverse] at ha ⊢
            exact hperm.mem_iff.mpr (List.mem_cons_of_mem _ ha)
          · rw [List.mem_append, List.mem_singleton] at ha
            rcases ha with ha | ha
            · exact Or.inl (ih r0 h0 a b hba
                ((pair_sublist_snoc a b x _).mpr (Or.inr ⟨ha, hb⟩)))
            · subst ha
              subst hb
              rw [hl] at hba
              cases hba

theorem insertionLoop_stable {α : Type} (less : α → α → Option Bool) :
    ∀ (rest done r : List α), insertionLoop less done rest = some r →
      ∀ a b, less b a = some false → List.Sublist [a, b] (done.reverse ++ rest) →
        List.Sublist [a, b] r := by
  intro rest
  induction rest with
  | nil =>
    intro done r h a b _ hs
    simp [insertionLoop] at h
    subst h
    simpa using hs
  | cons x rest ih =>
    intro done r h a b hba hs
    unfold insertionLoop at h
    cases hb : bubbleLeft less x done with
    | none => simp [hb] at h
    | some done' =>
      simp only [hb] at h
      have hperm := bubbleLeft_perm less x done done' hb
      refine ih done' r h a b hba ?_
      have e : done.reverse ++ x :: rest = (done.reverse ++ [x]) ++ rest := by simp
      rw [e, pair_sublist_append] at hs
      rw [pair_sublist_append]
      rcases hs with hs | ⟨ha, hb'⟩ | hs
      · exact Or.inl (bubbleLeft_stable less x done done' hb a b hba hs)
      · refine Or.inr (Or.inl ⟨?_, hb'⟩)
        rw [List.mem_reverse]
        refine hperm.mem_iff.mpr ?_
        rw [List.mem_append, List.mem_reverse, List.mem_singleton] at ha
        rcases ha with ha | ha
        · exact List.mem_cons_of_mem _ ha
        · subst ha; exact List.mem_cons_self _ _
      · exact Or.inr (Or.inr hs)

/-- The insertion sort is stable: of two elements the later of which is not
less than the earlier, the earlier stays the earlier. -/
theorem insertionSort_stable {α : Type} (less : α → α → Option Bool) (xs r : List α)
    (h : insertionSort less xs = some r) (a b : α) (hba : less b a = some false)
    (hs : List.Sublist [a, b] xs) : List.Sublist [a, b] r :=
  insertionLoop_stable less xs [] r h a b hba (by simpa using hs)

set_option maxRecDepth 100000 in
/-- C16 as stated fails. Thirteen participants, the first twelve of rating
1000 and the last of rating 2000. The library sort, on thirteen elements,
picks the seventh as pivot and partitions: its first swap exchanges the first
and the seventh element, and no later step brings P01 back to the front of
the players of rating 1000. After `Start`, P07 and P03 to P06 come before
P01, although P01 was registered first and their ratings are equal:
P01 has `RatingPos` 7, P03 has 3. -/
theorem start_unstable_counterexample :
    (register (NewTournament "My Tournament" 5) thirteen).RatingsRank
      = ["P01", "P02", "P03", "P04", "P05", "P06", "P07", "P08", "P09", "P10", "P11", "P12",
        "P13"] ∧
    (Start pdqsortThirteen (register (NewTournament "My Tournament" 5) thirteen)).map
      Tournament.RatingsRank
      = some ["P13", "P07", "P03", "P04", "P05", "P06", "P01", "P08", "P09", "P10", "P11",
        "P12", "P02"] ∧
    ((Start pdqsortThirteen (register (NewTournament "My Tournament" 5) thirteen)).bind
      (fun t => mapGet t.Participants "P01")).map (fun p => (p.Rating, p.RatingPos))
      = some (1000, 7) ∧
    ((Start pdqsortThirteen (register (NewTournament "My Tournament" 5) thirteen)).bind
      (fun t => mapGet t.Participants "P03")).map (fun p => (p.Rating, p.RatingPos))
      = some (1000, 3) := by
  decide

/-- C16, as amended. With at most twelve registered players the rating sort
of `Start` is stable: of two registered players of equal rating, the one
earlier in `RatingsRank` before `Start` is earlier in `RatingsRank` after
`Start` and has the smaller `RatingPos`. -/
theorem start_stable_up_to_twelve (long : Sorter) (name : String) (rounds : Nat)
    (regs : List (ID × Int)) (t0 : Tournament)
    (hstart : Start long (register (NewTournament name rounds) regs) = some t0)
    (hlen : (register (NewTournament name rounds) regs).RatingsRank.length ≤ 12)
    (a b : ID) (pa pb : Player) (i j : Nat) (hij : i < j)
    (hi : (register (NewTournament name rounds) regs).RatingsRank[i]? = some a)
    (hj : (register (NewTournament name rounds) regs).RatingsRank[j]? = some b)
    (hpa : mapGet (register (NewTournament name rounds) regs).Participants a = some pa)
    (hpb : mapGet (register (NewTournament name rounds) regs).Participants b = some pb)
    (heq : pa.Rating = pb.Rating) :
    ∃ (i' j' : Nat) (pa' pb' : Player), i' < j' ∧
      t0.RatingsRank[i']? = some a ∧ t0.RatingsRank[j']? = some b ∧
      mapGet t0.Participants a = some pa' ∧ mapGet t0.Participants b = some pb' ∧
      pa'.RatingPos = (i' : Int) + 1 ∧ pb'.RatingPos = (j' : Int) + 1 ∧
      pa'.RatingPos < pb'.RatingPos := by
  have hsame : Start insertionSort (register (NewTournament name rounds) regs) = some t0 := by
    rw [← hstart]
    unfold Start
    rw [sortSlice_small long _ _ hlen, sortSlice_small insertionSort _ _ hlen]
  have hsorted := (start_lists insertionSort _ t0 hsame).1
  rw [sortSlice_small insertionSort _ _ hlen] at hsorted
  have hless : ratingLess (register (NewTournament name rounds) regs) b a = some false := by
    unfold ratingLess
    simp only [hpa, hpb, heq]
    simp
  have hsub := insertionSort_stable _ _ _ hsorted a b hless
    (pair_sublist_of_index _ a b i j hij hi hj)
  obtain ⟨i', j', hij', hi', hj'⟩ := index_of_pair_sublist _ a b hsub
  obtain ⟨_, _, _, _, _, hpos, _⟩ :=
    start_facts insertionSort insertionSort_contract name rounds regs t0 hsame
  obtain ⟨pa', hpa', hra, _⟩ := hpos i' a hi'
  obtain ⟨pb', hpb', hrb, _⟩ := hpos j' b hj'
  refine ⟨i', j', pa', pb', hij', hi', hj', hpa', hpb', hra, hrb, ?_⟩
  rw [hra, hrb]
  have : (i' : Int) < (j' : Int) := by exact_mod_cast hij'
  exact Int.add_lt_add_right this 1

/-- C16, as amended, on three participants: A and C have the same rating
and A was registered first; after `Start`, A comes before C. -/
theorem start_stable_up_to_twelve_witness :
    Start insertionSort (register (NewTournament "My Tournament" 5) threeTied)
      = some (after [Op.add "A" 1000, Op.add "B" 2000, Op.add "C" 1000, Op.start]) ∧
    (after [Op.add "A" 1000, Op.add "B" 2000, Op.add "C" 1000, Op.start]).RatingsRank
      = ["B", "A", "C"] ∧
    ∃ (i' j' : Nat) (pa' pb' : Player), i' < j' ∧
      (after [Op.add "A" 1000, Op.add "B" 2000, Op.add "C" 1000, Op.start]).RatingsRank[i']?
        = some "A" ∧
      (after [Op.add "A" 1000, Op.add "B" 2000, Op.add "C" 1000, Op.start]).RatingsRank[j']?
        = some "C" ∧
      mapGet (after [Op.add "A" 1000, Op.add "B" 2000, Op.add "C" 1000, Op.start]).Participants
        "A" = some pa' ∧
      mapGet (after [Op.add "A" 1000, Op.add "B" 2000, Op.add "C" 1000, Op.start]).Participants
        "C" = some pb' ∧
      pa'.RatingPos = (i' : Int) + 1 ∧ pb'.RatingPos = (j' : Int) + 1 ∧
      pa'.RatingPos < pb'.RatingPos :=
  ⟨by decide, by decide,
    start_stable_up_to_twelve insertionSort "My Tournament" 5 threeTied _ (by decide) (by decide)
      "A" "C"
      { ID := "A", Rating := 1000, Points := zero, RatingPos := 0, PointsPos := 0,
          Results := [] }
      { ID := "C", Rating := 1000, Points := zero, RatingPos := 0, PointsPos := 0,
          Results := [] }
      0 2 (by decide) (by decide) (by decide) (by decide) (by decide) rfl⟩

/-! ## Positions after the points sort -/

end BbPairing
